import Mathlib

/-!
Verification development for the microbmp BMP codec (src/microbmp/__init__.py).

The Python module is shallowly embedded as follows:
- a Python `bytes`/`bytearray` value is a `List Nat` whose entries are < 256
  in every reachable state (every theorem about genuine byte streams carries
  that bound as a hypothesis where it matters);
- Python `None`-able attributes become `Option` fields;
- Python exceptions become `Option`/`Except` results.  `read_io` and
  `write_io` return `Except`, whose `error` case carries the state observable
  at the time of the exception (the mutated image, and for `write_io` also
  the bytes already written to the sink);
- Python `//` and `%` (floor division / nonnegative remainder, always used
  with positive divisors here) become `Int.ediv` / `Int.emod`, which agree
  with Python semantics for positive divisors;
- sequential reads from a `BytesIO` become `bioRead` (take/drop; a negative
  count reads to EOF, as `BytesIO.read` does);
- `bf_io.tell()` at the end of `write_io` equals the number of bytes written
  because the sink starts empty, so the model reports the sink list itself.
-/

/-- Python indexing `l[i]` on a bytearray/bytes: negative indices count from
the end; out of range raises (modelled as `none`). -/
def pyGet (l : List Nat) (i : Int) : Option Nat :=
  if 0 ≤ i then l.get? i.toNat
  else if 0 ≤ i + l.length then l.get? (i + l.length).toNat
  else none

/-- Python item assignment `l[i] = v` on a bytearray: negative indices count
from the end; out of range or a value outside 0..255 raises. -/
def pySet (l : List Nat) (i : Int) (v : Nat) : Option (List Nat) :=
  if v < 256 then
    if 0 ≤ i then
      if i < (l.length : Int) then some (l.set i.toNat v) else none
    else if 0 ≤ i + l.length then some (l.set (i + l.length).toNat v)
    else none
  else none

/-- Python slicing `l[a:b]` for `0 ≤ a ≤ b` (never raises, may be short). -/
def pySlice (l : List Nat) (a b : Nat) : List Nat :=
  (l.drop a).take (b - a)

/-- Sequential read of `n` bytes from a `BytesIO`: returns what is available;
a negative count reads to EOF.  Result: (bytes read, remaining stream). -/
def bioRead (bs : List Nat) (n : Int) : List Nat × List Nat :=
  if n < 0 then (bs, []) else (bs.take n.toNat, bs.drop n.toNat)

/-- Value of a little-endian byte list. -/
def leNat : List Nat → Nat
  | [] => 0
  | b :: t => b + 256 * leNat t

/-- Little-endian byte list of given width for a natural number. -/
def toLE : Nat → Nat → List Nat
  | _, 0 => []
  | n, w + 1 => n % 256 :: toLE (n / 256) w

/-- struct.pack "<I": 4 little-endian bytes; raises unless 0 ≤ n < 2^32. -/
def packU32 (n : Int) : Option (List Nat) :=
  if 0 ≤ n ∧ n.toNat < 4294967296 then some (toLE n.toNat 4) else none

/-- struct.pack "<i": 4 little-endian two's-complement bytes; raises unless
-2^31 ≤ n < 2^31. -/
def packI32 (n : Int) : Option (List Nat) :=
  if -((2147483648 : Nat) : Int) ≤ n ∧ n < ((2147483648 : Nat) : Int) then
    some (toLE (n.emod ((4294967296 : Nat) : Int)).toNat 4)
  else none

/-- struct.pack "<H": 2 little-endian bytes; raises unless 0 ≤ n < 2^16. -/
def packU16 (n : Nat) : Option (List Nat) :=
  if n < 65536 then some (toLE n 2) else none

/-- struct.unpack "<I": requires exactly 4 bytes. -/
def unpackU32 (l : List Nat) : Option Nat :=
  if l.length = 4 then some (leNat l) else none

/-- Two's-complement reading of a 32-bit unsigned value. -/
def toSigned32 (n : Nat) : Int :=
  if n < 2147483648 then (n : Int) else (n : Int) - 4294967296

/-- struct.unpack "<iiHHIIii" of `l[0:28]`: width, height (signed), planes,
depth, compression, raw size (unsigned), hres, vres (signed).  Requires at
least 28 bytes. -/
def unpackDIB (l : List Nat) :
    Option (Int × Int × Nat × Nat × Nat × Nat × Int × Int) :=
  if 28 ≤ l.length then
    some (toSigned32 (leNat (pySlice l 0 4)), toSigned32 (leNat (pySlice l 4 8)),
      leNat (pySlice l 8 10), leNat (pySlice l 10 12), leNat (pySlice l 12 16),
      leNat (pySlice l 16 20), toSigned32 (leNat (pySlice l 20 24)),
      toSigned32 (leNat (pySlice l 24 28)))
  else none

/-- The dynamically-typed value stored at one pixel: a palette index (also
used for a single 24-bit channel) or an RGB triple. -/
inductive PixValue where
  | idx : Nat → PixValue
  | rgb : Nat → Nat → Nat → PixValue
deriving DecidableEq, Repr

/-- The `MicroBMP` object: every Python attribute becomes a field; attributes
that can be `None` become `Option` fields.  Defaults are the `__init__`
defaults (before `_init` runs). -/
structure MicroBMP where
  BMP_id : List Nat := [66, 77]
  BMP_size : Option Int := none
  BMP_reserved1 : List Nat := [0, 0]
  BMP_reserved2 : List Nat := [0, 0]
  BMP_offset : Option Int := none
  DIB_len : Nat := 40
  DIB_w : Option Int := none
  DIB_h : Option Int := none
  DIB_planes_num : Nat := 1
  DIB_depth : Option Nat := none
  DIB_comp : Nat := 0
  DIB_raw_size : Option Int := none
  DIB_hres : Int := 2835
  DIB_vres : Int := 2835
  DIB_num_in_plt : Option Nat := none
  DIB_extra : Option (List Nat) := none
  palette : Option (List (List Nat)) := none
  parray : Option (List Nat) := none
  ppb : Option Nat := none
  pmask : Option Nat := none
  row_size : Option Int := none
  padded_row_size : Option Int := none
  initialised : Bool := false
deriving DecidableEq, Repr

/-- A freshly constructed `MicroBMP()` with no arguments, before `_init`. -/
def MicroBMP.empty : MicroBMP := {}

/-- `_size_from_width`: `(width * depth + 7) // 8` (the depth argument is
`self.DIB_depth`, passed explicitly). -/
def MicroBMP.size_from_width (depth : Nat) (width : Int) : Int :=
  (width * (depth : Int) + 7).ediv 8

/-- `_padded_size_from_size`: `(size + 3) // 4 * 4`. -/
def MicroBMP.padded_size_from_size (size : Int) : Int :=
  (size + 3).ediv 4 * 4

/-- `_extract_from_bytes(data, index)`: read one packed pixel value.  Uses
`self.ppb`, `self.DIB_depth`, `self.pmask` (`None` raises, modelled `none`);
a shift amount that would be negative in Python raises (unreachable for
validated fields). -/
def MicroBMP.extract_from_bytes (img : MicroBMP) (data : List Nat) (index : Int) : Option Nat :=
  match img.ppb, img.pmask, img.DIB_depth with
  | some ppb, some pmask, some depth =>
    if ppb = 0 then none
    else
      let byte_index := index.ediv (ppb : Int)
      let pos_in_byte := (index.emod (ppb : Int)).toNat
      if 8 < depth * (pos_in_byte + 1) then none
      else
        match pyGet data byte_index with
        | some b => some ((b >>> (8 - depth * (pos_in_byte + 1))) &&& pmask)
        | none => none
  | _, _, _ => none

/-- `_fill_in_bytes(data, index, value)`: write one packed pixel value.  The
Python expression `data[byte_index] & ~(pmask << shift)` is written as a
subtraction of the common bits, which is the same function on nonnegative
integers. -/
def MicroBMP.fill_in_bytes (img : MicroBMP) (data : List Nat) (index : Int) (value : Nat) :
    Option (List Nat) :=
  match img.ppb, img.pmask, img.DIB_depth with
  | some ppb, some pmask, some depth =>
    if ppb = 0 then none
    else
      let byte_index := index.ediv (ppb : Int)
      let pos_in_byte := (index.emod (ppb : Int)).toNat
      if 8 < depth * (pos_in_byte + 1) then none
      else
        let shift := 8 - depth * (pos_in_byte + 1)
        let v := value &&& pmask
        match pyGet data byte_index with
        | some b => pySet data byte_index ((b - (b &&& (pmask <<< shift))) + (v <<< shift))
        | none => none
  | _, _, _ => none

/-- `__getitem__` with key `(k0, k1)` or `(k0, k1, c)`.  Asserts the image is
initialised and `k0 < width and k1 < height` (note: no lower bound). -/
def MicroBMP.getitem (img : MicroBMP) (k0 k1 : Int) (k2 : Option Int) : Option PixValue :=
  if ¬ img.initialised then none
  else
    match img.DIB_w, img.DIB_h, img.DIB_depth, img.parray with
    | some w, some h, some depth, some pa =>
      if k0 < w ∧ k1 < h then
        let pindex := k1 * w + k0
        if depth ≤ 8 then
          (img.extract_from_bytes pa pindex).map PixValue.idx
        else
          let p3 := pindex * 3
          match k2 with
          | some c =>
            if c = 0 ∨ c = 1 ∨ c = 2 then
              (pyGet pa (p3 + c)).map PixValue.idx
            else
              match pyGet pa p3, pyGet pa (p3 + 1), pyGet pa (p3 + 2) with
              | some r, some g, some b => some (PixValue.rgb r g b)
              | _, _, _ => none
          | none =>
            match pyGet pa p3, pyGet pa (p3 + 1), pyGet pa (p3 + 2) with
            | some r, some g, some b => some (PixValue.rgb r g b)
            | _, _, _ => none
      else none
    | _, _, _, _ => none

/-- `__setitem__` with key `(k0, k1)` or `(k0, k1, c)` and an index, channel
or RGB-triple value.  A value of the wrong dynamic type raises (`none`); the
three channel stores of a triple are modelled atomically. -/
def MicroBMP.setitem (img : MicroBMP) (k0 k1 : Int) (k2 : Option Int) (value : PixValue) :
    Option MicroBMP :=
  if ¬ img.initialised then none
  else
    match img.DIB_w, img.DIB_h, img.DIB_depth, img.parray with
    | some w, some h, some depth, some pa =>
      if k0 < w ∧ k1 < h then
        let pindex := k1 * w + k0
        if depth ≤ 8 then
          match value with
          | PixValue.idx v =>
            match img.fill_in_bytes pa pindex v with
            | some pa2 => some { img with parray := some pa2 }
            | none => none
          | PixValue.rgb _ _ _ => none
        else
          let p3 := pindex * 3
          match k2 with
          | some c =>
            if c = 0 ∨ c = 1 ∨ c = 2 then
              match value with
              | PixValue.idx v =>
                match pySet pa (p3 + c) v with
                | some pa2 => some { img with parray := some pa2 }
                | none => none
              | PixValue.rgb _ _ _ => none
            else
              match value with
              | PixValue.rgb r g b =>
                match pySet pa p3 r with
                | some pa1 =>
                  match pySet pa1 (p3 + 1) g with
                  | some pa2 =>
                    match pySet pa2 (p3 + 2) b with
                    | some pa3 => some { img with parray := some pa3 }
                    | none => none
                  | none => none
                | none => none
              | PixValue.idx _ => none
          | none =>
            match value with
            | PixValue.rgb r g b =>
              match pySet pa p3 r with
              | some pa1 =>
                match pySet pa1 (p3 + 1) g with
                | some pa2 =>
                  match pySet pa2 (p3 + 2) b with
                  | some pa3 => some { img with parray := some pa3 }
                  | none => none
                | none => none
              | none => none
            | PixValue.idx _ => none
      else none
    | _, _, _, _ => none

/-- `_init`: validation and derivation of computed fields.  Returns `none`
when an assertion (or the pixel-array allocation) raises, `some (false, ·)`
when width/height/depth are unset, `some (true, ·)` on success. -/
def MicroBMP.init (img : MicroBMP) : Option (Bool × MicroBMP) :=
  match img.DIB_w, img.DIB_h, img.DIB_depth with
  | some w, some h, some depth =>
    if img.BMP_id = [66, 77] ∧ img.BMP_reserved1.length = 2 ∧ img.BMP_reserved2.length = 2 ∧
        img.DIB_planes_num = 1 ∧ (depth = 1 ∨ depth = 2 ∨ depth = 4 ∨ depth = 8 ∨ depth = 24) ∧
        (img.DIB_comp = 0 ∨ (depth = 8 ∧ img.DIB_comp = 1) ∨ (depth = 4 ∧ img.DIB_comp = 2)) then
      let indexed := depth ≤ 8
      let ppb? : Option Nat := if indexed then some (8 / depth) else none
      let pmask? : Option Nat := if indexed then some (255 >>> (8 - depth)) else none
      let numPal : Nat × Option (List (List Nat)) :=
        if indexed then
          match img.palette with
          | none =>
            (2 ^ depth, some ((List.range (2 ^ depth)).map fun i =>
              [255 * i / (2 ^ depth - 1), 255 * i / (2 ^ depth - 1), 255 * i / (2 ^ depth - 1)]))
          | some plt => (plt.length, some plt)
        else (0, none)
      let parray? : Option (List Nat) :=
        match img.parray with
        | some pa => some pa
        | none =>
          if indexed then
            let dv := (w * h).ediv ((8 / depth : Nat) : Int)
            let md := (w * h).emod ((8 / depth : Nat) : Int)
            let sz := dv + (if md = 0 then 0 else 1)
            if sz < 0 then none else some (List.replicate sz.toNat 0)
          else
            let sz := w * h * 3
            if sz < 0 then none else some (List.replicate sz.toNat 0)
      match parray? with
      | none => none
      | some pa =>
        let plt_size := numPal.1 * 4
        let offset : Int := 14 + (img.DIB_len : Int) + (plt_size : Int)
        let rs := MicroBMP.size_from_width depth w
        let prs := MicroBMP.padded_size_from_size rs
        some (true, { img with
          ppb := ppb?, pmask := pmask?, DIB_num_in_plt := some numPal.1,
          palette := numPal.2, parray := some pa, BMP_offset := some offset,
          row_size := some rs, padded_row_size := some prs,
          DIB_raw_size := if img.DIB_comp = 0 then some (prs * h) else img.DIB_raw_size,
          BMP_size := if img.DIB_comp = 0 then some (offset + prs * h) else img.BMP_size,
          initialised := true })
    else none
  | _, _, _ => some (false, { img with initialised := false })

/-- The `MicroBMP(width, height, depth, palette)` constructor: sets the given
attributes, then runs `_init` (whose boolean result is ignored); an exception
in `_init` propagates (`none`). -/
def MicroBMP.create (width height : Option Int) (depth : Option Nat)
    (palette : Option (List (List Nat))) : Option MicroBMP :=
  let img := { MicroBMP.empty with
    DIB_w := width, DIB_h := height, DIB_depth := depth, palette := palette }
  match img.init with
  | none => none
  | some (_, img2) => some img2

/-- Common shape of the pixel-emitting loops (`for i in range(n): self[x, y] = v; x += 1`):
each element is the value computed for that iteration (`none` when computing
it raises, e.g. an IndexError on a short buffer); the loop stops with the
current state on the first failure. -/
def MicroBMP.emitPixels (img : MicroBMP) (x y : Int) :
    List (Option PixValue) → Except MicroBMP (MicroBMP × Int)
  | [] => .ok (img, x)
  | v? :: vs =>
    match v? with
    | none => .error img
    | some v =>
      match img.setitem x y none v with
      | some img2 => img2.emitPixels (x + 1) y vs
      | none => .error img

theorem bioRead_snd_length (bs : List Nat) (n : Int) : (bioRead bs n).2.length ≤ bs.length := by
  unfold bioRead
  split <;> simp

/-- `_decode_rle` main loop with explicit cursor.  Each iteration reads a
2-byte record `(a, b)`; source exhaustion raises with the current state. -/
def MicroBMP.decode_rle_loop (img : MicroBMP) (x y : Int) (bs : List Nat) :
    Except MicroBMP MicroBMP :=
  match bs with
  | [] => .error img
  | [_] => .error img
  | a :: b :: rest =>
    if a = 0 then
      if b = 0 then img.decode_rle_loop 0 (y - 1) rest
      else if b = 1 then .ok img
      else if b = 2 then
        match rest with
        | [] => .error img
        | [_] => .error img
        | dx :: dy :: rest2 => img.decode_rle_loop (x + (dx : Int)) (y - (dy : Int)) rest2
      else
        match img.DIB_depth with
        | none => .error img
        | some depth =>
          let num_of_pixels := b
          let num_to_read := ((MicroBMP.size_from_width depth (num_of_pixels : Int) + 1).ediv 2) * 2
          let rd := bioRead rest num_to_read
          match img.emitPixels x y ((List.range num_of_pixels).map fun i =>
              (img.extract_from_bytes rd.1 ((i : Nat) : Int)).map PixValue.idx) with
          | .error e => .error e
          | .ok (img2, x2) => img2.decode_rle_loop x2 y rd.2
    else
      -- encoded run: `bytes([data[1]])` raises unless b < 256
      if 256 ≤ b then .error img
      else
        match img.ppb with
        | none => .error img
        | some ppb =>
          if ppb = 0 then .error img
          else
            match img.emitPixels x y ((List.range a).map fun i =>
                (img.extract_from_bytes [b] ((i % ppb : Nat) : Int)).map PixValue.idx) with
            | .error e => .error e
            | .ok (img2, x2) => img2.decode_rle_loop x2 y rest
termination_by bs.length
decreasing_by
  all_goals simp only [List.length_cons]
  all_goals
    (first
      | omega
      | exact lt_of_le_of_lt (bioRead_snd_length _ _) (by omega))

/-- `_decode_rle`: the cursor starts at `(0, DIB_h - 1)` (bottom-up). -/
def MicroBMP.decode_rle (img : MicroBMP) (bs : List Nat) : Except MicroBMP MicroBMP :=
  match img.DIB_h with
  | none => .error img
  | some h => img.decode_rle_loop 0 (h - 1) bs

/-- Palette-reading loop of `read_io`: `count` 4-byte entries, each stored as
`[data[2], data[1], data[0]]` (BGR on disk, RGB in memory).  On a raise the
error state carries the entries read so far (Python would additionally hold
`None` placeholders for the rest; no claim observes that). -/
def MicroBMP.readPltLoop (img : MicroBMP) (acc : List (List Nat)) (bs : List Nat) :
    Nat → Except MicroBMP (MicroBMP × List Nat)
  | 0 => .ok ({ img with palette := some acc }, bs)
  | n + 1 =>
    let rd := bioRead bs 4
    match pyGet rd.1 2, pyGet rd.1 1, pyGet rd.1 0 with
    | some r, some g, some b =>
      if r < 256 ∧ g < 256 ∧ b < 256 then
        MicroBMP.readPltLoop img (acc ++ [[r, g, b]]) rd.2 n
      else .error { img with palette := some acc }
    | _, _, _ => .error { img with palette := some acc }

/-- Uncompressed (BI_RGB) row-reading loop of `read_io`.  `H`, `W`, `depth`
and `prs` (padded row size) are the corresponding fields of the freshly
re-initialised image, which the loop itself never modifies. -/
def MicroBMP.readRows (img : MicroBMP) (is_top_down : Bool) (H W : Int) (depth : Nat)
    (prs : Int) (bs : List Nat) : List Nat → Except MicroBMP MicroBMP
  | [] => .ok img
  | hIdx :: hs =>
    let y : Int := if is_top_down then (hIdx : Int) else H - (hIdx : Int) - 1
    let rd := bioRead bs prs
    let vals : List (Option PixValue) :=
      if depth ≤ 8 then
        (List.range W.toNat).map fun xi =>
          (img.extract_from_bytes rd.1 ((xi : Nat) : Int)).map PixValue.idx
      else
        (List.range W.toNat).map fun xi =>
          match pyGet rd.1 ((xi * 3 + 2 : Nat) : Int), pyGet rd.1 ((xi * 3 + 1 : Nat) : Int),
              pyGet rd.1 ((xi * 3 : Nat) : Int) with
          | some r, some g, some b => some (PixValue.rgb r g b)
          | _, _, _ => none
    match img.emitPixels 0 y vals with
    | .error e => .error e
    | .ok (img2, _) => MicroBMP.readRows img2 is_top_down H W depth prs rd.2 hs

/-- `read_io`: parse a BMP byte stream into the image, mutating it field by
field exactly as the Python does; the `error` state is the object as left at
the moment the exception was raised. -/
def MicroBMP.read_io (img0 : MicroBMP) (bs0 : List Nat) : Except MicroBMP MicroBMP :=
  -- BMP Header
  let rd := bioRead bs0 14
  let data := rd.1
  let bs1 := rd.2
  let imgA := { img0 with BMP_id := pySlice data 0 2 }
  match unpackU32 (pySlice data 2 6) with
  | none => .error imgA
  | some bmpSize =>
  let imgB := { imgA with
    BMP_size := some (bmpSize : Int),
    BMP_reserved1 := pySlice data 6 8, BMP_reserved2 := pySlice data 8 10 }
  match unpackU32 (pySlice data 10 14) with
  | none => .error imgB
  | some off =>
  let imgC := { imgB with BMP_offset := some (off : Int) }
  -- DIB Header
  let rd2 := bioRead bs1 4
  match unpackU32 (pySlice rd2.1 0 4) with
  | none => .error imgC
  | some dibLen =>
  let imgD := { imgC with DIB_len := dibLen }
  let rd3 := bioRead rd2.2 ((dibLen : Int) - 4)
  let data3 := rd3.1
  let bs3 := rd3.2
  match unpackDIB data3 with
  | none => .error imgD
  | some (w, hh, planes, depth, comp, rawSize, hres, vres) =>
  let imgE := { imgD with
    DIB_w := some w, DIB_h := some hh, DIB_planes_num := planes,
    DIB_depth := some depth, DIB_comp := comp, DIB_raw_size := some (rawSize : Int),
    DIB_hres := hres, DIB_vres := vres }
  match unpackU32 (pySlice data3 28 32) with
  | none => .error imgE
  | some pltNumInfo =>
  match unpackU32 (pySlice data3 32 36) with
  | none => .error imgE
  | some _ =>
  let imgF := if 40 < dibLen then { imgE with DIB_extra := some (data3.drop 36) } else imgE
  -- Palette
  let pltStep : Except MicroBMP (MicroBMP × List Nat) :=
    if depth ≤ 8 then
      let num := if pltNumInfo = 0 then 2 ^ depth else pltNumInfo
      MicroBMP.readPltLoop { imgF with DIB_num_in_plt := some num } [] bs3 num
    else .ok (imgF, bs3)
  match pltStep with
  | .error e => .error e
  | .ok (imgG, bs4) =>
  -- In case DIB_h < 0 for top-down format
  let norm : MicroBMP × Bool :=
    if hh < 0 then ({ imgG with DIB_h := some (-hh) }, true) else (imgG, false)
  let imgH := { norm.1 with parray := none }
  match imgH.init with
  | none => .error imgH
  | some (false, imgI) => .error imgI
  | some (true, imgI) =>
    if imgI.DIB_comp = 0 then
      -- BI_RGB
      match imgI.DIB_h, imgI.DIB_w, imgI.DIB_depth, imgI.padded_row_size with
      | some H, some W, some depth2, some prs =>
        MicroBMP.readRows imgI norm.2 H W depth2 prs bs4 (List.range H.toNat)
      | _, _, _, _ => .error imgI
    else
      -- BI_RLE8 or BI_RLE4
      imgI.decode_rle bs4

/-- Inner pixel loop of `write_io` for indexed depths over the given `x`
values of one row `y`: `self[x, y] %= num`, accumulate `self[x, y]` into the
byte accumulator `d`, emit a byte at every `ppb` boundary.  `num`, `ppb` and
`depth` are the corresponding fields (unchanged by the loop); the error case
carries the sink and state at the raise. -/
def MicroBMP.writeRowPixels (img : MicroBMP) (y : Int) (num ppb depth : Nat)
    (sink : List Nat) (d : Nat) :
    List Nat → Except (List Nat × MicroBMP) (List Nat × MicroBMP × Nat)
  | [] => .ok (sink, img, d)
  | x :: xs =>
    match img.getitem (x : Int) y none with
    | some (PixValue.idx v) =>
      if num = 0 then .error (sink, img)
      else
        match img.setitem (x : Int) y none (PixValue.idx (v % num)) with
        | some img1 =>
          match img1.getitem (x : Int) y none with
          | some (PixValue.idx v2) =>
            let d1 := (d <<< (depth % 8)) + v2
            if x % ppb = ppb - 1 then
              if d1 < 256 then img1.writeRowPixels y num ppb depth (sink ++ [d1]) 0 xs
              else .error (sink, img1)
            else img1.writeRowPixels y num ppb depth sink d1 xs
          | _ => .error (sink, img1)
        | none => .error (sink, img)
    | _ => .error (sink, img)

/-- Inner pixel loop of `write_io` for 24-bit depth over the given `x` values
of one row `y`: write `bytes([b, g, r])` per pixel. -/
def MicroBMP.writeRowRGB (img : MicroBMP) (y : Int) (sink : List Nat) :
    List Nat → Except (List Nat × MicroBMP) (List Nat × MicroBMP)
  | [] => .ok (sink, img)
  | x :: xs =>
    match img.getitem (x : Int) y none with
    | some (PixValue.rgb r g b) =>
      if b < 256 ∧ g < 256 ∧ r < 256 then
        img.writeRowRGB y (sink ++ [b, g, r]) xs
      else .error (sink, img)
    | _ => .error (sink, img)

/-- Palette-writing loop of `write_io`: each colour as `bytes([c2, c1, c0, 0])`. -/
def MicroBMP.writePltLoop (img : MicroBMP) (sink : List Nat) :
    List (List Nat) → Except (List Nat × MicroBMP) (List Nat)
  | [] => .ok sink
  | colour :: rest =>
    match pyGet colour 2, pyGet colour 1, pyGet colour 0 with
    | some c2, some c1, some c0 =>
      if c2 < 256 ∧ c1 < 256 ∧ c0 < 256 then
        MicroBMP.writePltLoop img (sink ++ [c2, c1, c0, 0]) rest
      else .error (sink, img)
    | _, _, _ => .error (sink, img)

/-- Row loop of `write_io` (rows bottom-up).  `H`, `W`, `depth`, `rs`
(row size), `prs` (padded row size), `num`, `ppb` are the corresponding
fields of the freshly re-initialised image, which the loop never modifies.
When `W ≤ 0` and there is a row to write, the Python `x` loop variable is
unbound after the loop and the indexed tail-byte check raises a NameError. -/
def MicroBMP.writeRows (img : MicroBMP) (H W : Int) (depth : Nat) (rs prs : Int)
    (num ppb : Nat) (sink : List Nat) :
    List Nat → Except (List Nat × MicroBMP) (List Nat × MicroBMP)
  | [] => .ok (sink, img)
  | hIdx :: hs =>
    let y : Int := H - (hIdx : Int) - 1
    let rowStep : Except (List Nat × MicroBMP) (List Nat × MicroBMP) :=
      if depth ≤ 8 then
        match img.writeRowPixels y num ppb depth sink 0 (List.range W.toNat) with
        | .error e => .error e
        | .ok (sink1, img1, d) =>
          if W.toNat = 0 then .error (sink1, img1)
          else
            let x := W.toNat - 1
            if x % ppb ≠ ppb - 1 then
              let sh : Int := 8 - (depth : Int) - ((x % ppb : Nat) : Int) * ((2 ^ (depth - 1) : Nat) : Int)
              if sh < 0 then .error (sink1, img1)
              else
                let d2 := d <<< sh.toNat
                if d2 < 256 then .ok (sink1 ++ [d2], img1)
                else .error (sink1, img1)
            else .ok (sink1, img1)
      else
        img.writeRowRGB y sink (List.range W.toNat)
    match rowStep with
    | .error e => .error e
    | .ok (sink2, img2) =>
      MicroBMP.writeRows img2 H W depth rs prs num ppb
        (sink2 ++ List.replicate (prs - rs).toNat 0) hs

/-- Pixel-row stage of `write_io`: the final `for` loop writing the
bottom-up padded rows, reading `row_size`, `padded_row_size` and `ppb` from
the image. -/
def MicroBMP.writePixelStage (imgC : MicroBMP) (w hh : Int) (depth num : Nat)
    (sink5 : List Nat) : Except (List Nat × MicroBMP) (List Nat × MicroBMP) :=
  match imgC.row_size, imgC.padded_row_size, imgC.ppb with
  | some rs, some prs, ppbf =>
    let ppbv := match ppbf with
      | some p => p
      | none => 0
    MicroBMP.writeRows imgC hh w depth rs prs num ppbv sink5 (List.range hh.toNat)
  | _, _, _ => .error (sink5, imgC)

/-- Extra-bytes and palette stage of `write_io`: writes `DIB_extra` when the
DIB header is longer than 40 bytes, then the BGR0 palette for indexed
depths. -/
def MicroBMP.writePaletteStage (imgC : MicroBMP) (w hh : Int) (depth num : Nat)
    (sink3 : List Nat) : Except (List Nat × MicroBMP) (List Nat × MicroBMP) :=
  let extraStep : Except (List Nat × MicroBMP) (List Nat) :=
    if 40 < imgC.DIB_len then
      match imgC.DIB_extra with
      | none => .error (sink3, imgC)
      | some ex => .ok (sink3 ++ ex)
    else .ok sink3
  match extraStep with
  | .error e => .error e
  | .ok sink4 =>
    let pltStep : Except (List Nat × MicroBMP) (List Nat) :=
      if depth ≤ 8 then
        match imgC.palette with
        | none => .error (sink4, imgC)
        | some plt => imgC.writePltLoop sink4 plt
      else .ok sink4
    match pltStep with
    | .error e => .error e
    | .ok sink5 => imgC.writePixelStage w hh depth num sink5

/-- DIB-header stage of `write_io`: a single `struct.pack` call for the
40-byte info header (all-or-nothing). -/
def MicroBMP.writeDIBStage (imgC : MicroBMP) (w hh : Int) (depth : Nat) (raw : Int)
    (num : Nat) (sink2 : List Nat) : Except (List Nat × MicroBMP) (List Nat × MicroBMP) :=
  let dib? : Option (List Nat) :=
    (packU32 (imgC.DIB_len : Int)).bind fun f1 =>
    (packI32 w).bind fun f2 =>
    (packI32 hh).bind fun f3 =>
    (packU16 imgC.DIB_planes_num).bind fun f4 =>
    (packU16 depth).bind fun f5 =>
    (packU32 (imgC.DIB_comp : Int)).bind fun f6 =>
    (packU32 raw).bind fun f7 =>
    (packI32 imgC.DIB_hres).bind fun f8 =>
    (packI32 imgC.DIB_vres).bind fun f9 =>
    (packU32 (num : Int)).bind fun f10 =>
    (packU32 (num : Int)).bind fun f11 =>
    some (f1 ++ f2 ++ f3 ++ f4 ++ f5 ++ f6 ++ f7 ++ f8 ++ f9 ++ f10 ++ f11)
  match dib? with
  | none => .error (sink2, imgC)
  | some dibB => imgC.writePaletteStage w hh depth num (sink2 ++ dibB)

/-- BMP-header stage of `write_io`: magic, file size, reserved fields and
pixel-array offset, then the DIB header and the rest. -/
def MicroBMP.writeHeaderStage (imgC : MicroBMP) :
    Except (List Nat × MicroBMP) (List Nat × MicroBMP) :=
  let sink0 := imgC.BMP_id
  match imgC.BMP_size with
  | none => .error (sink0, imgC)
  | some sz =>
  match packU32 sz with
  | none => .error (sink0, imgC)
  | some szB =>
  let sink1 := sink0 ++ szB ++ imgC.BMP_reserved1 ++ imgC.BMP_reserved2
  match imgC.BMP_offset with
  | none => .error (sink1, imgC)
  | some off =>
  match packU32 off with
  | none => .error (sink1, imgC)
  | some offB =>
  let sink2 := sink1 ++ offB
  match imgC.DIB_w, imgC.DIB_h, imgC.DIB_depth, imgC.DIB_raw_size, imgC.DIB_num_in_plt with
  | some w, some hh, some depth, some raw, some num =>
    imgC.writeDIBStage w hh depth raw num sink2
  | _, _, _, _, _ => .error (sink2, imgC)

/-- `write_io`: serialize the image.  Forces `DIB_comp = 0`, re-runs `_init`,
then writes header, DIB header, palette and bottom-up padded rows (the
stages above, in the linear order of the source).  The `ok` case carries
the full sink (whose length is the byte count `write_io` returns) and the
mutated image; the `error` case carries the bytes already written when the
exception was raised, and the state. -/
def MicroBMP.write_io (img0 : MicroBMP) (force_40B_DIB : Bool) :
    Except (List Nat × MicroBMP) (List Nat × MicroBMP) :=
  let imgA := if force_40B_DIB then { img0 with DIB_len := 40, DIB_extra := none } else img0
  let imgB := { imgA with DIB_comp := 0 }
  match imgB.init with
  | none => .error ([], imgB)
  | some (false, imgC) => .error ([], imgC)
  | some (true, imgC) => imgC.writeHeaderStage

/-! ## Byte-level packing lemmas

`extByte`/`fillByte` are the one-byte read/write operations of
`_extract_from_bytes`/`_fill_in_bytes` with the byte, slot and (pre-masked)
value made explicit. -/

/-- One-byte packed read at a slot: `(b >> shift) & mask`. -/
def extByte (d slot b : Nat) : Nat :=
  (b >>> (8 - d * (slot + 1))) &&& (2 ^ d - 1)

/-- One-byte packed write at a slot: clear the slot bits, or in the masked
value. -/
def fillByte (d slot b v : Nat) : Nat :=
  (b - (b &&& ((2 ^ d - 1) <<< (8 - d * (slot + 1))))) +
    ((v &&& (2 ^ d - 1)) <<< (8 - d * (slot + 1)))

theorem and_shiftLeft (x y k : Nat) : x &&& (y <<< k) = ((x >>> k) &&& y) <<< k := by
  apply Nat.eq_of_testBit_eq
  intro i
  rw [Nat.testBit_and, Nat.testBit_shiftLeft, Nat.testBit_shiftLeft, Nat.testBit_and,
    Nat.testBit_shiftRight]
  by_cases h : k ≤ i
  · simp [h, Nat.add_sub_cancel' h, Bool.and_left_comm, Bool.and_comm, Bool.and_assoc]
  · simp [h]

theorem shift_decomp (d m : Nat) (hdm : d * m = 8) (k : Nat) (hk : k < m) :
    8 - d * (k + 1) = d * (m - 1 - k) := by
  have h1 : d * (k + 1) ≤ d * m := Nat.mul_le_mul_left d (by omega)
  have h2 : d * (m - 1 - k) + d * (k + 1) = d * m := by
    rw [← Nat.mul_add]
    congr 1
    omega
  omega

-- arithmetic form of extByte
theorem extByte_eq_div_mod (d m : Nat) (hdm : d * m = 8) (k : Nat) (hk : k < m) (b : Nat) :
    extByte d k b = b / 2 ^ (d * (m - 1 - k)) % 2 ^ d := by
  rw [extByte, shift_decomp d m hdm k hk, Nat.shiftRight_eq_div_pow,
    Nat.and_pow_two_sub_one_eq_mod]

-- arithmetic form of fillByte
theorem fillByte_eq_arith (d m : Nat) (hdm : d * m = 8) (k : Nat) (hk : k < m) (b v : Nat) :
    fillByte d k b v =
      (b - b / 2 ^ (d * (m - 1 - k)) % 2 ^ d * 2 ^ (d * (m - 1 - k))) +
        v % 2 ^ d * 2 ^ (d * (m - 1 - k)) := by
  rw [fillByte, shift_decomp d m hdm k hk, and_shiftLeft, Nat.shiftLeft_eq, Nat.shiftLeft_eq,
    Nat.shiftRight_eq_div_pow, Nat.and_pow_two_sub_one_eq_mod, Nat.and_pow_two_sub_one_eq_mod]

theorem fillByte_lt (d m : Nat) (hdm : d * m = 8) (s : Nat) (hs : s < m)
    (b v : Nat) (hb : b < 256) : fillByte d s b v < 256 := by
  rw [fillByte_eq_arith d m hdm s hs]
  set sh := d * (m - 1 - s) with hshdef
  have hshd : sh + d ≤ 8 := by
    have : d * (m - 1 - s) + d = d * (m - s) := by
      rw [← Nat.mul_succ]
      congr 1
      omega
    have h2 : d * (m - s) ≤ d * m := Nat.mul_le_mul_left d (by omega)
    omega
  have hA : b / 2 ^ (sh + d) < 2 ^ (8 - (sh + d)) := by
    apply Nat.div_lt_of_lt_mul
    calc b < 256 := hb
    _ = 2 ^ 8 := by norm_num
    _ = 2 ^ (8 - (sh + d)) * 2 ^ (sh + d) := by rw [← pow_add]; congr 1; omega
    _ = 2 ^ (sh + d) * 2 ^ (8 - (sh + d)) := by ring
  -- decompose b
  have hbdec : b = b / 2 ^ (sh + d) * 2 ^ (sh + d) + b / 2 ^ sh % 2 ^ d * 2 ^ sh + b % 2 ^ sh := by
    have e1 : b = 2 ^ sh * (b / 2 ^ sh) + b % 2 ^ sh := (Nat.div_add_mod _ _).symm
    have e2 : b / 2 ^ sh = 2 ^ d * (b / 2 ^ sh / 2 ^ d) + b / 2 ^ sh % 2 ^ d :=
      (Nat.div_add_mod _ _).symm
    have e3 : b / 2 ^ sh / 2 ^ d = b / 2 ^ (sh + d) := by
      rw [Nat.div_div_eq_div_mul, ← pow_add]
    have e4 : (2 : Nat) ^ (sh + d) = 2 ^ sh * 2 ^ d := pow_add 2 sh d
    calc b = 2 ^ sh * (b / 2 ^ sh) + b % 2 ^ sh := e1
    _ = 2 ^ sh * (2 ^ d * (b / 2 ^ (sh + d)) + b / 2 ^ sh % 2 ^ d) + b % 2 ^ sh := by
        rw [← e3, ← e2]
    _ = b / 2 ^ (sh + d) * (2 ^ sh * 2 ^ d) + b / 2 ^ sh % 2 ^ d * 2 ^ sh + b % 2 ^ sh := by
        ring
    _ = _ := by rw [← e4]
  have hsub : b - b / 2 ^ sh % 2 ^ d * 2 ^ sh
      = b / 2 ^ (sh + d) * 2 ^ (sh + d) + b % 2 ^ sh := by
    omega
  rw [hsub]
  have hC : b % 2 ^ sh < 2 ^ sh := Nat.mod_lt _ (Nat.pos_pow_of_pos _ (by norm_num))
  have hr : v % 2 ^ d < 2 ^ d := Nat.mod_lt _ (Nat.pos_pow_of_pos _ (by norm_num))
  have key : b / 2 ^ (sh + d) * 2 ^ (sh + d) + b % 2 ^ sh + v % 2 ^ d * 2 ^ sh
      < (b / 2 ^ (sh + d) + 1) * 2 ^ (sh + d) := by
    have : b % 2 ^ sh + v % 2 ^ d * 2 ^ sh < 2 ^ (sh + d) := by
      calc b % 2 ^ sh + v % 2 ^ d * 2 ^ sh
          < 2 ^ sh + v % 2 ^ d * 2 ^ sh := by omega
      _ ≤ 2 ^ sh + (2 ^ d - 1) * 2 ^ sh := by
          have : v % 2 ^ d ≤ 2 ^ d - 1 := by omega
          exact Nat.add_le_add_left (Nat.mul_le_mul_right _ this) _
      _ = 2 ^ d * 2 ^ sh := by
          have hd1 : 1 ≤ 2 ^ d := Nat.one_le_two_pow
          calc 2 ^ sh + (2 ^ d - 1) * 2 ^ sh = (1 + (2 ^ d - 1)) * 2 ^ sh := by ring
          _ = 2 ^ d * 2 ^ sh := by congr 1; omega
      _ = 2 ^ (sh + d) := by rw [← pow_add]; ring_nf
    calc b / 2 ^ (sh + d) * 2 ^ (sh + d) + b % 2 ^ sh + v % 2 ^ d * 2 ^ sh
        = b / 2 ^ (sh + d) * 2 ^ (sh + d) + (b % 2 ^ sh + v % 2 ^ d * 2 ^ sh) := by ring
    _ < b / 2 ^ (sh + d) * 2 ^ (sh + d) + 2 ^ (sh + d) := by omega
    _ = (b / 2 ^ (sh + d) + 1) * 2 ^ (sh + d) := by ring
  have hfin : (b / 2 ^ (sh + d) + 1) * 2 ^ (sh + d) ≤ 256 := by
    have h1 : b / 2 ^ (sh + d) + 1 ≤ 2 ^ (8 - (sh + d)) := hA
    calc (b / 2 ^ (sh + d) + 1) * 2 ^ (sh + d) ≤ 2 ^ (8 - (sh + d)) * 2 ^ (sh + d) :=
        Nat.mul_le_mul_right _ h1
    _ = 2 ^ 8 := by rw [← pow_add]; congr 1; omega
    _ = 256 := by norm_num
  omega

theorem byte_decomp (b sh d : Nat) :
    b = b / 2 ^ (sh + d) * 2 ^ (sh + d) + b / 2 ^ sh % 2 ^ d * 2 ^ sh + b % 2 ^ sh := by
  have e1 : b = 2 ^ sh * (b / 2 ^ sh) + b % 2 ^ sh := (Nat.div_add_mod _ _).symm
  have e2 : b / 2 ^ sh = 2 ^ d * (b / 2 ^ sh / 2 ^ d) + b / 2 ^ sh % 2 ^ d :=
    (Nat.div_add_mod _ _).symm
  have e3 : b / 2 ^ sh / 2 ^ d = b / 2 ^ (sh + d) := by
    rw [Nat.div_div_eq_div_mul, ← pow_add]
  have e4 : (2 : Nat) ^ (sh + d) = 2 ^ sh * 2 ^ d := pow_add 2 sh d
  calc b = 2 ^ sh * (b / 2 ^ sh) + b % 2 ^ sh := e1
  _ = 2 ^ sh * (2 ^ d * (b / 2 ^ (sh + d)) + b / 2 ^ sh % 2 ^ d) + b % 2 ^ sh := by
      rw [← e3, ← e2]
  _ = b / 2 ^ (sh + d) * (2 ^ sh * 2 ^ d) + b / 2 ^ sh % 2 ^ d * 2 ^ sh + b % 2 ^ sh := by
      ring
  _ = _ := by rw [← e4]

theorem ext_aux_low (d A C X sh u : Nat) (hud : u + d ≤ sh) :
    (A * 2 ^ (sh + d) + C + X * 2 ^ sh) / 2 ^ u % 2 ^ d = C / 2 ^ u % 2 ^ d := by
  have harr : A * 2 ^ (sh + d) + C + X * 2 ^ sh
      = C + 2 ^ d * (2 ^ (sh - u - d) * (A * 2 ^ d + X)) * 2 ^ u := by
    have e1 : (2 : Nat) ^ (sh + d) = 2 ^ d * 2 ^ (sh - u - d) * 2 ^ d * 2 ^ u := by
      rw [← pow_add, ← pow_add, ← pow_add]
      congr 1
      omega
    have e2 : (2 : Nat) ^ sh = 2 ^ d * 2 ^ (sh - u - d) * 2 ^ u := by
      rw [← pow_add, ← pow_add]
      congr 1
      omega
    rw [e1, e2]
    ring
  rw [harr, Nat.add_mul_div_right _ _ (Nat.pos_pow_of_pos u (by norm_num))]
  have harr2 : C / 2 ^ u + 2 ^ d * (2 ^ (sh - u - d) * (A * 2 ^ d + X))
      = 2 ^ d * (2 ^ (sh - u - d) * (A * 2 ^ d + X)) + C / 2 ^ u := by ring
  rw [harr2, Nat.mul_add_mod]

theorem ext_aux_high (d A C X sh u : Nat) (hud : sh + d ≤ u) (hC : C < 2 ^ sh)
    (hX : X < 2 ^ d) :
    (A * 2 ^ (sh + d) + C + X * 2 ^ sh) / 2 ^ u % 2 ^ d
      = A / 2 ^ (u - (sh + d)) % 2 ^ d := by
  have e1 : (2 : Nat) ^ u = 2 ^ (sh + d) * 2 ^ (u - (sh + d)) := by
    rw [← pow_add]
    congr 1
    omega
  rw [e1, ← Nat.div_div_eq_div_mul]
  have harr : A * 2 ^ (sh + d) + C + X * 2 ^ sh = (C + X * 2 ^ sh) + A * 2 ^ (sh + d) := by
    ring
  have hrem : C + X * 2 ^ sh < 2 ^ (sh + d) := by
    have hx1 : X ≤ 2 ^ d - 1 := by omega
    have hd1 : (1 : Nat) ≤ 2 ^ d := Nat.one_le_two_pow
    calc C + X * 2 ^ sh < 2 ^ sh + X * 2 ^ sh := by omega
    _ ≤ 2 ^ sh + (2 ^ d - 1) * 2 ^ sh := Nat.add_le_add_left (Nat.mul_le_mul_right _ hx1) _
    _ = (1 + (2 ^ d - 1)) * 2 ^ sh := by ring
    _ = 2 ^ d * 2 ^ sh := by congr 1; omega
    _ = 2 ^ (sh + d) := by rw [← pow_add]; ring_nf
  rw [harr, Nat.add_mul_div_right _ _ (Nat.pos_pow_of_pos (sh + d) (by norm_num)),
    Nat.div_eq_of_lt hrem, Nat.zero_add]

theorem extByte_fillByte (d m : Nat) (hdm : d * m = 8) (s t : Nat) (hs : s < m) (ht : t < m)
    (b v : Nat) :
    extByte d t (fillByte d s b v) = if t = s then v % 2 ^ d else extByte d t b := by
  have hM : (0 : Nat) < 2 ^ d := Nat.pos_pow_of_pos _ (by norm_num)
  rw [fillByte_eq_arith d m hdm s hs]
  by_cases hts : t = s
  · subst hts
    rw [if_pos rfl, extByte_eq_div_mod d m hdm t ht]
    set sh := d * (m - 1 - t) with hshdef
    have hbdec := byte_decomp b sh d
    have hsub : b - b / 2 ^ sh % 2 ^ d * 2 ^ sh
        = b / 2 ^ (sh + d) * 2 ^ (sh + d) + b % 2 ^ sh := by omega
    rw [hsub]
    have hC : b % 2 ^ sh < 2 ^ sh := Nat.mod_lt _ (Nat.pos_pow_of_pos _ (by norm_num))
    have hr : v % 2 ^ d < 2 ^ d := Nat.mod_lt _ hM
    have harr : b / 2 ^ (sh + d) * 2 ^ (sh + d) + b % 2 ^ sh + v % 2 ^ d * 2 ^ sh
        = b % 2 ^ sh + (b / 2 ^ (sh + d) * 2 ^ d + v % 2 ^ d) * 2 ^ sh := by
      rw [pow_add]
      ring
    rw [harr, Nat.add_mul_div_right _ _ (Nat.pos_pow_of_pos sh (by norm_num)),
      Nat.div_eq_of_lt hC]
    have harr2 : (0 : Nat) + (b / 2 ^ (sh + d) * 2 ^ d + v % 2 ^ d)
        = 2 ^ d * (b / 2 ^ (sh + d)) + v % 2 ^ d := by ring
    rw [harr2, Nat.mul_add_mod, Nat.mod_eq_of_lt hr]
  · rw [if_neg hts, extByte_eq_div_mod d m hdm t ht, extByte_eq_div_mod d m hdm t ht]
    set sh := d * (m - 1 - s) with hshdef
    set u := d * (m - 1 - t) with hudef
    set A := b / 2 ^ (sh + d) with hAdef
    set B := b / 2 ^ sh % 2 ^ d with hBdef
    set C := b % 2 ^ sh with hCdef
    have hbdec : b = A * 2 ^ (sh + d) + B * 2 ^ sh + C := byte_decomp b sh d
    have hsub : b - B * 2 ^ sh = A * 2 ^ (sh + d) + C := by omega
    rw [hsub]
    have hC : C < 2 ^ sh := Nat.mod_lt _ (Nat.pos_pow_of_pos _ (by norm_num))
    have hB : B < 2 ^ d := Nat.mod_lt _ hM
    have hr : v % 2 ^ d < 2 ^ d := Nat.mod_lt _ hM
    have hb2 : b = A * 2 ^ (sh + d) + C + B * 2 ^ sh := by omega
    rw [hb2]
    have hd0 : 0 < d := by
      rcases Nat.eq_zero_or_pos d with h0 | h0
      · subst h0; omega
      · exact h0
    rcases Nat.lt_or_ge s t with hst | hst
    · -- s < t means the slot shift of t is lower: u + d ≤ sh
      have hud : u + d * (t - s) = sh := by
        rw [hudef, hshdef, ← Nat.mul_add]
        congr 1
        omega
      have hdle : d ≤ d * (t - s) := Nat.le_mul_of_pos_right d (by omega)
      have hush : u + d ≤ sh := by omega
      rw [ext_aux_low d A C (v % 2 ^ d) sh u hush, ext_aux_low d A C B sh u hush]
    · -- t < s: the slot shift of t is higher: sh + d ≤ u
      have hst2 : t < s := by omega
      have hud : sh + d * (s - t) = u := by
        rw [hudef, hshdef, ← Nat.mul_add]
        congr 1
        omega
      have hdle : d ≤ d * (s - t) := Nat.le_mul_of_pos_right d (by omega)
      have hush : sh + d ≤ u := by omega
      rw [ext_aux_high d A C (v % 2 ^ d) sh u hush hC hr,
        ext_aux_high d A C B sh u hush hC hB]

/-! ## Access-layer lemmas for indexed images -/

theorem pyGet_ofNat (l : List Nat) (i : Nat) : pyGet l (i : Int) = l.get? i := by
  simp [pyGet]

theorem pySet_ofNat (l : List Nat) (i v : Nat) (h : i < l.length) (hv : v < 256) :
    pySet l (i : Int) v = some (l.set i v) := by
  simp [pySet, hv, h]

theorem lget (l : List Nat) (i : Nat) (h : i < l.length) : l.get? i = some (l.getD i 0) := by
  simp [List.getD_eq_getElem?_getD, List.getElem?_eq_getElem h, List.get?_eq_getElem?]

theorem lsetne (l : List Nat) (i j c : Nat) (h : i ≠ j) :
    (l.set i c).getD j 0 = l.getD j 0 := by
  simp [List.getD_eq_getElem?_getD, List.getElem?_set_ne h]

theorem lseteq (l : List Nat) (i c : Nat) (h : i < l.length) : (l.set i c).getD i 0 = c := by
  rw [List.getD_eq_getElem?_getD, List.getElem?_set_self]
  · rfl
  · exact h

theorem lmem (l : List Nat) (i : Nat) (h : i < l.length) : l.getD i 0 ∈ l := by
  rw [List.getD_eq_getElem?_getD, List.getElem?_eq_getElem h]
  exact List.getElem_mem _

/-- The four legal indexed depths, with the facts used everywhere. -/
theorem depth_facts (d : Nat) (hd : d = 1 ∨ d = 2 ∨ d = 4 ∨ d = 8) :
    d * (8 / d) = 8 ∧ 0 < d ∧ 0 < 8 / d ∧ d ≤ 8 ∧ 255 >>> (8 - d) = 2 ^ d - 1 := by
  rcases hd with rfl | rfl | rfl | rfl <;> decide

/-- A well-formed in-memory indexed image: validated fields, a pixel array of
at least the allocated size, all bytes in range. -/
def MicroBMP.IndexedOK (img : MicroBMP) (d w h : Nat) (ps : List Nat) : Prop :=
  img.initialised = true ∧
  img.DIB_depth = some d ∧
  (d = 1 ∨ d = 2 ∨ d = 4 ∨ d = 8) ∧
  img.ppb = some (8 / d) ∧
  img.pmask = some (2 ^ d - 1) ∧
  img.DIB_w = some (w : Int) ∧
  img.DIB_h = some (h : Int) ∧
  img.parray = some ps ∧
  (w * h + (8 / d) - 1) / (8 / d) ≤ ps.length ∧
  (∀ b ∈ ps, b < 256)

instance (img : MicroBMP) (d w h : Nat) (ps : List Nat) :
    Decidable (img.IndexedOK d w h ps) := by
  unfold MicroBMP.IndexedOK
  infer_instance

theorem pix_byte_lt (p n m L : Nat) (hm : 0 < m) (hp : p < n) (hL : (n + m - 1) / m ≤ L) :
    p / m < L := by
  have h1 : n + m - 1 = (n - 1) + m := by omega
  have h2 : ((n - 1) + m) / m = (n - 1) / m + 1 := Nat.add_div_right _ hm
  have h3 : (n + m - 1) / m = ((n - 1) + m) / m := by rw [h1]
  have h4 : p / m ≤ (n - 1) / m := Nat.div_le_div_right (by omega)
  omega

/-- Distinct in-range pixel coordinates have distinct linear indices. -/
theorem index_inj (w x y x2 y2 : Nat) (hx : x < w) (hx2 : x2 < w)
    (he : y2 * w + x2 = y * w + x) : x2 = x ∧ y2 = y := by
  have hw : 0 < w := by omega
  have e1 : (y2 * w + x2) / w = y2 + x2 / w := by
    rw [Nat.mul_comm y2 w, Nat.mul_add_div hw]
  have e2 : (y * w + x) / w = y + x / w := by
    rw [Nat.mul_comm y w, Nat.mul_add_div hw]
  have e3 : x2 / w = 0 := Nat.div_eq_of_lt hx2
  have e4 : x / w = 0 := Nat.div_eq_of_lt hx
  have hy : y2 = y := by
    have := congrArg (fun t => t / w) he
    simp only at this
    omega
  subst hy
  omega

/-- The value of pixel (x, y) stored in an indexed pixel array. -/
def pixVal (d w : Nat) (ps : List Nat) (x y : Nat) : Nat :=
  extByte d ((y * w + x) % (8 / d)) (ps.getD ((y * w + x) / (8 / d)) 0)

theorem Int_ediv_coe (p q : Nat) : (p : Int).ediv (q : Int) = ((p / q : Nat) : Int) := rfl

theorem Int_emod_coe (p q : Nat) : (p : Int).emod (q : Int) = ((p % q : Nat) : Int) := rfl

theorem extract_spec (img : MicroBMP) (d w h : Nat) (ps data : List Nat)
    (hok : img.IndexedOK d w h ps) (p : Nat) (hp : p / (8 / d) < data.length) :
    img.extract_from_bytes data (p : Int)
      = some (extByte d (p % (8 / d)) (data.getD (p / (8 / d)) 0)) := by
  obtain ⟨hini, hdep, hd, hppb, hpmask, hw, hh, hpa, hlen, hbytes⟩ := hok
  obtain ⟨hdm, hd0, hm0, hd8, hpm⟩ := depth_facts d hd
  have hmod : p % (8 / d) < 8 / d := Nat.mod_lt _ hm0
  have hguard : ¬ (8 < d * (p % (8 / d) + 1)) := by
    have h1 : d * (p % (8 / d) + 1) ≤ d * (8 / d) := Nat.mul_le_mul_left d (by omega)
    omega
  have hm0n : ¬ (8 / d = 0) := by omega
  simp only [MicroBMP.extract_from_bytes, hppb, hpmask, hdep, Int_ediv_coe, Int_emod_coe,
    Int.toNat_ofNat, pyGet_ofNat, if_neg hm0n, if_neg hguard,
    lget data _ hp, extByte]

theorem fill_spec (img : MicroBMP) (d w h : Nat) (ps : List Nat)
    (hok : img.IndexedOK d w h ps) (p : Nat) (hp : p / (8 / d) < ps.length) (v : Nat) :
    img.fill_in_bytes ps (p : Int) v
      = some (ps.set (p / (8 / d)) (fillByte d (p % (8 / d)) (ps.getD (p / (8 / d)) 0) v)) := by
  obtain ⟨hini, hdep, hd, hppb, hpmask, hw, hh, hpa, hlen, hbytes⟩ := hok
  obtain ⟨hdm, hd0, hm0, hd8, hpm⟩ := depth_facts d hd
  have hmod : p % (8 / d) < 8 / d := Nat.mod_lt _ hm0
  have hguard : ¬ (8 < d * (p % (8 / d) + 1)) := by
    have h1 : d * (p % (8 / d) + 1) ≤ d * (8 / d) := Nat.mul_le_mul_left d (by omega)
    omega
  have hm0n : ¬ (8 / d = 0) := by omega
  have hbyte : ps.getD (p / (8 / d)) 0 < 256 := hbytes _ (lmem ps _ hp)
  have hnew : fillByte d (p % (8 / d)) (ps.getD (p / (8 / d)) 0) v < 256 :=
    fillByte_lt d (8 / d) hdm _ hmod _ v hbyte
  simp only [MicroBMP.fill_in_bytes, hppb, hpmask, hdep, Int_ediv_coe, Int_emod_coe,
    Int.toNat_ofNat, pyGet_ofNat, if_neg hm0n, if_neg hguard, lget ps _ hp]
  exact pySet_ofNat _ _ _ hp hnew

theorem getitem_spec (img : MicroBMP) (d w h : Nat) (ps : List Nat)
    (hok : img.IndexedOK d w h ps) (x y : Nat) (hx : x < w) (hy : y < h) :
    img.getitem (x : Int) (y : Int) none = some (PixValue.idx (pixVal d w ps x y)) := by
  have hok2 := hok
  obtain ⟨hini, hdep, hd, hppb, hpmask, hw, hh, hpa, hlen, hbytes⟩ := hok2
  obtain ⟨hdm, hd0, hm0, hd8, hpm⟩ := depth_facts d hd
  have hbnd : (x : Int) < (w : Int) ∧ (y : Int) < (h : Int) :=
    ⟨Int.ofNat_lt.mpr hx, Int.ofNat_lt.mpr hy⟩
  have hpi : (y : Int) * (w : Int) + (x : Int) = ((y * w + x : Nat) : Int) := by push_cast; ring
  have hplt : y * w + x < w * h := by
    calc y * w + x < y * w + w := by omega
    _ = (y + 1) * w := by ring
    _ ≤ h * w := Nat.mul_le_mul_right w (by omega)
    _ = w * h := Nat.mul_comm h w
  have hbl : (y * w + x) / (8 / d) < ps.length :=
    pix_byte_lt _ _ _ _ hm0 hplt (le_trans (by omega) hlen)
  simp only [MicroBMP.getitem, hini, hdep, hw, hh, hpa, Bool.not_true, if_neg,
    Bool.false_eq_true, if_false, hbnd, if_true, hpi, if_pos hd8,
    extract_spec img d w h ps ps hok _ hbl, Option.map_some]
  rfl

theorem setitem_spec (img : MicroBMP) (d w h : Nat) (ps : List Nat)
    (hok : img.IndexedOK d w h ps) (x y : Nat) (hx : x < w) (hy : y < h) (v : Nat) :
    img.setitem (x : Int) (y : Int) none (PixValue.idx v)
      = some { img with parray := some (ps.set ((y * w + x) / (8 / d))
          (fillByte d ((y * w + x) % (8 / d)) (ps.getD ((y * w + x) / (8 / d)) 0) v)) } := by
  have hok2 := hok
  obtain ⟨hini, hdep, hd, hppb, hpmask, hw, hh, hpa, hlen, hbytes⟩ := hok2
  obtain ⟨hdm, hd0, hm0, hd8, hpm⟩ := depth_facts d hd
  have hbnd : (x : Int) < (w : Int) ∧ (y : Int) < (h : Int) :=
    ⟨Int.ofNat_lt.mpr hx, Int.ofNat_lt.mpr hy⟩
  have hpi : (y : Int) * (w : Int) + (x : Int) = ((y * w + x : Nat) : Int) := by push_cast; ring
  have hplt : y * w + x < w * h := by
    calc y * w + x < y * w + w := by omega
    _ = (y + 1) * w := by ring
    _ ≤ h * w := Nat.mul_le_mul_right w (by omega)
    _ = w * h := Nat.mul_comm h w
  have hbl : (y * w + x) / (8 / d) < ps.length :=
    pix_byte_lt _ _ _ _ hm0 hplt (le_trans (by omega) hlen)
  simp only [MicroBMP.setitem, hini, hdep, hw, hh, hpa, Bool.not_true, Bool.false_eq_true,
    if_false, hbnd, if_true, hpi, if_pos hd8,
    fill_spec img d w h ps hok _ hbl v]
  simp

theorem pixVal_le (d w : Nat) (ps : List Nat) (x y : Nat) :
    pixVal d w ps x y ≤ 2 ^ d - 1 := Nat.and_le_right

/-- Reading any pixel after a packed write: the written pixel reads back as
`v % 2^d`, every other pixel is unchanged. -/
theorem pixVal_set_spec (d w h : Nat) (hd : d = 1 ∨ d = 2 ∨ d = 4 ∨ d = 8) (ps : List Nat)
    (hlen : (w * h + (8 / d) - 1) / (8 / d) ≤ ps.length)
    (x y x2 y2 v : Nat) (hx : x < w) (hy : y < h) (hx2 : x2 < w) (hy2 : y2 < h) :
    pixVal d w (ps.set ((y * w + x) / (8 / d))
        (fillByte d ((y * w + x) % (8 / d)) (ps.getD ((y * w + x) / (8 / d)) 0) v)) x2 y2
      = if x2 = x ∧ y2 = y then v % 2 ^ d else pixVal d w ps x2 y2 := by
  obtain ⟨hdm, hd0, hm0, hd8, hpm⟩ := depth_facts d hd
  set m := 8 / d with hmdef
  set p := y * w + x with hpdef
  set p2 := y2 * w + x2 with hp2def
  have hplt : p < w * h := by
    calc p < y * w + w := by omega
    _ = (y + 1) * w := by ring
    _ ≤ h * w := Nat.mul_le_mul_right w (by omega)
    _ = w * h := Nat.mul_comm h w
  have hbl : p / m < ps.length := pix_byte_lt _ _ _ _ hm0 hplt (le_trans (by omega) hlen)
  by_cases hsame : x2 = x ∧ y2 = y
  · obtain ⟨rfl, rfl⟩ := hsame
    rw [if_pos ⟨rfl, rfl⟩]
    unfold pixVal
    rw [← hpdef, ← hmdef, lseteq _ _ _ hbl,
      extByte_fillByte d m hdm (p % m) (p % m) (Nat.mod_lt _ hm0) (Nat.mod_lt _ hm0),
      if_pos rfl]
  · rw [if_neg hsame]
    have hp2p : p2 ≠ p := by
      intro he
      exact hsame (index_inj w x y x2 y2 hx hx2 he)
    unfold pixVal
    rw [← hmdef, ← hp2def]
    by_cases hbyte : p2 / m = p / m
    · have hslot : p2 % m ≠ p % m := by
        intro hsl
        apply hp2p
        have e1 := Nat.div_add_mod p m
        have e2 := Nat.div_add_mod p2 m
        rw [hbyte, hsl] at e2
        omega
      rw [hbyte, lseteq _ _ _ hbl,
        extByte_fillByte d m hdm (p % m) (p2 % m) (Nat.mod_lt _ hm0) (Nat.mod_lt _ hm0),
        if_neg hslot]
    · rw [lsetne _ _ _ _ (fun he => hbyte he.symm)]

/-- A packed write preserves well-formedness of the image. -/
theorem IndexedOK_set (img : MicroBMP) (d w h : Nat) (ps : List Nat)
    (hok : img.IndexedOK d w h ps) (i v : Nat) (hlt : i < ps.length)
    (slot : Nat) (hslot : slot < 8 / d) :
    MicroBMP.IndexedOK { img with parray := some (ps.set i
        (fillByte d slot (ps.getD i 0) v)) } d w h
      (ps.set i (fillByte d slot (ps.getD i 0) v)) := by
  obtain ⟨hini, hdep, hd, hppb, hpmask, hw, hh, hpa, hlen, hbytes⟩ := hok
  obtain ⟨hdm, hd0, hm0, hd8, hpm⟩ := depth_facts d hd
  refine ⟨hini, hdep, hd, hppb, hpmask, hw, hh, rfl, ?_, ?_⟩
  · simpa using hlen
  · intro b hb
    rcases List.mem_or_eq_of_mem_set hb with hmem | rfl
    · exact hbytes b hmem
    · exact fillByte_lt d (8 / d) hdm slot hslot _ v (hbytes _ (lmem ps i hlt))

/-- C2: for every indexed image and in-range pixel (x, y) with
`p = y*width + x`, `byte_index = p / pixels_per_byte`, `slot = p % ppb`,
`shift = 8 - depth*(slot+1)` and `mask = (1 <<< depth) - 1`:
reading returns `(byte >> shift) & mask`; writing stores the byte with
exactly the slot bits cleared plus `(value & mask) << shift` in their place
(the cleared bits and the added bits are disjoint, so the sum is the
bitwise or); a get after a set at (x, y) returns `value & mask`; and no
other pixel changes.  The closing conjunct is the depth-1 width-3 example:
packing row indices 1, 1, 0 yields the byte 0b11000000. -/
theorem claim_C2 (img : MicroBMP) (d w h : Nat) (ps : List Nat)
    (hok : img.IndexedOK d w h ps) (x y v : Nat) (hx : x < w) (hy : y < h) :
    (img.getitem (x : Int) (y : Int) none
      = some (PixValue.idx ((ps.getD ((y * w + x) / (8 / d)) 0
          >>> (8 - d * ((y * w + x) % (8 / d) + 1))) &&& ((1 <<< d) - 1)))) ∧
    (img.setitem (x : Int) (y : Int) none (PixValue.idx v)
      = some { img with parray := some (ps.set ((y * w + x) / (8 / d))
          ((ps.getD ((y * w + x) / (8 / d)) 0
              - (ps.getD ((y * w + x) / (8 / d)) 0
                  &&& (((1 <<< d) - 1) <<< (8 - d * ((y * w + x) % (8 / d) + 1)))))
            + ((v &&& ((1 <<< d) - 1)) <<< (8 - d * ((y * w + x) % (8 / d) + 1))))) }) ∧
    (∀ img2, img.setitem (x : Int) (y : Int) none (PixValue.idx v) = some img2 →
      img2.getitem (x : Int) (y : Int) none
        = some (PixValue.idx (v &&& ((1 <<< d) - 1)))) ∧
    (∀ img2, img.setitem (x : Int) (y : Int) none (PixValue.idx v) = some img2 →
      ∀ x2 y2 : Nat, x2 < w → y2 < h → ¬(x2 = x ∧ y2 = y) →
        img2.getitem (x2 : Int) (y2 : Int) none = img.getitem (x2 : Int) (y2 : Int) none) ∧
    ((MicroBMP.create (some 3) (some 1) (some 1) none).bind (fun i0 =>
      (i0.setitem 0 0 none (PixValue.idx 1)).bind fun i1 =>
      (i1.setitem 1 0 none (PixValue.idx 1)).bind fun i2 =>
      (i2.setitem 2 0 none (PixValue.idx 0)).bind fun i3 => i3.parray) = some [192]) := by
  have hok2 := hok
  obtain ⟨hini, hdep, hd, hppb, hpmask, hw, hh, hpa, hlen, hbytes⟩ := hok2
  obtain ⟨hdm, hd0, hm0, hd8, hpm⟩ := depth_facts d hd
  have hmask : (1 <<< d) - 1 = 2 ^ d - 1 := by rw [Nat.shiftLeft_eq, Nat.one_mul]
  set m := 8 / d with hmdef
  set p := y * w + x with hpdef
  have hplt : p < w * h := by
    calc p < y * w + w := by omega
    _ = (y + 1) * w := by ring
    _ ≤ h * w := Nat.mul_le_mul_right w (by omega)
    _ = w * h := Nat.mul_comm h w
  have hbl : p / m < ps.length := pix_byte_lt _ _ _ _ hm0 hplt (le_trans (by omega) hlen)
  have hset := setitem_spec img d w h ps hok x y hx hy v
  refine ⟨?_, ?_, ?_, ?_, by decide⟩
  · rw [getitem_spec img d w h ps hok x y hx hy, hmask]
    rfl
  · rw [hset, hmask]
    rfl
  · intro img2 h2
    rw [hset] at h2
    obtain rfl := Option.some.inj h2
    have hok3 := IndexedOK_set img d w h ps hok (p / m) v hbl (p % m) (Nat.mod_lt _ hm0)
    rw [getitem_spec _ d w h _ hok3 x y hx hy,
      pixVal_set_spec d w h hd ps hlen x y x y v hx hy hx hy, if_pos ⟨rfl, rfl⟩,
      hmask, Nat.and_pow_two_sub_one_eq_mod]
  · intro img2 h2 x2 y2 hx2 hy2 hne
    rw [hset] at h2
    obtain rfl := Option.some.inj h2
    have hok3 := IndexedOK_set img d w h ps hok (p / m) v hbl (p % m) (Nat.mod_lt _ hm0)
    rw [getitem_spec _ d w h _ hok3 x2 y2 hx2 hy2,
      getitem_spec img d w h ps hok x2 y2 hx2 hy2,
      pixVal_set_spec d w h hd ps hlen x y x2 y2 v hx hy hx2 hy2, if_neg hne]

/-- A concrete 3x2 1-bit image used to instantiate theorems. -/
def c2img : MicroBMP :=
  match MicroBMP.create (some 3) (some 2) (some 1) none with
  | some i => i
  | none => MicroBMP.empty

theorem claim_C2_witness :
    c2img.IndexedOK 1 3 2 [0] ∧ (1 : Nat) < 3 ∧ (0 : Nat) < 2 ∧
    c2img.getitem (1 : Nat) (0 : Nat) none
      = some (PixValue.idx ((([0] : List Nat).getD ((0 * 3 + 1) / (8 / 1)) 0
          >>> (8 - 1 * ((0 * 3 + 1) % (8 / 1) + 1))) &&& ((1 <<< 1) - 1))) :=
  ⟨by decide, by decide, by decide,
    (claim_C2 c2img 1 3 2 [0] (by decide) 1 0 5 (by decide) (by decide)).1⟩

/-- C8 (amended): the accessors check only the upper bounds.  For any
initialised image, access with `x ≥ width` or `y ≥ height` fails for both
`__getitem__` and `__setitem__`; negative coordinates are not rejected (see
the counterexample). -/
theorem claim_C8 (img : MicroBMP) (w h : Int) (hw : img.DIB_w = some w)
    (hh : img.DIB_h = some h) (x y : Int) (c : Option Int) (hout : w ≤ x ∨ h ≤ y) :
    img.getitem x y c = none ∧ ∀ v, img.setitem x y c v = none := by
  have hbnd : ¬(x < w ∧ y < h) := by omega
  constructor
  · rw [MicroBMP.getitem, hw, hh]
    cases himg : img.initialised
    · simp
    · cases img.DIB_depth <;> cases img.parray <;> simp [hbnd]
  · intro v
    rw [MicroBMP.setitem, hw, hh]
    cases himg : img.initialised
    · simp
    · cases img.DIB_depth <;> cases img.parray <;> simp [hbnd]

/-- C8 counterexample: on a 3x2 1-bit image, reading at the out-of-bounds
coordinate (-1, 1) does not raise: it silently returns a pixel (Python
negative indexing), contradicting the claim that negative coordinates fail. -/
theorem claim_C8_cex :
    (MicroBMP.create (some 3) (some 2) (some 1) none).bind
      (fun img => img.getitem (-1) 1 none) = some (PixValue.idx 0) := by decide

theorem claim_C8_witness :
    c2img.DIB_w = some 3 ∧ c2img.DIB_h = some 2 ∧ ((3 : Int) ≤ 5 ∨ (2 : Int) ≤ 0) ∧
    (c2img.getitem 5 0 none = none ∧ ∀ v, c2img.setitem 5 0 none v = none) :=
  ⟨by decide, by decide, by decide,
    claim_C8 c2img 3 2 (by decide) (by decide) 5 0 none (by decide)⟩

theorem update_parray_self (img : MicroBMP) (ps : List Nat) (h : img.parray = some ps) :
    { img with parray := some ps } = img := by
  cases img
  simp_all

/-- Characterization of the pixel-emitting loop on an indexed image, for a
run of in-range writes: it succeeds, advances the cursor by the number of
values, changes only the pixel array, and the resulting pixels are the
emitted values (masked) on the written run and unchanged elsewhere. -/
theorem emitPixels_idx_spec (d w h : Nat) (vs : List Nat) :
    ∀ (img : MicroBMP) (ps : List Nat), img.IndexedOK d w h ps →
    ∀ (x0 y0 : Nat), y0 < h → x0 + vs.length ≤ w →
    ∃ img2 ps2,
      img.emitPixels (x0 : Int) (y0 : Int) (vs.map (fun v => some (PixValue.idx v)))
          = .ok (img2, ((x0 + vs.length : Nat) : Int)) ∧
      img2 = { img with parray := some ps2 } ∧
      img2.IndexedOK d w h ps2 ∧
      (∀ x2 y2 : Nat, x2 < w → y2 < h →
        pixVal d w ps2 x2 y2
          = if y2 = y0 ∧ x0 ≤ x2 ∧ x2 < x0 + vs.length
            then vs.getD (x2 - x0) 0 % 2 ^ d
            else pixVal d w ps x2 y2) := by
  induction vs with
  | nil =>
    intro img ps hok x0 y0 hy hxr
    refine ⟨img, ps, ?_, (update_parray_self img ps hok.2.2.2.2.2.2.2.1).symm, hok, ?_⟩
    · simp [MicroBMP.emitPixels]
    · intro x2 y2 hx2 hy2
      have hno : ¬ (y2 = y0 ∧ x0 ≤ x2 ∧ x2 < x0 + ([] : List Nat).length) := by
        simp only [List.length_nil, Nat.add_zero]
        intro hcon
        omega
      rw [if_neg hno]
  | cons v vs ih =>
    intro img ps hok x0 y0 hy hxr
    have hok0 := hok
    obtain ⟨hini, hdep, hd, hppb, hpmask, hw, hh, hpa, hlen, hbytes⟩ := hok0
    obtain ⟨hdm, hd0, hm0, hd8, hpm⟩ := depth_facts d hd
    simp only [List.length_cons] at hxr
    have hx0 : x0 < w := by omega
    set m := 8 / d with hmdef
    set p := y0 * w + x0 with hpdef
    have hplt : p < w * h := by
      calc p < y0 * w + w := by omega
      _ = (y0 + 1) * w := by ring
      _ ≤ h * w := Nat.mul_le_mul_right w (by omega)
      _ = w * h := Nat.mul_comm h w
    have hbl : p / m < ps.length := pix_byte_lt _ _ _ _ hm0 hplt (le_trans (by omega) hlen)
    set ps1 := ps.set (p / m) (fillByte d (p % m) (ps.getD (p / m) 0) v) with hps1def
    have hok1 : MicroBMP.IndexedOK { img with parray := some ps1 } d w h ps1 :=
      IndexedOK_set img d w h ps hok (p / m) v hbl (p % m) (Nat.mod_lt _ hm0)
    have hxr1 : (x0 + 1) + vs.length ≤ w := by omega
    obtain ⟨img2, ps2, hrun, heq, hok2, hpix⟩ :=
      ih { img with parray := some ps1 } ps1 hok1 (x0 + 1) y0 hy hxr1
    refine ⟨img2, ps2, ?_, ?_, hok2, ?_⟩
    · rw [List.map_cons, MicroBMP.emitPixels,
        setitem_spec img d w h ps hok x0 y0 hx0 hy v]
      dsimp only
      have hcast : (x0 : Int) + 1 = ((x0 + 1 : Nat) : Int) := by push_cast; ring
      rw [← hps1def, hcast, hrun]
      have hlen2 : (x0 + 1) + vs.length = x0 + (v :: vs).length := by
        simp only [List.length_cons]
        omega
      rw [hlen2]
    · rw [heq]
    · intro x2 y2 hx2 hy2
      rw [hpix x2 y2 hx2 hy2,
        pixVal_set_spec d w h hd ps hlen x0 y0 x2 y2 v hx0 hy hx2 hy2]
      simp only [List.length_cons]
      by_cases hin : y2 = y0 ∧ (x0 + 1) ≤ x2 ∧ x2 < (x0 + 1) + vs.length
      · rw [if_pos hin, if_pos (show y2 = y0 ∧ x0 ≤ x2 ∧ x2 < x0 + (vs.length + 1) by omega)]
        have hst : x2 - x0 = (x2 - (x0 + 1)) + 1 := by omega
        rw [hst, List.getD_cons_succ]
      · rw [if_neg hin]
        by_cases hat : x2 = x0 ∧ y2 = y0
        · rw [if_pos hat, if_pos (show y2 = y0 ∧ x0 ≤ x2 ∧ x2 < x0 + (vs.length + 1) by
            obtain ⟨hax, hay⟩ := hat
            omega)]
          obtain ⟨hax, hay⟩ := hat
          rw [hax]
          simp
        · rw [if_neg hat, if_neg ?hno]
          case hno =>
            intro hcon
            rcases Nat.lt_or_ge x2 (x0 + 1) with hlt | hge
            · exact hat ⟨by omega, hcon.1⟩
            · exact hin ⟨hcon.1, hge, by omega⟩

theorem range_map_getD (n i : Nat) (h : i < n) (f : Nat → Nat) :
    ((List.range n).map f).getD i 0 = f i := by
  rw [List.getD_eq_getElem?_getD, List.getElem?_map, List.getElem?_range h]
  rfl


theorem extByte_lt (d s b : Nat) : extByte d s b < 2 ^ d := by
  have h1 : extByte d s b ≤ 2 ^ d - 1 := Nat.and_le_right
  have h2 : 0 < 2 ^ d := Nat.pos_pow_of_pos _ (by norm_num)
  omega

theorem bioRead_ofNat (bs : List Nat) (k : Nat) :
    bioRead bs ((k : Nat) : Int) = (bs.take k, bs.drop k) := by
  rw [bioRead, if_neg]
  · simp
  · simp

/-- Number of bytes covering `b` packed pixels: the ceiling in units of
`pixels_per_byte` equals the ceiling of `b*d/8`. -/
theorem ceil_bytes_eq (b d m : Nat) (hd0 : 0 < d) (hdm : d * m = 8) (hb : 1 ≤ b) :
    (b + m - 1) / m = (b * d + 7) / 8 := by
  have hm0 : 0 < m := by
    rcases Nat.eq_zero_or_pos m with h0 | h0
    · subst h0; omega
    · exact h0
  have hbd : 0 < b * d := Nat.mul_pos (by omega) hd0
  have e1 : b * d + 7 = (b * d - 1) + d * m := by omega
  have e2 : b + m - 1 = (b - 1) + m := by omega
  rw [e1, e2, Nat.add_div_right _ hm0, ← hdm, Nat.add_div_right _ (by omega)]
  congr 1
  have h4 : d * (b - 1) + d = d * b := by
    rw [← Nat.mul_succ]
    congr 1
    omega
  have h5 : b * d = d * b := Nat.mul_comm b d
  have e3 : b * d - 1 = d * (b - 1) + (d - 1) := by omega
  rw [e3, ← Nat.div_div_eq_div_mul, Nat.mul_add_div hd0, Nat.div_eq_of_lt (by omega : d - 1 < d)]
  simp

/-- C3: the RLE decoder starts at (0, height-1) and dispatches 2-byte records
(a, b) as the claim describes: an encoded run (a > 0) emits `a` pixels
unpacked from the single pattern byte `b` at modular indices `i % ppb` and
advances x by `a`; (0,0) resets x and decrements y; (0,1) terminates at once
whatever bytes remain; (0,2,dx,dy) moves the cursor to (x+dx, y-dy) emitting
nothing; (0,b) with b ≥ 3 reads `ceil(size_from_width(b)/2)*2` bytes and
emits `b` consecutive packed values from that buffer at the advancing
cursor. -/
theorem claim_C3 (img : MicroBMP) (d w h : Nat) (ps : List Nat)
    (hok : img.IndexedOK d w h ps) :
    (∀ bs, img.decode_rle bs = img.decode_rle_loop 0 ((h : Int) - 1) bs) ∧
    (∀ (x y : Int) rest, img.decode_rle_loop x y ((0 : Nat) :: (0 : Nat) :: rest)
        = img.decode_rle_loop 0 (y - 1) rest) ∧
    (∀ (x y : Int) rest, img.decode_rle_loop x y ((0 : Nat) :: (1 : Nat) :: rest)
        = .ok img) ∧
    (∀ (x y : Int) (dx dy : Nat) rest,
      img.decode_rle_loop x y ((0 : Nat) :: (2 : Nat) :: dx :: dy :: rest)
        = img.decode_rle_loop (x + (dx : Int)) (y - (dy : Int)) rest) ∧
    (∀ (x0 y0 a b : Nat) (rest : List Nat), 0 < a → b < 256 → x0 + a ≤ w → y0 < h →
      ∃ img2 ps2,
        img.decode_rle_loop (x0 : Int) (y0 : Int) (a :: b :: rest)
            = img2.decode_rle_loop ((x0 + a : Nat) : Int) (y0 : Int) rest ∧
        img2 = { img with parray := some ps2 } ∧ img2.IndexedOK d w h ps2 ∧
        (∀ x2 y2 : Nat, x2 < w → y2 < h → pixVal d w ps2 x2 y2
          = if y2 = y0 ∧ x0 ≤ x2 ∧ x2 < x0 + a
            then extByte d ((x2 - x0) % (8 / d)) b
            else pixVal d w ps x2 y2)) ∧
    (∀ (x0 y0 b : Nat) (rest : List Nat), 3 ≤ b → x0 + b ≤ w → y0 < h →
      ((b * d + 7) / 8 + 1) / 2 * 2 ≤ rest.length →
      ∃ img2 ps2,
        img.decode_rle_loop (x0 : Int) (y0 : Int) ((0 : Nat) :: b :: rest)
            = img2.decode_rle_loop ((x0 + b : Nat) : Int) (y0 : Int)
                (rest.drop (((MicroBMP.size_from_width d (b : Int) + 1).ediv 2 * 2).toNat)) ∧
        ((MicroBMP.size_from_width d (b : Int) + 1).ediv 2 * 2).toNat
          = ((b * d + 7) / 8 + 1) / 2 * 2 ∧
        img2 = { img with parray := some ps2 } ∧ img2.IndexedOK d w h ps2 ∧
        (∀ x2 y2 : Nat, x2 < w → y2 < h → pixVal d w ps2 x2 y2
          = if y2 = y0 ∧ x0 ≤ x2 ∧ x2 < x0 + b
            then extByte d ((x2 - x0) % (8 / d))
              ((rest.take (((b * d + 7) / 8 + 1) / 2 * 2)).getD ((x2 - x0) / (8 / d)) 0)
            else pixVal d w ps x2 y2)) := by
  have hok0 := hok
  obtain ⟨hini, hdep, hd, hppb, hpmask, hw, hh, hpa, hlen, hbytes⟩ := hok0
  obtain ⟨hdm, hd0, hm0, hd8, hpm⟩ := depth_facts d hd
  set m := 8 / d with hmdef
  refine ⟨?_, ?_, ?_, ?_, ?_, ?_⟩
  · intro bs
    rw [MicroBMP.decode_rle, hh]
  · intro x y rest
    rw [MicroBMP.decode_rle_loop.eq_def]
    norm_num
  · intro x y rest
    rw [MicroBMP.decode_rle_loop.eq_def]
    norm_num
  · intro x y dx dy rest
    rw [MicroBMP.decode_rle_loop.eq_def]
    norm_num
  · -- encoded run
    intro x0 y0 a b rest ha hb hxa hy
    have hvals : (List.range a).map (fun i =>
        (img.extract_from_bytes [b] ((i % m : Nat) : Int)).map PixValue.idx)
        = ((List.range a).map (fun i => extByte d (i % m) b)).map
            (fun v => some (PixValue.idx v)) := by
      rw [List.map_map]
      apply List.map_eq_map_iff.mpr
      intro i _
      have hp1 : (i % m) / m < ([b] : List Nat).length := by
        rw [Nat.div_eq_of_lt (Nat.mod_lt _ hm0)]
        simp
      rw [Function.comp_apply, extract_spec img d w h ps [b] hok (i % m) hp1,
        Nat.div_eq_of_lt (Nat.mod_lt _ hm0), Nat.mod_mod_of_dvd]
      · rfl
      · exact dvd_refl m
    obtain ⟨img2, ps2, hrun, heq, hok2, hpix⟩ :=
      emitPixels_idx_spec d w h ((List.range a).map (fun i => extByte d (i % m) b))
        img ps hok x0 y0 hy (by simpa using hxa)
    refine ⟨img2, ps2, ?_, heq, hok2, ?_⟩
    · rw [MicroBMP.decode_rle_loop.eq_def]
      have hane : ¬ (a = 0) := by omega
      have hble : ¬ (256 ≤ b) := by omega
      have hmne : ¬ (m = 0) := by omega
      simp only [if_neg hane, if_neg hble, hppb, if_neg hmne, hvals, hrun]
      simp
    · intro x2 y2 hx2 hy2
      rw [hpix x2 y2 hx2 hy2]
      simp only [List.length_map, List.length_range]
      by_cases hc : y2 = y0 ∧ x0 ≤ x2 ∧ x2 < x0 + a
      · rw [if_pos hc, if_pos hc, range_map_getD a (x2 - x0) (by omega), Nat.mod_eq_of_lt]
        exact extByte_lt d _ b
      · rw [if_neg hc, if_neg hc]
  · -- absolute run
    intro x0 y0 b rest hb3 hxa hy hrl
    set nn := ((b * d + 7) / 8 + 1) / 2 * 2 with hnndef
    have hInt : ((MicroBMP.size_from_width d (b : Int) + 1).ediv 2 * 2)
        = ((nn : Nat) : Int) := rfl
    have hIntN : ((MicroBMP.size_from_width d (b : Int) + 1).ediv 2 * 2).toNat = nn := rfl
    set buf := rest.take nn with hbufdef
    have hbufl : buf.length = nn := by
      rw [hbufdef, List.length_take]
      omega
    have hsz : (b * d + 7) / 8 ≤ nn := by
      rw [hnndef]
      omega
    have hvals : (List.range b).map (fun i =>
        (img.extract_from_bytes buf ((i : Nat) : Int)).map PixValue.idx)
        = ((List.range b).map (fun i => extByte d (i % m) (buf.getD (i / m) 0))).map
            (fun v => some (PixValue.idx v)) := by
      rw [List.map_map]
      apply List.map_eq_map_iff.mpr
      intro i hi
      rw [List.mem_range] at hi
      have hdiv : i / m < buf.length := by
        rw [hbufl]
        have h1 : i / m < (b + m - 1) / m := pix_byte_lt i b m _ hm0 hi (le_refl _)
        have h2 : (b + m - 1) / m = (b * d + 7) / 8 := ceil_bytes_eq b d m hd0 hdm (by omega)
        omega
      rw [Function.comp_apply, extract_spec img d w h ps buf hok i hdiv]
      rfl
    obtain ⟨img2, ps2, hrun, heq, hok2, hpix⟩ :=
      emitPixels_idx_spec d w h
        ((List.range b).map (fun i => extByte d (i % m) (buf.getD (i / m) 0)))
        img ps hok x0 y0 hy (by simpa using hxa)
    refine ⟨img2, ps2, ?_, hIntN, heq, hok2, ?_⟩
    · rw [MicroBMP.decode_rle_loop.eq_def]
      have h0 : ¬ (b = 0) := by omega
      have h1 : ¬ (b = 1) := by omega
      have h2 : ¬ (b = 2) := by omega
      simp only [if_pos rfl, if_neg h0, if_neg h1, if_neg h2, hdep]
      rw [hInt, bioRead_ofNat]
      simp only [← hbufdef, hvals, hrun, hIntN]
      simp
    · intro x2 y2 hx2 hy2
      rw [hpix x2 y2 hx2 hy2]
      simp only [List.length_map, List.length_range]
      by_cases hc : y2 = y0 ∧ x0 ≤ x2 ∧ x2 < x0 + b
      · rw [if_pos hc, if_pos hc, range_map_getD b (x2 - x0) (by omega), Nat.mod_eq_of_lt]
        exact extByte_lt d _ _
      · rw [if_neg hc, if_neg hc]

theorem claim_C3_witness :
    c2img.IndexedOK 1 3 2 [0] ∧
    c2img.decode_rle_loop 0 0 ((0 : Nat) :: (1 : Nat) :: []) = .ok c2img :=
  ⟨by decide, (claim_C3 c2img 1 3 2 [0] (by decide)).2.2.1 0 0 []⟩

theorem acc_shift (d m s d0 : Nat) (hd : d = 1 ∨ d = 2 ∨ d = 4 ∨ d = 8) (hm : m = 8 / d)
    (hs : s < m) (hb : d0 < 2 ^ (d * s)) : d0 <<< (d % 8) = d0 * 2 ^ d := by
  rcases hd with rfl | rfl | rfl | rfl
  · rw [Nat.shiftLeft_eq]
  · rw [Nat.shiftLeft_eq]
  · rw [Nat.shiftLeft_eq]
  · subst hm
    have hs0 : s = 0 := by omega
    subst hs0
    have hb0 : d0 = 0 := by simpa using hb
    subst hb0
    rfl

theorem div_step (a v d k : Nat) (hv : v < 2 ^ d) (hk : 1 ≤ k) :
    (a * 2 ^ d + v) / 2 ^ (d * k) = a / 2 ^ (d * (k - 1)) := by
  have e1 : (2 : Nat) ^ (d * k) = 2 ^ d * 2 ^ (d * (k - 1)) := by
    rw [← pow_add]
    congr 1
    have : d * (k - 1) + d = d * k := by
      rw [← Nat.mul_succ]
      congr 1
      omega
    omega
  rw [e1, ← Nat.div_div_eq_div_mul, Nat.mul_comm a (2 ^ d),
    Nat.mul_add_div (Nat.pos_pow_of_pos _ (by norm_num)), Nat.div_eq_of_lt hv, Nat.add_zero]

/-- Characterization of the indexed pixel loop of `write_io` on one row:
starting at column `x0` with the byte accumulator holding the `x0 % ppb`
values described by `g`, it reduces every remaining pixel of the row modulo
the palette size in place, appends one byte per completed group of `ppb`
pixels to the sink, and returns the accumulator holding the values of the
trailing partial group. -/
theorem writeRowPixels_spec (d w h num y0 : Nat) (hnum : 0 < num) (hy : y0 < h) :
    ∀ (cnt x0 : Nat) (img : MicroBMP) (ps : List Nat) (sink : List Nat) (d0 : Nat)
      (g : Nat → Nat),
    img.IndexedOK d w h ps → x0 + cnt = w →
    d0 < 2 ^ (d * (x0 % (8 / d))) →
    (∀ j, j < x0 % (8 / d) →
      d0 / 2 ^ (d * (x0 % (8 / d) - 1 - j)) % 2 ^ d = g ((x0 / (8 / d)) * (8 / d) + j)) →
    ∃ newB img2 ps2 dfin,
      img.writeRowPixels (y0 : Int) num (8 / d) d sink d0 (List.range' x0 cnt)
          = .ok (sink ++ newB, img2, dfin) ∧
      img2 = { img with parray := some ps2 } ∧
      img2.IndexedOK d w h ps2 ∧
      (∀ x2 y2 : Nat, x2 < w → y2 < h →
        pixVal d w ps2 x2 y2 = if y2 = y0 ∧ x0 ≤ x2
          then pixVal d w ps x2 y2 % num else pixVal d w ps x2 y2) ∧
      newB.length = w / (8 / d) - x0 / (8 / d) ∧
      (∀ k t : Nat, k < newB.length → t < 8 / d →
        extByte d t (newB.getD k 0)
          = if (x0 / (8 / d) + k) * (8 / d) + t < x0 then g ((x0 / (8 / d) + k) * (8 / d) + t)
            else pixVal d w ps ((x0 / (8 / d) + k) * (8 / d) + t) y0 % num) ∧
      dfin < 2 ^ (d * (w % (8 / d))) ∧
      (∀ j, j < w % (8 / d) →
        dfin / 2 ^ (d * (w % (8 / d) - 1 - j)) % 2 ^ d
          = if (w / (8 / d)) * (8 / d) + j < x0 then g ((w / (8 / d)) * (8 / d) + j)
            else pixVal d w ps ((w / (8 / d)) * (8 / d) + j) y0 % num) := by
  intro cnt
  induction cnt with
  | zero =>
    intro x0 img ps sink d0 g hok hxw hb hinv
    obtain ⟨hini, hdep, hd, hppb, hpmask, hw, hh, hpa, hlen, hbytes⟩ := hok
    obtain ⟨hdm, hd0, hm0, hd8, hpm⟩ := depth_facts d hd
    have hx0w : x0 = w := by omega
    subst hx0w
    refine ⟨[], img, ps, d0, ?_, (update_parray_self img ps hpa).symm,
      ⟨hini, hdep, hd, hppb, hpmask, hw, hh, hpa, hlen, hbytes⟩, ?_, by simp, ?_, hb, ?_⟩
    · simp [MicroBMP.writeRowPixels, List.range']
    · intro x2 y2 hx2 hy2
      rw [if_neg]
      intro hcon
      omega
    · intro k t hk ht
      simp at hk
    · intro j hj
      have hsp := Nat.div_add_mod x0 (8 / d)
      have hsp2 : (x0 / (8 / d)) * (8 / d) = (8 / d) * (x0 / (8 / d)) := Nat.mul_comm _ _
      rw [if_pos (by omega), hinv j hj]
  | succ cnt ih =>
    intro x0 img ps sink d0 g hok hxw hb hinv
    have hok0 := hok
    obtain ⟨hini, hdep, hd, hppb, hpmask, hw, hh, hpa, hlen, hbytes⟩ := hok0
    obtain ⟨hdm, hdgt, hm0, hd8, hpm⟩ := depth_facts d hd
    set m := 8 / d with hmdef
    set s := x0 % m with hsdef
    set c0 := x0 / m with hc0def
    have hsplit : m * c0 + s = x0 := Nat.div_add_mod x0 m
    have hslt : s < m := Nat.mod_lt _ hm0
    have hx0 : x0 < w := by omega
    have hget := getitem_spec img d w h ps hok x0 y0 hx0 hy
    set v := pixVal d w ps x0 y0 with hvdef
    have hvlt : v < 2 ^ d := by
      have h1 := pixVal_le d w ps x0 y0
      have h2 : 0 < 2 ^ d := Nat.pos_pow_of_pos _ (by norm_num)
      omega
    set v2 := v % num with hv2def
    have hv2lt : v2 < 2 ^ d := by
      have := Nat.mod_le v num
      omega
    have hset := setitem_spec img d w h ps hok x0 y0 hx0 hy v2
    set p := y0 * w + x0 with hpdef
    have hplt : p < w * h := by
      calc p < y0 * w + w := by omega
      _ = (y0 + 1) * w := by ring
      _ ≤ h * w := Nat.mul_le_mul_right w (by omega)
      _ = w * h := Nat.mul_comm h w
    have hbl : p / m < ps.length := pix_byte_lt _ _ _ _ hm0 hplt (le_trans (by omega) hlen)
    set ps1 := ps.set (p / m) (fillByte d (p % m) (ps.getD (p / m) 0) v2) with hps1def
    have hok1 : MicroBMP.IndexedOK { img with parray := some ps1 } d w h ps1 :=
      IndexedOK_set img d w h ps hok (p / m) v2 hbl (p % m) (Nat.mod_lt _ hm0)
    have hps1pix : ∀ x2 y2 : Nat, x2 < w → y2 < h →
        pixVal d w ps1 x2 y2 = if x2 = x0 ∧ y2 = y0 then v2 % 2 ^ d
          else pixVal d w ps x2 y2 := fun x2 y2 hx2 hy2 =>
      pixVal_set_spec d w h hd ps hlen x0 y0 x2 y2 v2 hx0 hy hx2 hy2
    have hget2 : MicroBMP.getitem { img with parray := some ps1 } (x0 : Int) (y0 : Int) none
        = some (PixValue.idx v2) := by
      rw [getitem_spec _ d w h ps1 hok1 x0 y0 hx0 hy, hps1pix x0 y0 hx0 hy,
        if_pos ⟨rfl, rfl⟩, Nat.mod_eq_of_lt hv2lt]
    have hnumne : ¬ (num = 0) := by omega
    have haccs : d0 <<< (d % 8) = d0 * 2 ^ d := acc_shift d m s d0 hd hmdef hslt hb
    set D1 := d0 * 2 ^ d + v2 with hD1def
    have hD1lt : D1 < 2 ^ (d * (s + 1)) := by
      have h1 : d0 * 2 ^ d + v2 < (d0 + 1) * 2 ^ d := by
        have : (d0 + 1) * 2 ^ d = d0 * 2 ^ d + 2 ^ d := by ring
        omega
      have h2 : (d0 + 1) * 2 ^ d ≤ 2 ^ (d * s) * 2 ^ d := Nat.mul_le_mul_right _ (by omega)
      have h3 : (2 : Nat) ^ (d * s) * 2 ^ d = 2 ^ (d * (s + 1)) := by
        rw [← pow_add, Nat.mul_succ]
      omega
    have hD1inv : ∀ j, j < s + 1 → D1 / 2 ^ (d * (s - j)) % 2 ^ d
        = if j = s then v2 else g (c0 * m + j) := by
      intro j hj
      rcases Nat.eq_or_lt_of_le (Nat.le_of_lt_succ hj) with hjs | hjs
      · subst hjs
        rw [if_pos rfl, Nat.sub_self, Nat.mul_zero, pow_zero, Nat.div_one, hD1def,
          Nat.mul_comm d0 (2 ^ d)]
        rw [Nat.mul_add_mod, Nat.mod_eq_of_lt hv2lt]
      · rw [if_neg (by omega), hD1def, div_step d0 v2 d (s - j) hv2lt (by omega)]
        have : s - j - 1 = s - 1 - j := by omega
        rw [this]
        exact hinv j hjs
    -- unfold one iteration of the loop
    rw [List.range'_succ x0 cnt 1, MicroBMP.writeRowPixels, hget]
    dsimp only
    rw [if_neg hnumne, hset]
    dsimp only
    rw [hget2]
    dsimp only
    rw [haccs]
    by_cases hbd : x0 % m = m - 1
    · -- byte boundary: emit D1, reset the accumulator
      have hsm : s = m - 1 := hbd
      have hx1 : x0 + 1 = m * (c0 + 1) := by
        have : m * (c0 + 1) = m * c0 + m := Nat.mul_succ m c0
        omega
      have hmod1 : (x0 + 1) % m = 0 := by
        rw [hx1]
        exact Nat.mul_mod_right m (c0 + 1)
      have hdiv1 : (x0 + 1) / m = c0 + 1 := by
        rw [hx1]
        exact Nat.mul_div_cancel_left (c0 + 1) hm0
      have hc1le : c0 + 1 ≤ w / m := by
        rw [Nat.le_div_iff_mul_le hm0]
        have : (c0 + 1) * m = m * (c0 + 1) := Nat.mul_comm _ _
        omega
      have hD256 : D1 < 256 := by
        have : d * (s + 1) = 8 := by
          have : s + 1 = m := by omega
          rw [this, hdm]
        rw [this] at hD1lt
        omega
      rw [if_pos hbd, if_pos hD256]
      obtain ⟨newB2, img2, ps2, dfin, hrun2, heq2, hok2, hpix2, hlenB2, hbytesB2, hdfa, hdfb⟩ :=
        ih (x0 + 1) { img with parray := some ps1 } ps1 (sink ++ [D1]) 0
          (fun z => if z = x0 then v2 else g z) hok1 (by omega)
          (by positivity)
          (by
            intro j hj
            rw [hmod1] at hj
            omega)
      rw [hrun2]
      refine ⟨D1 :: newB2, img2, ps2, dfin, by simp, by rw [heq2], hok2, ?_, ?_, ?_, hdfa, ?_⟩
      · intro x2 y2 hx2 hy2
        rw [hpix2 x2 y2 hx2 hy2]
        by_cases hc : y2 = y0 ∧ x0 + 1 ≤ x2
        · rw [if_pos hc, hps1pix x2 y2 hx2 hy2, if_neg (by omega), if_pos ⟨hc.1, by omega⟩]
        · rw [if_neg hc, hps1pix x2 y2 hx2 hy2]
          by_cases hat : x2 = x0 ∧ y2 = y0
          · rw [if_pos hat, if_pos ⟨hat.2, by omega⟩, Nat.mod_eq_of_lt hv2lt, hv2def, hvdef,
              hat.1, hat.2]
          · rw [if_neg hat, if_neg ?hcc]
            case hcc =>
              intro hcon
              rcases Nat.eq_or_lt_of_le hcon.2 with he | hlt
              · exact hat ⟨he.symm, hcon.1⟩
              · exact hc ⟨hcon.1, by omega⟩
      · simp only [List.length_cons, hlenB2, hdiv1]
        omega
      · intro k t hk ht
        have hc0x : c0 * m + s = x0 := by
          have : c0 * m = m * c0 := Nat.mul_comm _ _
          omega
        cases k with
        | zero =>
          simp only [List.getD_cons_zero, Nat.add_zero]
          rw [extByte_eq_div_mod d m hdm t ht,
            show m - 1 - t = s - t by omega, hD1inv t (by omega)]
          by_cases htv : t = s
          · subst htv
            rw [if_pos rfl, if_neg (by omega)]
            rw [hv2def, hvdef, hc0x]
          · rw [if_neg htv, if_pos (by omega)]
        | succ k2 =>
          simp only [List.getD_cons_succ]
          have hk2 : k2 < newB2.length := by
            simp only [List.length_cons] at hk
            omega
          have hres := hbytesB2 k2 t hk2 ht
          rw [hdiv1] at hres
          have hposge : x0 + 1 ≤ (c0 + 1 + k2) * m + t := by
            have h1 : (c0 + 1) * m ≤ (c0 + 1 + k2) * m := Nat.mul_le_mul_right m (by omega)
            have h2 : (c0 + 1) * m = m * (c0 + 1) := Nat.mul_comm _ _
            omega
          have hposlt : (c0 + 1 + k2) * m + t < w := by
            have hck : c0 + 1 + k2 + 1 ≤ w / m := by
              rw [hlenB2, hdiv1] at hk2
              omega
            have h1 : (c0 + 1 + k2 + 1) * m ≤ w / m * m := Nat.mul_le_mul_right m hck
            have h2 : w / m * m ≤ w := Nat.div_mul_le_self w m
            have h3 : (c0 + 1 + k2 + 1) * m = (c0 + 1 + k2) * m + m := Nat.succ_mul _ _
            omega
          rw [hres, if_neg (by omega), hps1pix _ y0 hposlt hy, if_neg (by
            intro hcon
            omega)]
          rw [show c0 + (k2 + 1) = c0 + 1 + k2 by omega, if_neg (by omega)]
      · intro j hj
        have hres := hdfb j hj
        have hposge : x0 + 1 ≤ w / m * m + j := by
          have h1 : (c0 + 1) * m ≤ w / m * m := Nat.mul_le_mul_right m hc1le
          have h2 : (c0 + 1) * m = m * (c0 + 1) := Nat.mul_comm _ _
          omega
        have hposlt : w / m * m + j < w := by
          have h2 : m * (w / m) + w % m = w := Nat.div_add_mod w m
          have h3 : w / m * m = m * (w / m) := Nat.mul_comm _ _
          omega
        rw [hres, if_neg (by omega), hps1pix _ y0 hposlt hy, if_neg (by
          intro hcon
          omega), if_neg (by omega)]
    · -- not at a byte boundary: carry the accumulator
      have hs1m : s + 1 < m := by omega
      have hx1 : x0 + 1 = m * c0 + (s + 1) := by omega
      have hmod1 : (x0 + 1) % m = s + 1 := by
        rw [hx1, Nat.mul_add_mod, Nat.mod_eq_of_lt hs1m]
      have hdiv1 : (x0 + 1) / m = c0 := by
        rw [hx1, Nat.mul_add_div hm0, Nat.div_eq_of_lt hs1m, Nat.add_zero]
      have hc0x : c0 * m + s = x0 := by
        have : c0 * m = m * c0 := Nat.mul_comm _ _
        omega
      have hc0le : c0 ≤ w / m := Nat.div_le_div_right (by omega)
      rw [if_neg hbd]
      obtain ⟨newB2, img2, ps2, dfin, hrun2, heq2, hok2, hpix2, hlenB2, hbytesB2, hdfa, hdfb⟩ :=
        ih (x0 + 1) { img with parray := some ps1 } ps1 sink D1
          (fun z => if z = x0 then v2 else g z) hok1 (by omega)
          (by rw [hmod1]; exact hD1lt)
          (by
            intro j hj
            rw [hmod1] at hj
            show D1 / 2 ^ (d * ((x0 + 1) % m - 1 - j)) % 2 ^ d
              = if (x0 + 1) / m * m + j = x0 then v2 else g ((x0 + 1) / m * m + j)
            rw [hmod1, hdiv1, show s + 1 - 1 - j = s - j by omega, hD1inv j hj]
            by_cases hjs : j = s
            · rw [if_pos hjs, if_pos (by omega)]
            · rw [if_neg hjs, if_neg (by omega)])
      rw [hrun2]
      refine ⟨newB2, img2, ps2, dfin, rfl, by rw [heq2], hok2, ?_, ?_, ?_, hdfa, ?_⟩
      · intro x2 y2 hx2 hy2
        rw [hpix2 x2 y2 hx2 hy2]
        by_cases hc : y2 = y0 ∧ x0 + 1 ≤ x2
        · rw [if_pos hc, hps1pix x2 y2 hx2 hy2, if_neg (by omega), if_pos ⟨hc.1, by omega⟩]
        · rw [if_neg hc, hps1pix x2 y2 hx2 hy2]
          by_cases hat : x2 = x0 ∧ y2 = y0
          · rw [if_pos hat, if_pos ⟨hat.2, by omega⟩, Nat.mod_eq_of_lt hv2lt, hv2def, hvdef,
              hat.1, hat.2]
          · rw [if_neg hat, if_neg ?hcc2]
            case hcc2 =>
              intro hcon
              rcases Nat.eq_or_lt_of_le hcon.2 with he | hlt
              · exact hat ⟨he.symm, hcon.1⟩
              · exact hc ⟨hcon.1, by omega⟩
      · rw [hlenB2, hdiv1]
      · intro k t hk ht
        have hres := hbytesB2 k t hk ht
        rw [hdiv1] at hres
        have hposlt : (c0 + k) * m + t < w := by
          have hck : c0 + k + 1 ≤ w / m := by
            rw [hlenB2, hdiv1] at hk
            omega
          have h1 : (c0 + k + 1) * m ≤ w / m * m := Nat.mul_le_mul_right m hck
          have h2 : w / m * m ≤ w := Nat.div_mul_le_self w m
          have h3 : (c0 + k + 1) * m = (c0 + k) * m + m := Nat.succ_mul _ _
          omega
        rw [hres]
        have hcm : c0 * m ≤ (c0 + k) * m := Nat.mul_le_mul_right m (by omega)
        by_cases hlt : (c0 + k) * m + t < x0
        · rw [if_pos (by omega), if_pos hlt, if_neg (by omega)]
        · by_cases heq : (c0 + k) * m + t = x0
          · rw [if_pos (by omega), heq, if_pos rfl, if_neg (by omega)]
          · rw [if_neg (by omega), hps1pix _ y0 hposlt hy,
              if_neg (by intro hcon; exact heq hcon.1), if_neg (by omega)]
      · intro j hj
        have hres := hdfb j hj
        have hposlt : w / m * m + j < w := by
          have h2 : m * (w / m) + w % m = w := Nat.div_add_mod w m
          have h3 : w / m * m = m * (w / m) := Nat.mul_comm _ _
          omega
        rw [hres]
        have hcm : c0 * m ≤ w / m * m := Nat.mul_le_mul_right m hc0le
        by_cases hlt : w / m * m + j < x0
        · rw [if_pos (by omega), if_pos hlt, if_neg (by omega)]
        · by_cases heq : w / m * m + j = x0
          · rw [if_pos (by omega), heq, if_pos rfl, if_neg (by omega)]
          · rw [if_neg (by omega), hps1pix _ y0 hposlt hy,
              if_neg (by intro hcon; exact heq hcon.1), if_neg (by omega)]

theorem tail_mod_zero (w m : Nat) (hm : 0 < m) (hw : 0 < w) (hr : w % m = 0) :
    (w - 1) % m = m - 1 ∧ (w + m - 1) / m = w / m := by
  have hqr : m * (w / m) + w % m = w := Nat.div_add_mod w m
  have hq1 : 1 ≤ w / m := by
    rcases Nat.eq_zero_or_pos (w / m) with h0 | h0
    · rw [h0] at hqr; omega
    · exact h0
  constructor
  · have he : w - 1 = m * (w / m - 1) + (m - 1) := by
      have : m * (w / m - 1) + m = m * (w / m) := by
        rw [← Nat.mul_succ]
        congr 1
        omega
      omega
    rw [he, Nat.mul_add_mod, Nat.mod_eq_of_lt (show m - 1 < m by omega)]
  · have he : w + m - 1 = m * (w / m) + (m - 1) := by omega
    rw [he, Nat.mul_add_div hm, Nat.div_eq_of_lt (show m - 1 < m by omega), Nat.add_zero]

theorem tail_mod_pos (w m : Nat) (hm : 0 < m) (hw : 0 < w) (hr : w % m ≠ 0) :
    (w - 1) % m = w % m - 1 ∧ (w - 1) / m = w / m ∧ (w + m - 1) / m = w / m + 1 := by
  have hqr : m * (w / m) + w % m = w := Nat.div_add_mod w m
  have hrm : w % m < m := Nat.mod_lt _ hm
  have he : w - 1 = m * (w / m) + (w % m - 1) := by omega
  refine ⟨?_, ?_, ?_⟩
  · rw [he, Nat.mul_add_mod, Nat.mod_eq_of_lt (show w % m - 1 < m by omega)]
  · rw [he, Nat.mul_add_div hm, Nat.div_eq_of_lt (show w % m - 1 < m by omega), Nat.add_zero]
  · have he2 : w + m - 1 = m * (w / m + 1) + (w % m - 1) := by
      have : m * (w / m + 1) = m * (w / m) + m := Nat.mul_succ m _
      omega
    rw [he2, Nat.mul_add_div hm, Nat.div_eq_of_lt (show w % m - 1 < m by omega), Nat.add_zero]

theorem mul_pow_div (A a b : Nat) (hab : a ≤ b) : A * 2 ^ a / 2 ^ b = A / 2 ^ (b - a) := by
  have e1 : (2 : Nat) ^ b = 2 ^ a * 2 ^ (b - a) := by
    rw [← pow_add]
    congr 1
    omega
  rw [e1, ← Nat.div_div_eq_div_mul, Nat.mul_div_cancel A (Nat.pos_pow_of_pos _ (by norm_num))]

/-- The tail-byte shift written in the source, `8 - depth - (x % ppb) * 2^(depth-1)`,
equals `8 - depth * (w % ppb)` at the only reachable slots. -/
theorem tail_shift_eq (d m se : Nat) (hd : d = 1 ∨ d = 2 ∨ d = 4 ∨ d = 8) (hm : m = 8 / d)
    (hse : 0 < se) (hsm : se < m) :
    (8 : Int) - (d : Int) - (((se - 1) : Nat) : Int) * (((2 ^ (d - 1) : Nat)) : Int)
      = (((8 - d * se : Nat)) : Int) ∧ d * se ≤ 8 := by
  subst hm
  rcases hd with rfl | rfl | rfl | rfl
  · norm_num at hsm
    interval_cases se <;> exact ⟨by decide, by decide⟩
  · norm_num at hsm
    interval_cases se <;> exact ⟨by decide, by decide⟩
  · norm_num at hsm
    interval_cases se <;> exact ⟨by decide, by decide⟩
  · omega

/-- Characterization of the row loop of `write_io` for indexed depths over the
rows `k, k+1, ..., k+cnt-1` (bottom-up): it emits one padded row of
`padded_row_size` bytes per row, each pixel packed reduced modulo the palette
size, and reduces the remaining pixels of the image modulo the palette size in
place. -/
theorem writeRows_spec (d w h num rsN prsN : Nat)
    (hd : d = 1 ∨ d = 2 ∨ d = 4 ∨ d = 8) (hnum : 0 < num) (hw0 : 0 < w)
    (hrsN : rsN = (w * d + 7) / 8) (hple : rsN ≤ prsN) :
    ∀ (cnt k : Nat) (img : MicroBMP) (ps : List Nat) (sink : List Nat),
    img.IndexedOK d w h ps → k + cnt = h →
    ∃ bytes img2 ps2,
      MicroBMP.writeRows img (h : Int) (w : Int) d (rsN : Int) (prsN : Int)
          num (8 / d) sink (List.range' k cnt)
        = .ok (sink ++ bytes, img2) ∧
      img2 = { img with parray := some ps2 } ∧
      img2.IndexedOK d w h ps2 ∧
      bytes.length = cnt * prsN ∧
      (∀ i x : Nat, i < cnt → x < w →
        extByte d (x % (8 / d)) (bytes.getD (i * prsN + x / (8 / d)) 0)
          = pixVal d w ps x (h - 1 - (k + i)) % num) ∧
      (∀ x2 y2 : Nat, x2 < w → y2 < h →
        pixVal d w ps2 x2 y2 = if y2 + k < h then pixVal d w ps x2 y2 % num
          else pixVal d w ps x2 y2) := by
  intro cnt
  induction cnt with
  | zero =>
    intro k img ps sink hok hkc
    obtain ⟨hini, hdep, hdd, hppb, hpmask, hw, hh, hpa, hlen, hbytes⟩ := hok
    refine ⟨[], img, ps, ?_, (update_parray_self img ps hpa).symm,
      ⟨hini, hdep, hdd, hppb, hpmask, hw, hh, hpa, hlen, hbytes⟩, by simp, ?_, ?_⟩
    · simp [MicroBMP.writeRows, List.range']
    · intro i x hi hx
      exact absurd hi (Nat.not_lt_zero i)
    · intro x2 y2 hx2 hy2
      rw [if_neg (by omega)]
  | succ cnt ih =>
    intro k img ps sink hok hkc
    have hok0 := hok
    obtain ⟨hini, hdep, hdd, hppb, hpmask, hw, hh, hpa, hlen, hbytes⟩ := hok0
    obtain ⟨hdm, hd0, hm0, hd8, hpm⟩ := depth_facts d hd
    set y0 := h - 1 - k with hy0def
    have hy0lt : y0 < h := by omega
    have hceilrs : (w + 8 / d - 1) / (8 / d) = rsN := by
      rw [ceil_bytes_eq w d (8 / d) hd0 hdm hw0, hrsN]
    obtain ⟨newB, img1, ps1, dfin, hrun1, heq1, hok1, hpix1, hlenB, hbyteB, hdfa, hdfb⟩ :=
      writeRowPixels_spec d w h num y0 hnum hy0lt w 0 img ps sink 0 (fun _ => 0) hok
        (by omega) (Nat.pos_pow_of_pos _ (by norm_num))
        (by
          intro j hj
          rw [Nat.zero_mod] at hj
          exact absurd hj (Nat.not_lt_zero j))
    -- the shared continuation: given the bytes of the current row, apply the
    -- induction hypothesis to the remaining rows
    have key : ∀ R : List Nat, R.length = rsN →
        (∀ x, x < w → extByte d (x % (8 / d)) (R.getD (x / (8 / d)) 0)
          = pixVal d w ps x y0 % num) →
        ∃ bytes img2 ps2,
          MicroBMP.writeRows img1 (h : Int) (w : Int) d (rsN : Int) (prsN : Int)
              num (8 / d) ((sink ++ R) ++ List.replicate (prsN - rsN) 0)
              (List.range' (k + 1) cnt)
            = .ok (sink ++ bytes, img2) ∧
          img2 = { img with parray := some ps2 } ∧
          img2.IndexedOK d w h ps2 ∧
          bytes.length = (cnt + 1) * prsN ∧
          (∀ i x : Nat, i < cnt + 1 → x < w →
            extByte d (x % (8 / d)) (bytes.getD (i * prsN + x / (8 / d)) 0)
              = pixVal d w ps x (h - 1 - (k + i)) % num) ∧
          (∀ x2 y2 : Nat, x2 < w → y2 < h →
            pixVal d w ps2 x2 y2 = if y2 + k < h then pixVal d w ps x2 y2 % num
              else pixVal d w ps x2 y2) := by
      intro R hRlen hRbyte
      obtain ⟨bytesR, img2, ps2, hrun2, heq2, hok2, hlen2, hbyte2, hpix2⟩ :=
        ih (k + 1) img1 ps1 ((sink ++ R) ++ List.replicate (prsN - rsN) 0) hok1 (by omega)
      have hRP : (R ++ List.replicate (prsN - rsN) 0).length = prsN := by
        simp only [List.length_append, List.length_replicate, hRlen]
        omega
      refine ⟨(R ++ List.replicate (prsN - rsN) 0) ++ bytesR, img2, ps2, ?_, ?_, hok2, ?_,
        ?_, ?_⟩
      · rw [hrun2]
        simp [List.append_assoc]
      · rw [heq2, heq1]
      · simp only [List.length_append, List.length_replicate, hRlen, hlen2]
        have hmul : (cnt + 1) * prsN = cnt * prsN + prsN := by ring
        omega
      · intro i x hi hx
        have hxrs : x / (8 / d) < rsN :=
          pix_byte_lt x w (8 / d) rsN hm0 hx (le_of_eq hceilrs)
        cases i with
        | zero =>
          simp only [Nat.zero_mul, Nat.zero_add, Nat.add_zero]
          rw [List.getD_append _ _ _ _ (by rw [hRP]; omega),
            List.getD_append _ _ _ _ (by rw [hRlen]; omega), hRbyte x hx, ← hy0def]
        | succ i2 =>
          have hsm2 : (i2 + 1) * prsN = i2 * prsN + prsN := by ring
          have hshift : (i2 + 1) * prsN + x / (8 / d)
              - (R ++ List.replicate (prsN - rsN) 0).length
              = i2 * prsN + x / (8 / d) := by
            rw [hRP, hsm2, Nat.add_assoc, Nat.add_comm prsN (x / (8 / d)),
              ← Nat.add_assoc, Nat.add_sub_cancel]
          rw [List.getD_append_right _ _ _ _ (by
              rw [hRP, hsm2]
              exact le_trans (Nat.le_add_left prsN (i2 * prsN)) (Nat.le_add_right _ _)),
            hshift]
          have hres := hbyte2 i2 x (by omega) hx
          rw [hres, hpix1 x _ hx (by omega), if_neg ?hne,
            show h - 1 - (k + 1 + i2) = h - 1 - (k + (i2 + 1)) from by omega]
          case hne =>
            intro hcon
            obtain ⟨hc1, _⟩ := hcon
            rw [hy0def] at hc1
            omega
      · intro x2 y2 hx2 hy2
        rw [hpix2 x2 y2 hx2 hy2]
        by_cases hc1 : y2 + (k + 1) < h
        · rw [if_pos hc1, hpix1 x2 y2 hx2 hy2, if_neg ?hne2, if_pos (by omega)]
          case hne2 =>
            intro hcon
            obtain ⟨hc, _⟩ := hcon
            rw [hy0def] at hc
            omega
        · rw [if_neg hc1, hpix1 x2 y2 hx2 hy2]
          by_cases hc2 : y2 = y0
          · rw [if_pos ⟨hc2, Nat.zero_le x2⟩, if_pos (by rw [hy0def] at hc2; omega)]
          · rw [if_neg (by intro hcon; exact hc2 hcon.1), if_neg ?hne3]
            case hne3 =>
              intro hcon
              apply hc2
              rw [hy0def]
              omega
    -- unfold one iteration of the row loop
    have hyc : (h : Int) - (k : Int) - 1 = ((y0 : Nat) : Int) := by
      rw [hy0def]
      omega
    rw [List.range'_succ k cnt 1, MicroBMP.writeRows]
    dsimp only
    rw [if_pos hd8, hyc, Int.toNat_ofNat, List.range_eq_range', hrun1]
    dsimp only
    rw [if_neg (show ¬ (w = 0) by omega)]
    by_cases hwm : w % (8 / d) = 0
    · -- the row ends exactly at a byte boundary: no tail byte
      obtain ⟨hmz1, hmz2⟩ := tail_mod_zero w (8 / d) hm0 hw0 hwm
      rw [hmz1, if_neg (show ¬ (8 / d - 1 ≠ 8 / d - 1) by simp)]
      dsimp only
      rw [Int.toNat_sub]
      have hRlen : newB.length = rsN := by
        rw [hlenB, Nat.zero_div, Nat.sub_zero, hrsN,
          ← ceil_bytes_eq w d (8 / d) hd0 hdm hw0, hmz2]
      have hRbyte : ∀ x, x < w → extByte d (x % (8 / d)) (newB.getD (x / (8 / d)) 0)
          = pixVal d w ps x y0 % num := by
        intro x hx
        have hklt : x / (8 / d) < newB.length := by
          rw [hlenB, Nat.zero_div, Nat.sub_zero, Nat.div_lt_iff_lt_mul hm0]
          have hmul := Nat.div_add_mod w (8 / d)
          have hcomm : w / (8 / d) * (8 / d) = (8 / d) * (w / (8 / d)) := Nat.mul_comm _ _
          omega
        have hres := hbyteB (x / (8 / d)) (x % (8 / d)) hklt (Nat.mod_lt _ hm0)
        simp only [Nat.zero_div, Nat.zero_add] at hres
        rw [if_neg (Nat.not_lt_zero _)] at hres
        rw [show x / (8 / d) * (8 / d) + x % (8 / d) = x from by
          rw [Nat.mul_comm]
          exact Nat.div_add_mod x (8 / d)] at hres
        exact hres
      exact key newB hRlen hRbyte
    · -- partial trailing byte: flush the accumulator shifted into position
      obtain ⟨hp1, hp2, hp3⟩ := tail_mod_pos w (8 / d) hm0 hw0 hwm
      rw [hp1, if_pos (show w % (8 / d) - 1 ≠ 8 / d - 1 by
        have := Nat.mod_lt w hm0
        omega)]
      obtain ⟨hsh1, hsh2⟩ := tail_shift_eq d (8 / d) (w % (8 / d)) hd rfl
        (Nat.pos_of_ne_zero hwm) (Nat.mod_lt _ hm0)
      rw [hsh1, if_neg (not_lt.mpr (Int.natCast_nonneg _)), Int.toNat_ofNat]
      have h256 : dfin <<< (8 - d * (w % (8 / d))) < 256 := by
        rw [Nat.shiftLeft_eq]
        have hq : (2 : Nat) ^ (d * (w % (8 / d))) * 2 ^ (8 - d * (w % (8 / d))) = 256 := by
          rw [← pow_add, show d * (w % (8 / d)) + (8 - d * (w % (8 / d))) = 8 from by omega]
          norm_num
        have h2e : 0 < (2 : Nat) ^ (8 - d * (w % (8 / d))) :=
          Nat.pos_pow_of_pos _ (by norm_num)
        have hle : dfin * 2 ^ (8 - d * (w % (8 / d)))
            ≤ (2 ^ (d * (w % (8 / d))) - 1) * 2 ^ (8 - d * (w % (8 / d))) :=
          Nat.mul_le_mul_right _ (by omega)
        have hsub : (2 ^ (d * (w % (8 / d))) - 1) * 2 ^ (8 - d * (w % (8 / d)))
            = 2 ^ (d * (w % (8 / d))) * 2 ^ (8 - d * (w % (8 / d)))
              - 1 * 2 ^ (8 - d * (w % (8 / d))) := by
          rw [Nat.sub_mul]
        omega
      rw [if_pos h256]
      dsimp only
      rw [Int.toNat_sub, List.append_assoc sink newB [dfin <<< (8 - d * (w % (8 / d)))]]
      have hRlen : (newB ++ [dfin <<< (8 - d * (w % (8 / d)))]).length = rsN := by
        simp only [List.length_append, List.length_singleton, hlenB, Nat.zero_div,
          Nat.sub_zero]
        rw [hrsN, ← ceil_bytes_eq w d (8 / d) hd0 hdm hw0, hp3]
      have hRbyte : ∀ x, x < w →
          extByte d (x % (8 / d))
            ((newB ++ [dfin <<< (8 - d * (w % (8 / d)))]).getD (x / (8 / d)) 0)
          = pixVal d w ps x y0 % num := by
        intro x hx
        have hxle : x / (8 / d) ≤ w / (8 / d) := Nat.div_le_div_right (le_of_lt hx)
        rcases lt_or_eq_of_le hxle with hcase | hcase
        · rw [List.getD_append _ _ _ _ (by rw [hlenB, Nat.zero_div, Nat.sub_zero]; omega)]
          have hklt : x / (8 / d) < newB.length := by
            rw [hlenB, Nat.zero_div, Nat.sub_zero]
            exact hcase
          have hres := hbyteB (x / (8 / d)) (x % (8 / d)) hklt (Nat.mod_lt _ hm0)
          simp only [Nat.zero_div, Nat.zero_add] at hres
          rw [if_neg (Nat.not_lt_zero _)] at hres
          rw [show x / (8 / d) * (8 / d) + x % (8 / d) = x from by
            rw [Nat.mul_comm]
            exact Nat.div_add_mod x (8 / d)] at hres
          exact hres
        · rw [List.getD_append_right _ _ _ _
              (by rw [hlenB, Nat.zero_div, Nat.sub_zero]; omega),
            show x / (8 / d) - newB.length = 0 from by
              rw [hlenB, Nat.zero_div, Nat.sub_zero]; omega,
            List.getD_cons_zero]
          have hxform : (8 / d) * (w / (8 / d)) + x % (8 / d) = x := by
            have h1 := Nat.div_add_mod x (8 / d)
            rw [hcase] at h1
            exact h1
          have htlt : x % (8 / d) < w % (8 / d) := by
            have h2 := Nat.div_add_mod w (8 / d)
            have h3 : x % (8 / d) < 8 / d := Nat.mod_lt _ hm0
            omega
          rw [extByte_eq_div_mod d (8 / d) hdm (x % (8 / d)) (Nat.mod_lt _ hm0),
            Nat.shiftLeft_eq]
          have hexp : 8 - d * (w % (8 / d)) = d * (8 / d - w % (8 / d)) := by
            have h4 : d * (8 / d - w % (8 / d)) + d * (w % (8 / d)) = d * (8 / d) := by
              rw [← Nat.mul_add]
              congr 1
              have := Nat.mod_lt w hm0
              omega
            omega
          rw [hexp, mul_pow_div dfin _ _ (Nat.mul_le_mul_left d (by
            have := Nat.mod_lt w hm0
            omega))]
          have hdiff : d * (8 / d - 1 - x % (8 / d)) - d * (8 / d - w % (8 / d))
              = d * (w % (8 / d) - 1 - x % (8 / d)) := by
            have h5 : d * (8 / d - 1 - x % (8 / d))
                = d * (8 / d - w % (8 / d)) + d * (w % (8 / d) - 1 - x % (8 / d)) := by
              rw [← Nat.mul_add]
              congr 1
              have := Nat.mod_lt w hm0
              omega
            omega
          rw [hdiff]
          have hres := hdfb (x % (8 / d)) htlt
          rw [if_neg (Nat.not_lt_zero _)] at hres
          rw [hres, show w / (8 / d) * (8 / d) + x % (8 / d) = x from by
            rw [Nat.mul_comm]
            exact hxform]
      exact key (newB ++ [dfin <<< (8 - d * (w % (8 / d)))]) hRlen hRbyte

theorem set_comp_self (img : MicroBMP) (h : img.DIB_comp = 0) :
    { img with DIB_comp := 0 } = img := by
  cases img
  simp_all

theorem packU32_coe (n : Nat) (h : n < 4294967296) :
    packU32 (n : Int) = some (toLE n 4) := by
  rw [packU32, if_pos ⟨Int.natCast_nonneg n, by rw [Int.toNat_ofNat]; exact h⟩,
    Int.toNat_ofNat]

theorem packI32_coe (n : Nat) (h : n < 2147483648) :
    packI32 (n : Int) = some (toLE n 4) := by
  rw [packI32, if_pos ⟨le_trans (by norm_num) (Int.natCast_nonneg n), by exact_mod_cast h⟩]
  have he : ((n : Int)).emod ((4294967296 : Nat) : Int) = (n : Int) := by
    show (n : Int) % ((4294967296 : Nat) : Int) = (n : Int)
    exact Int.emod_eq_of_lt (Int.natCast_nonneg n)
      (by exact_mod_cast (by omega : n < 4294967296))
  rw [he, Int.toNat_ofNat]

theorem packU16_lt (n : Nat) (h : n < 65536) : packU16 n = some (toLE n 2) := by
  rw [packU16, if_pos h]

/-- The bytes written for a palette: `bytes([colour[2], colour[1], colour[0], 0])`
per colour. -/
def pltBytes : List (List Nat) → List Nat
  | [] => []
  | c :: rest => [c.getD 2 0, c.getD 1 0, c.getD 0 0, 0] ++ pltBytes rest

/-- The palette loop of `write_io` succeeds on well-formed colours and appends
exactly the BGR0 quadruples. -/
theorem writePltLoop_spec (img : MicroBMP) :
    ∀ (plt : List (List Nat)) (sink : List Nat),
    (∀ c ∈ plt, 2 < c.length ∧ ∀ v ∈ c, v < 256) →
    img.writePltLoop sink plt = .ok (sink ++ pltBytes plt) := by
  intro plt
  induction plt with
  | nil =>
    intro sink hplt
    simp [MicroBMP.writePltLoop, pltBytes]
  | cons c rest ih =>
    intro sink hplt
    obtain ⟨hclen, hcval⟩ := hplt c (List.mem_cons_self c rest)
    have h2 : pyGet c (2 : Int) = some (c.getD 2 0) := by
      have hp := pyGet_ofNat c 2
      rw [lget c 2 (by omega)] at hp
      simpa using hp
    have h1 : pyGet c (1 : Int) = some (c.getD 1 0) := by
      have hp := pyGet_ofNat c 1
      rw [lget c 1 (by omega)] at hp
      simpa using hp
    have h0 : pyGet c (0 : Int) = some (c.getD 0 0) := by
      have hp := pyGet_ofNat c 0
      rw [lget c 0 (by omega)] at hp
      simpa using hp
    rw [MicroBMP.writePltLoop, h2, h1, h0]
    dsimp only
    rw [if_pos ⟨hcval _ (lmem c 2 (by omega)), hcval _ (lmem c 1 (by omega)),
      hcval _ (lmem c 0 (by omega))⟩,
      ih (sink ++ [c.getD 2 0, c.getD 1 0, c.getD 0 0, 0])
        (fun c2 hc2 => hplt c2 (List.mem_cons_of_mem c hc2))]
    simp [pltBytes]

/-- `_init` on a validated indexed image with palette and pixel array already
present: succeeds and recomputes exactly the derived fields. -/
theorem init_spec (d w h num : Nat) (plt : List (List Nat)) (img : MicroBMP) (ps : List Nat)
    (rsN prsN : Nat)
    (hok : img.IndexedOK d w h ps)
    (hid : img.BMP_id = [66, 77])
    (hr1 : img.BMP_reserved1.length = 2) (hr2 : img.BMP_reserved2.length = 2)
    (hplanes : img.DIB_planes_num = 1)
    (hcomp : img.DIB_comp = 0)
    (hplt : img.palette = some plt) (hpltnum : plt.length = num)
    (hrsN : rsN = (w * d + 7) / 8) (hprsN : prsN = (rsN + 3) / 4 * 4) :
    img.init = some (true, { img with
      ppb := some (8 / d), pmask := some (2 ^ d - 1),
      DIB_num_in_plt := some num, palette := some plt, parray := some ps,
      BMP_offset := some (((14 + img.DIB_len + num * 4 : Nat)) : Int),
      row_size := some ((rsN : Nat) : Int),
      padded_row_size := some ((prsN : Nat) : Int),
      DIB_raw_size := some (((prsN * h : Nat)) : Int),
      BMP_size := some (((14 + img.DIB_len + num * 4 + prsN * h : Nat)) : Int),
      initialised := true }) := by
  obtain ⟨hini, hdep, hdd, hppb, hpmask, hw, hh, hpa, hlen, hbytes⟩ := hok
  obtain ⟨hdm, hd0, hm0, hd8, hpm⟩ := depth_facts d hdd
  have hlegal : d = 1 ∨ d = 2 ∨ d = 4 ∨ d = 8 ∨ d = 24 := by
    rcases hdd with rfl | rfl | rfl | rfl <;> norm_num
  rw [MicroBMP.init, hw, hh, hdep]
  dsimp only
  rw [if_pos ⟨hid, hr1, hr2, hplanes, hlegal, Or.inl hcomp⟩]
  simp only [if_pos hd8]
  rw [hplt, hpa]
  dsimp only
  simp only [if_pos hcomp]
  rw [hpm, hpltnum]
  have hrs_cast : MicroBMP.size_from_width d ((w : Nat) : Int) = ((rsN : Nat) : Int) := by
    rw [MicroBMP.size_from_width, hrsN,
      show ((w : Nat) : Int) * ((d : Nat) : Int) + 7 = (((w * d + 7 : Nat)) : Int) from by
        push_cast
        ring]
    rfl
  rw [hrs_cast]
  have hprs_cast : MicroBMP.padded_size_from_size ((rsN : Nat) : Int) = ((prsN : Nat) : Int) := by
    rw [MicroBMP.padded_size_from_size, hprsN,
      show ((rsN : Nat) : Int) + 3 = (((rsN + 3 : Nat)) : Int) from by push_cast; ring,
      show ((((rsN + 3 : Nat)) : Int)).ediv 4 = ((((rsN + 3) / 4 : Nat)) : Int) from rfl]
    push_cast
    ring
  rw [hprs_cast]
  rw [show (14 : Int) + (img.DIB_len : Int) + ((num * 4 : Nat) : Int)
      = (((14 + img.DIB_len + num * 4 : Nat)) : Int) from by push_cast; ring]
  rw [show ((prsN : Nat) : Int) * ((h : Nat) : Int) = (((prsN * h : Nat)) : Int) from by
    push_cast
    ring]
  rw [show (((14 + img.DIB_len + num * 4 : Nat)) : Int) + (((prsN * h : Nat)) : Int)
      = (((14 + img.DIB_len + num * 4 + prsN * h : Nat)) : Int) from by push_cast; ring]

/-- The BMP-header stage on an image whose header fields are set: writes
magic, size, reserved fields and offset, and hands over to the DIB stage. -/
theorem writeHeaderStage_spec (C : MicroBMP) (szN offN : Nat) (wI hI : Int)
    (d : Nat) (rawI : Int) (num : Nat)
    (hidC : C.BMP_id = [66, 77])
    (hsz : C.BMP_size = some ((szN : Nat) : Int)) (hsz32 : szN < 4294967296)
    (hoff : C.BMP_offset = some ((offN : Nat) : Int)) (hoff32 : offN < 4294967296)
    (hw : C.DIB_w = some wI) (hh : C.DIB_h = some hI) (hdep : C.DIB_depth = some d)
    (hraw : C.DIB_raw_size = some rawI) (hnum : C.DIB_num_in_plt = some num) :
    C.writeHeaderStage = C.writeDIBStage wI hI d rawI num
      ([66, 77] ++ toLE szN 4 ++ C.BMP_reserved1 ++ C.BMP_reserved2 ++ toLE offN 4) := by
  rw [MicroBMP.writeHeaderStage, hidC]
  dsimp only
  split
  · next heq =>
    rw [hsz] at heq
    exact absurd heq (by simp)
  · next sz heq =>
    rw [hsz] at heq
    injection heq with heq2
    subst heq2
    split
    · next heq3 =>
      rw [packU32_coe szN hsz32] at heq3
      exact absurd heq3 (by simp)
    · next szB heq3 =>
      rw [packU32_coe szN hsz32] at heq3
      injection heq3 with heq4
      subst heq4
      split
      · next heq5 =>
        rw [hoff] at heq5
        exact absurd heq5 (by simp)
      · next off heq5 =>
        rw [hoff] at heq5
        injection heq5 with heq6
        subst heq6
        split
        · next heq7 =>
          rw [packU32_coe offN hoff32] at heq7
          exact absurd heq7 (by simp)
        · next offB heq7 =>
          rw [packU32_coe offN hoff32] at heq7
          injection heq7 with heq8
          subst heq8
          split
          · next w2 hh2 depth2 raw2 num2 heqa heqb heqc heqd heqe =>
            rw [hw] at heqa
            rw [hh] at heqb
            rw [hdep] at heqc
            rw [hraw] at heqd
            rw [hnum] at heqe
            have ha := Option.some.inj heqa
            have hb := Option.some.inj heqb
            have hc := Option.some.inj heqc
            have hd2 := Option.some.inj heqd
            have he := Option.some.inj heqe
            subst ha
            subst hb
            subst hc
            subst hd2
            subst he
            rfl
          · next hfall =>
            exact absurd (hfall wI hI d rawI num hw hh hdep hraw hnum) (by simp)

/-- The DIB-header stage: the single pack of the 40-byte info header. -/
theorem writeDIBStage_spec (C : MicroBMP) (w h d num rawN : Nat) (sink2 : List Nat)
    (hlen : C.DIB_len = 40) (hplanes : C.DIB_planes_num = 1) (hcomp : C.DIB_comp = 0)
    (hhres : C.DIB_hres = 2835) (hvres : C.DIB_vres = 2835)
    (hw31 : w < 2147483648) (hh31 : h < 2147483648) (hraw32 : rawN < 4294967296)
    (hnum32 : num < 4294967296) (hd16 : d < 65536) :
    C.writeDIBStage ((w : Nat) : Int) ((h : Nat) : Int) d ((rawN : Nat) : Int) num sink2
      = C.writePaletteStage ((w : Nat) : Int) ((h : Nat) : Int) d num
        (sink2 ++ (toLE 40 4 ++ toLE w 4 ++ toLE h 4 ++ toLE 1 2 ++ toLE d 2 ++ toLE 0 4 ++
          toLE rawN 4 ++ toLE 2835 4 ++ toLE 2835 4 ++ toLE num 4 ++ toLE num 4)) := by
  unfold MicroBMP.writeDIBStage
  rw [hlen, hplanes, hcomp, hhres, hvres]
  dsimp only
  split
  · next heq =>
    rw [packU32_coe 40 (by norm_num), packI32_coe w hw31, packI32_coe h hh31,
      packU16_lt 1 (by norm_num), packU16_lt d hd16, packU32_coe 0 (by norm_num),
      packU32_coe rawN hraw32,
      show packI32 (2835 : Int) = some (toLE 2835 4) from by rfl,
      packU32_coe num hnum32] at heq
    simp only [Option.some_bind] at heq
    exact absurd heq (by simp)
  · next dibB heq =>
    rw [packU32_coe 40 (by norm_num), packI32_coe w hw31, packI32_coe h hh31,
      packU16_lt 1 (by norm_num), packU16_lt d hd16, packU32_coe 0 (by norm_num),
      packU32_coe rawN hraw32,
      show packI32 (2835 : Int) = some (toLE 2835 4) from by rfl,
      packU32_coe num hnum32] at heq
    simp only [Option.some_bind] at heq
    injection heq with heq2
    subst heq2
    rfl

/-- The extra/palette stage on a 40-byte-DIB indexed image with a
well-formed palette: appends exactly the BGR0 palette bytes. -/
theorem writePaletteStage_spec (C : MicroBMP) (wI hI : Int) (d num : Nat)
    (plt : List (List Nat)) (sink3 : List Nat)
    (hlen : C.DIB_len = 40) (hd8 : d ≤ 8) (hplt : C.palette = some plt)
    (hpltok : ∀ c ∈ plt, 2 < c.length ∧ ∀ v ∈ c, v < 256) :
    C.writePaletteStage wI hI d num sink3
      = C.writePixelStage wI hI d num (sink3 ++ pltBytes plt) := by
  rw [MicroBMP.writePaletteStage, hlen]
  rw [if_neg (lt_irrefl 40)]
  split
  · next heq =>
    exact absurd heq (by simp)
  · next sink4 heq =>
    injection heq with heq2
    subst heq2
    rw [if_pos hd8, hplt]
    dsimp only
    rw [writePltLoop_spec C plt sink3 hpltok]

/-- The pixel stage reads the row fields and runs the row loop over
`range(height)`. -/
theorem writePixelStage_spec (C : MicroBMP) (w h d num rsN prsN : Nat)
    (sink5 : List Nat)
    (hrs : C.row_size = some ((rsN : Nat) : Int))
    (hprs : C.padded_row_size = some ((prsN : Nat) : Int))
    (hppb : C.ppb = some (8 / d)) :
    C.writePixelStage ((w : Nat) : Int) ((h : Nat) : Int) d num sink5
      = MicroBMP.writeRows C ((h : Nat) : Int) ((w : Nat) : Int) d ((rsN : Nat) : Int)
          ((prsN : Nat) : Int) num (8 / d) sink5 (List.range' 0 h) := by
  rw [MicroBMP.writePixelStage]
  split
  · next rsv prsv ppbf heqa heqb =>
    rw [hrs] at heqa
    rw [hprs] at heqb
    have ha := Option.some.inj heqa
    have hb := Option.some.inj heqb
    subst ha
    subst hb
    rw [hppb]
    dsimp only
    rw [Int.toNat_ofNat, List.range_eq_range']
  · next hfall =>
    exact absurd (hfall ((rsN : Nat) : Int) ((prsN : Nat) : Int) hrs hprs) (by simp)

/-- `write_io` without forcing on an image with compression 0 whose `_init`
succeeds: it proceeds to the header stage of the re-initialised image. -/
theorem write_io_start (img C : MicroBMP) (hcomp : img.DIB_comp = 0)
    (hinit : img.init = some (true, C)) :
    img.write_io false = C.writeHeaderStage := by
  rw [MicroBMP.write_io]
  rw [if_neg Bool.false_ne_true, set_comp_self img hcomp]
  split
  · next heq =>
    rw [hinit] at heq
    exact absurd heq (by simp)
  · next C2 heq =>
    rw [hinit] at heq
    exact absurd heq (by simp)
  · next C2 heq =>
    rw [hinit] at heq
    have h2 : C = C2 := by
      simpa using heq
    subst h2
    rfl

/-- Full characterization of a successful `write_io` on a validated indexed
image: the byte stream is the 14-byte header, the 40-byte DIB header, the
BGR0 palette and the bottom-up padded rows with every pixel reduced modulo
the palette size; the image is mutated to the re-initialised state whose
pixel array holds the reduced values. -/
theorem write_io_spec (d w h num : Nat) (plt : List (List Nat)) (img : MicroBMP)
    (ps : List Nat) (rsN prsN offN szN : Nat)
    (hok : img.IndexedOK d w h ps)
    (hid : img.BMP_id = [66, 77])
    (hplanes : img.DIB_planes_num = 1) (hcomp : img.DIB_comp = 0)
    (hlen40 : img.DIB_len = 40)
    (hhres : img.DIB_hres = 2835) (hvres : img.DIB_vres = 2835)
    (hr1 : img.BMP_reserved1.length = 2) (hr2 : img.BMP_reserved2.length = 2)
    (hplt : img.palette = some plt) (hpltnum : plt.length = num) (hnum : 0 < num)
    (hpltok : ∀ c ∈ plt, 2 < c.length ∧ ∀ v ∈ c, v < 256)
    (hw0 : 0 < w) (hh0 : 0 < h)
    (hw31 : w < 2147483648) (hh31 : h < 2147483648)
    (hrsN : rsN = (w * d + 7) / 8) (hprsN : prsN = (rsN + 3) / 4 * 4)
    (hoffN : offN = 54 + num * 4) (hszN : szN = offN + prsN * h)
    (hsz32 : szN < 4294967296) :
    ∃ rowB ps2,
      img.write_io false = .ok (
        [66, 77] ++ toLE szN 4 ++ img.BMP_reserved1 ++ img.BMP_reserved2 ++ toLE offN 4 ++
          (toLE 40 4 ++ toLE w 4 ++ toLE h 4 ++ toLE 1 2 ++ toLE d 2 ++ toLE 0 4 ++
            toLE (prsN * h) 4 ++ toLE 2835 4 ++ toLE 2835 4 ++ toLE num 4 ++ toLE num 4) ++
          pltBytes plt ++ rowB,
        { img with
          BMP_id := [66, 77], DIB_w := some ((w : Nat) : Int),
          DIB_h := some ((h : Nat) : Int), DIB_planes_num := 1, DIB_depth := some d,
          DIB_comp := 0, DIB_hres := 2835, DIB_vres := 2835, DIB_len := 40,
          ppb := some (8 / d), pmask := some (2 ^ d - 1), DIB_num_in_plt := some num,
          palette := some plt, parray := some ps2,
          BMP_offset := some ((offN : Nat) : Int),
          row_size := some ((rsN : Nat) : Int),
          padded_row_size := some ((prsN : Nat) : Int),
          DIB_raw_size := some (((prsN * h : Nat)) : Int),
          BMP_size := some ((szN : Nat) : Int),
          initialised := true }) ∧
      MicroBMP.IndexedOK { img with
          BMP_id := [66, 77], DIB_w := some ((w : Nat) : Int),
          DIB_h := some ((h : Nat) : Int), DIB_planes_num := 1, DIB_depth := some d,
          DIB_comp := 0, DIB_hres := 2835, DIB_vres := 2835, DIB_len := 40,
          ppb := some (8 / d), pmask := some (2 ^ d - 1), DIB_num_in_plt := some num,
          palette := some plt, parray := some ps2,
          BMP_offset := some ((offN : Nat) : Int),
          row_size := some ((rsN : Nat) : Int),
          padded_row_size := some ((prsN : Nat) : Int),
          DIB_raw_size := some (((prsN * h : Nat)) : Int),
          BMP_size := some ((szN : Nat) : Int),
          initialised := true } d w h ps2 ∧
      rowB.length = h * prsN ∧
      (∀ i x : Nat, i < h → x < w →
        extByte d (x % (8 / d)) (rowB.getD (i * prsN + x / (8 / d)) 0)
          = pixVal d w ps x (h - 1 - i) % num) ∧
      (∀ x2 y2 : Nat, x2 < w → y2 < h →
        pixVal d w ps2 x2 y2 = pixVal d w ps x2 y2 % num) := by
  have hok0 := hok
  obtain ⟨hini, hdep, hdd, hppbF, hpmaskF, hwF, hhF, hpaF, hlen, hbytes⟩ := hok0
  obtain ⟨hdm, hd0, hm0, hd8, hpm⟩ := depth_facts d hdd
  have hple : rsN ≤ prsN := by
    have hq := Nat.div_add_mod (rsN + 3) 4
    have hc : (rsN + 3) / 4 * 4 = 4 * ((rsN + 3) / 4) := Nat.mul_comm _ _
    have hr : (rsN + 3) % 4 < 4 := Nat.mod_lt _ (by norm_num)
    omega
  obtain ⟨rowB, img2, ps2, hrun, heq, hok2, hlen2, hbyte2, hpix2⟩ :=
    writeRows_spec d w h num rsN prsN hdd hnum hw0 hrsN hple h 0
      { img with
          BMP_id := [66, 77], DIB_w := some ((w : Nat) : Int),
          DIB_h := some ((h : Nat) : Int), DIB_planes_num := 1, DIB_depth := some d,
          DIB_comp := 0, DIB_hres := 2835, DIB_vres := 2835, DIB_len := 40,
          ppb := some (8 / d), pmask := some (2 ^ d - 1), DIB_num_in_plt := some num,
          palette := some plt, parray := some ps,
          BMP_offset := some ((offN : Nat) : Int),
          row_size := some ((rsN : Nat) : Int),
          padded_row_size := some ((prsN : Nat) : Int),
          DIB_raw_size := some (((prsN * h : Nat)) : Int),
          BMP_size := some ((szN : Nat) : Int),
          initialised := true } ps
      ([66, 77] ++ toLE szN 4 ++ img.BMP_reserved1 ++ img.BMP_reserved2 ++ toLE offN 4 ++
        (toLE 40 4 ++ toLE w 4 ++ toLE h 4 ++ toLE 1 2 ++ toLE d 2 ++ toLE 0 4 ++
          toLE (prsN * h) 4 ++ toLE 2835 4 ++ toLE 2835 4 ++ toLE num 4 ++ toLE num 4) ++
        pltBytes plt)
      ⟨rfl, rfl, hdd, rfl, rfl, rfl, rfl, rfl, hlen, hbytes⟩ (by omega)
  have hinit := init_spec d w h num plt img ps rsN prsN hok hid hr1 hr2
    hplanes hcomp hplt hpltnum hrsN hprsN
  rw [hid, hwF, hhF, hdep, hplanes, hcomp, hlen40, hhres, hvres] at hinit
  rw [show (14 + 40 + num * 4 : Nat) = offN from by rw [hoffN], ← hszN] at hinit
  set imgC : MicroBMP :=
    { img with
      BMP_id := [66, 77], DIB_w := some ((w : Nat) : Int),
      DIB_h := some ((h : Nat) : Int), DIB_planes_num := 1, DIB_depth := some d,
      DIB_comp := 0, DIB_hres := 2835, DIB_vres := 2835, DIB_len := 40,
      ppb := some (8 / d), pmask := some (2 ^ d - 1), DIB_num_in_plt := some num,
      palette := some plt, parray := some ps,
      BMP_offset := some ((offN : Nat) : Int),
      row_size := some ((rsN : Nat) : Int),
      padded_row_size := some ((prsN : Nat) : Int),
      DIB_raw_size := some (((prsN * h : Nat)) : Int),
      BMP_size := some ((szN : Nat) : Int),
      initialised := true } with hC
  have hCid : imgC.BMP_id = [66, 77] := by rw [hC]
  have hCsize : imgC.BMP_size = some ((szN : Nat) : Int) := by rw [hC]
  have hCoff : imgC.BMP_offset = some ((offN : Nat) : Int) := by rw [hC]
  have hCw : imgC.DIB_w = some ((w : Nat) : Int) := by rw [hC]
  have hCh : imgC.DIB_h = some ((h : Nat) : Int) := by rw [hC]
  have hCdep : imgC.DIB_depth = some d := by rw [hC]
  have hCraw : imgC.DIB_raw_size = some (((prsN * h : Nat)) : Int) := by rw [hC]
  have hCnum : imgC.DIB_num_in_plt = some num := by rw [hC]
  have hClen : imgC.DIB_len = 40 := by rw [hC]
  have hCplanes : imgC.DIB_planes_num = 1 := by rw [hC]
  have hCcomp : imgC.DIB_comp = 0 := by rw [hC]
  have hChres : imgC.DIB_hres = 2835 := by rw [hC]
  have hCvres : imgC.DIB_vres = 2835 := by rw [hC]
  have hCplt : imgC.palette = some plt := by rw [hC]
  have hCr1 : imgC.BMP_reserved1 = img.BMP_reserved1 := by rw [hC]
  have hCr2 : imgC.BMP_reserved2 = img.BMP_reserved2 := by rw [hC]
  have hCrs : imgC.row_size = some ((rsN : Nat) : Int) := by rw [hC]
  have hCprs : imgC.padded_row_size = some ((prsN : Nat) : Int) := by rw [hC]
  have hCppb : imgC.ppb = some (8 / d) := by rw [hC]
  refine ⟨rowB, ps2, ?_, ?_, hlen2, ?_, ?_⟩
  · rw [write_io_start img imgC hcomp hinit,
      writeHeaderStage_spec imgC szN offN ((w : Nat) : Int) ((h : Nat) : Int) d
        (((prsN * h : Nat)) : Int) num hCid hCsize hsz32 hCoff (by omega) hCw hCh hCdep
        hCraw hCnum,
      hCr1, hCr2,
      writeDIBStage_spec imgC w h d num (prsN * h) _ hClen hCplanes hCcomp hChres hCvres
        hw31 hh31 (by omega) (by omega) (by omega),
      writePaletteStage_spec imgC ((w : Nat) : Int) ((h : Nat) : Int) d num plt _ hClen hd8
        hCplt hpltok,
      writePixelStage_spec imgC w h d num rsN prsN _ hCrs hCprs hCppb,
      hrun, heq, hC]
  · have hres := hok2
    rw [heq] at hres
    exact hres
  · intro i x hi hx
    have hres := hbyte2 i x hi hx
    rw [Nat.zero_add] at hres
    exact hres
  · intro x2 y2 hx2 hy2
    have hres := hpix2 x2 y2 hx2 hy2
    rw [if_pos (by omega)] at hres
    exact hres

theorem toLE_length (n k : Nat) : (toLE n k).length = k := by
  induction k generalizing n with
  | zero => rfl
  | succ k ih => simp [toLE, ih]

theorem pltBytes_length (plt : List (List Nat)) : (pltBytes plt).length = 4 * plt.length := by
  induction plt with
  | nil => rfl
  | cons c rest ih =>
    simp only [pltBytes, List.length_append, List.length_cons, List.length_nil, ih,
      List.length_cons]
    omega

/-- C10: encoding mutates the image: a successful `write_io` reduces every
stored pixel index modulo the palette size in the in-memory pixel array (so
an image holding an out-of-range index observably differs afterwards), and
every field other than the pixel array and the recomputed header fields is
unchanged. -/
theorem claim_C10 (d w h num : Nat) (plt : List (List Nat)) (img : MicroBMP)
    (ps : List Nat) (rsN prsN offN szN : Nat)
    (hok : img.IndexedOK d w h ps)
    (hid : img.BMP_id = [66, 77])
    (hplanes : img.DIB_planes_num = 1) (hcomp : img.DIB_comp = 0)
    (hlen40 : img.DIB_len = 40)
    (hhres : img.DIB_hres = 2835) (hvres : img.DIB_vres = 2835)
    (hr1 : img.BMP_reserved1.length = 2) (hr2 : img.BMP_reserved2.length = 2)
    (hplt : img.palette = some plt) (hpltnum : plt.length = num) (hnum : 0 < num)
    (hpltok : ∀ c ∈ plt, 2 < c.length ∧ ∀ v ∈ c, v < 256)
    (hw0 : 0 < w) (hh0 : 0 < h)
    (hw31 : w < 2147483648) (hh31 : h < 2147483648)
    (hrsN : rsN = (w * d + 7) / 8) (hprsN : prsN = (rsN + 3) / 4 * 4)
    (hoffN : offN = 54 + num * 4) (hszN : szN = offN + prsN * h)
    (hsz32 : szN < 4294967296) :
    ∃ bytes img2, img.write_io false = .ok (bytes, img2) ∧
      (∃ ps2, img2.parray = some ps2 ∧
        ∀ x y : Nat, x < w → y < h →
          pixVal d w ps2 x y = pixVal d w ps x y % num) ∧
      img2.BMP_id = img.BMP_id ∧
      img2.BMP_reserved1 = img.BMP_reserved1 ∧
      img2.BMP_reserved2 = img.BMP_reserved2 ∧
      img2.DIB_len = img.DIB_len ∧
      img2.DIB_w = img.DIB_w ∧
      img2.DIB_h = img.DIB_h ∧
      img2.DIB_planes_num = img.DIB_planes_num ∧
      img2.DIB_depth = img.DIB_depth ∧
      img2.DIB_comp = img.DIB_comp ∧
      img2.DIB_hres = img.DIB_hres ∧
      img2.DIB_vres = img.DIB_vres ∧
      img2.DIB_extra = img.DIB_extra ∧
      img2.palette = img.palette ∧
      (∀ x y : Nat, x < w → y < h → num ≤ pixVal d w ps x y →
        img2.parray ≠ img.parray) := by
  have hok0 := hok
  obtain ⟨hini, hdep, hdd, hppbF, hpmaskF, hwF, hhF, hpaF, hlen, hbytes⟩ := hok0
  obtain ⟨rowB, ps2, hrun, hok2, hlen2, hbyte2, hpix2⟩ :=
    write_io_spec d w h num plt img ps rsN prsN offN szN hok hid hplanes hcomp hlen40
      hhres hvres hr1 hr2 hplt hpltnum hnum hpltok hw0 hh0 hw31 hh31 hrsN hprsN hoffN
      hszN hsz32
  refine ⟨_, _, hrun, ⟨ps2, rfl, hpix2⟩, hid.symm, rfl, rfl, hlen40.symm, hwF.symm,
    hhF.symm, hplanes.symm, hdep.symm, hcomp.symm, hhres.symm, hvres.symm, rfl,
    hplt.symm, ?_⟩
  intro x y hx hy hge hcon
  rw [hpaF] at hcon
  have hps : ps2 = ps := Option.some.inj hcon
  subst hps
  have hmod := hpix2 x y hx hy
  have hlt : pixVal d w ps2 x y % num < num := Nat.mod_lt _ hnum
  omega

/-- A 1x1 8-bit image with a one-colour palette and the out-of-range pixel
index 5 stored in its array. -/
def c10img : MicroBMP :=
  { MicroBMP.empty with
    DIB_w := some 1, DIB_h := some 1, DIB_depth := some 8,
    ppb := some 1, pmask := some 255, palette := some [[0, 0, 0]],
    parray := some [5], initialised := true }

theorem claim_C10_witness :
    ∃ bytes img2, c10img.write_io false = .ok (bytes, img2) ∧
      (∃ ps2, img2.parray = some ps2 ∧
        ∀ x y : Nat, x < 1 → y < 1 →
          pixVal 8 1 ps2 x y = pixVal 8 1 [5] x y % 1) ∧
      img2.BMP_id = c10img.BMP_id ∧
      img2.BMP_reserved1 = c10img.BMP_reserved1 ∧
      img2.BMP_reserved2 = c10img.BMP_reserved2 ∧
      img2.DIB_len = c10img.DIB_len ∧
      img2.DIB_w = c10img.DIB_w ∧
      img2.DIB_h = c10img.DIB_h ∧
      img2.DIB_planes_num = c10img.DIB_planes_num ∧
      img2.DIB_depth = c10img.DIB_depth ∧
      img2.DIB_comp = c10img.DIB_comp ∧
      img2.DIB_hres = c10img.DIB_hres ∧
      img2.DIB_vres = c10img.DIB_vres ∧
      img2.DIB_extra = c10img.DIB_extra ∧
      img2.palette = c10img.palette ∧
      (∀ x y : Nat, x < 1 → y < 1 → 1 ≤ pixVal 8 1 [5] x y →
        img2.parray ≠ c10img.parray) :=
  claim_C10 8 1 1 1 [[0, 0, 0]] c10img [5] 1 4 58 62 (by decide) rfl rfl rfl rfl rfl rfl
    rfl rfl rfl rfl (by decide) (by decide) (by decide) (by decide) (by decide)
    (by decide) rfl rfl rfl rfl (by decide)

theorem getD_skip_front (pre suf : List Nat) (k j : Nat) (hpre : pre.length = k) :
    (pre ++ suf).getD (k + j) 0 = suf.getD j 0 := by
  rw [List.getD_append_right _ _ _ _ (by omega),
    show k + j - pre.length = j from by omega]

/-- C5: the serialized stream never contains a raw out-of-range pixel index:
the packed value stored in the produced bytes for pixel (x, y) is the stored
index reduced modulo the palette size, which differs from the raw value
whenever that value is at least the palette size. -/
theorem claim_C5 (d w h num : Nat) (plt : List (List Nat)) (img : MicroBMP)
    (ps : List Nat) (rsN prsN offN szN : Nat)
    (hok : img.IndexedOK d w h ps)
    (hid : img.BMP_id = [66, 77])
    (hplanes : img.DIB_planes_num = 1) (hcomp : img.DIB_comp = 0)
    (hlen40 : img.DIB_len = 40)
    (hhres : img.DIB_hres = 2835) (hvres : img.DIB_vres = 2835)
    (hr1 : img.BMP_reserved1.length = 2) (hr2 : img.BMP_reserved2.length = 2)
    (hplt : img.palette = some plt) (hpltnum : plt.length = num) (hnum : 0 < num)
    (hpltok : ∀ c ∈ plt, 2 < c.length ∧ ∀ v ∈ c, v < 256)
    (hw0 : 0 < w) (hh0 : 0 < h)
    (hw31 : w < 2147483648) (hh31 : h < 2147483648)
    (hrsN : rsN = (w * d + 7) / 8) (hprsN : prsN = (rsN + 3) / 4 * 4)
    (hoffN : offN = 54 + num * 4) (hszN : szN = offN + prsN * h)
    (hsz32 : szN < 4294967296) :
    ∃ bytes img2, img.write_io false = .ok (bytes, img2) ∧
      (∀ x y : Nat, x < w → y < h →
        extByte d (x % (8 / d))
            (bytes.getD (offN + ((h - 1 - y) * prsN + x / (8 / d))) 0)
          = pixVal d w ps x y % num) ∧
      (∀ x y : Nat, x < w → y < h → num ≤ pixVal d w ps x y →
        extByte d (x % (8 / d))
            (bytes.getD (offN + ((h - 1 - y) * prsN + x / (8 / d))) 0)
          ≠ pixVal d w ps x y) := by
  obtain ⟨rowB, ps2, hrun, hok2, hlen2, hbyte2, hpix2⟩ :=
    write_io_spec d w h num plt img ps rsN prsN offN szN hok hid hplanes hcomp hlen40
      hhres hvres hr1 hr2 hplt hpltnum hnum hpltok hw0 hh0 hw31 hh31 hrsN hprsN hoffN
      hszN hsz32
  have hHDR : ([66, 77] ++ toLE szN 4 ++ img.BMP_reserved1 ++ img.BMP_reserved2
      ++ toLE offN 4 ++
      (toLE 40 4 ++ toLE w 4 ++ toLE h 4 ++ toLE 1 2 ++ toLE d 2 ++ toLE 0 4 ++
        toLE (prsN * h) 4 ++ toLE 2835 4 ++ toLE 2835 4 ++ toLE num 4 ++ toLE num 4) ++
      pltBytes plt).length = offN := by
    simp only [List.length_append, toLE_length, List.length_cons, List.length_nil,
      pltBytes_length, hr1, hr2, hpltnum]
    omega
  have hext : ∀ x y : Nat, x < w → y < h →
      extByte d (x % (8 / d))
          (([66, 77] ++ toLE szN 4 ++ img.BMP_reserved1 ++ img.BMP_reserved2
            ++ toLE offN 4 ++
            (toLE 40 4 ++ toLE w 4 ++ toLE h 4 ++ toLE 1 2 ++ toLE d 2 ++ toLE 0 4 ++
              toLE (prsN * h) 4 ++ toLE 2835 4 ++ toLE 2835 4 ++ toLE num 4 ++
              toLE num 4) ++ pltBytes plt ++ rowB).getD
            (offN + ((h - 1 - y) * prsN + x / (8 / d))) 0)
        = pixVal d w ps x y % num := by
    intro x y hx hy
    rw [getD_skip_front _ _ offN _ hHDR, hbyte2 (h - 1 - y) x (by omega) hx,
      show h - 1 - (h - 1 - y) = y from by omega]
  refine ⟨_, _, hrun, hext, ?_⟩
  intro x y hx hy hge hcon
  rw [hext x y hx hy] at hcon
  have hlt : pixVal d w ps x y % num < num := Nat.mod_lt _ hnum
  omega

/-- A 1x1 8-bit image with a two-colour palette holding the out-of-range
pixel index 5. -/
def c5img : MicroBMP :=
  { MicroBMP.empty with
    DIB_w := some 1, DIB_h := some 1, DIB_depth := some 8,
    ppb := some 1, pmask := some 255, palette := some [[1, 2, 3], [4, 5, 6]],
    parray := some [5], initialised := true }

theorem claim_C5_witness :
    ∃ bytes img2, c5img.write_io false = .ok (bytes, img2) ∧
      (∀ x y : Nat, x < 1 → y < 1 →
        extByte 8 (x % (8 / 8))
            (bytes.getD (62 + ((1 - 1 - y) * 4 + x / (8 / 8))) 0)
          = pixVal 8 1 [5] x y % 2) ∧
      (∀ x y : Nat, x < 1 → y < 1 → 2 ≤ pixVal 8 1 [5] x y →
        extByte 8 (x % (8 / 8))
            (bytes.getD (62 + ((1 - 1 - y) * 4 + x / (8 / 8))) 0)
          ≠ pixVal 8 1 [5] x y) :=
  claim_C5 8 1 1 2 [[1, 2, 3], [4, 5, 6]] c5img [5] 1 4 62 66 (by decide) rfl rfl rfl
    rfl rfl rfl rfl rfl rfl (by decide) (by decide) (by decide) (by decide) (by decide)
    (by decide) (by decide) rfl rfl rfl rfl (by decide)

/-- C4: after a successful validation pass the derived fields satisfy the
formulas of the claim (offset = 14 + DIB length + 4 x palette entries, row
size = ceil(width x depth / 8), padded row size = row size rounded up to a
multiple of 4, and with compression 0 raw size = padded row size x height
and file size = offset + raw size), and a successful `write_io` writes
exactly that file size in bytes. -/
theorem claim_C4 (d w h num : Nat) (plt : List (List Nat)) (img : MicroBMP)
    (ps : List Nat) (rsN prsN offN szN : Nat)
    (hok : img.IndexedOK d w h ps)
    (hid : img.BMP_id = [66, 77])
    (hplanes : img.DIB_planes_num = 1) (hcomp : img.DIB_comp = 0)
    (hlen40 : img.DIB_len = 40)
    (hhres : img.DIB_hres = 2835) (hvres : img.DIB_vres = 2835)
    (hr1 : img.BMP_reserved1.length = 2) (hr2 : img.BMP_reserved2.length = 2)
    (hplt : img.palette = some plt) (hpltnum : plt.length = num) (hnum : 0 < num)
    (hpltok : ∀ c ∈ plt, 2 < c.length ∧ ∀ v ∈ c, v < 256)
    (hw0 : 0 < w) (hh0 : 0 < h)
    (hw31 : w < 2147483648) (hh31 : h < 2147483648)
    (hrsN : rsN = (w * d + 7) / 8) (hprsN : prsN = (rsN + 3) / 4 * 4)
    (hoffN : offN = 54 + num * 4) (hszN : szN = offN + prsN * h)
    (hsz32 : szN < 4294967296) :
    (∃ imgC, img.init = some (true, imgC) ∧
      imgC.BMP_offset = some (((14 + img.DIB_len + num * 4 : Nat)) : Int) ∧
      imgC.row_size = some ((rsN : Nat) : Int) ∧
      imgC.padded_row_size = some ((prsN : Nat) : Int) ∧
      imgC.DIB_raw_size = some (((prsN * h : Nat)) : Int) ∧
      imgC.BMP_size = some (((14 + img.DIB_len + num * 4 + prsN * h : Nat)) : Int)) ∧
    (∃ bytes img2, img.write_io false = .ok (bytes, img2) ∧
      bytes.length = szN ∧ img2.BMP_size = some ((szN : Nat) : Int)) := by
  constructor
  · exact ⟨_, init_spec d w h num plt img ps rsN prsN hok hid hr1 hr2 hplanes hcomp
      hplt hpltnum hrsN hprsN, rfl, rfl, rfl, rfl, rfl⟩
  · obtain ⟨rowB, ps2, hrun, hok2, hlen2, hbyte2, hpix2⟩ :=
      write_io_spec d w h num plt img ps rsN prsN offN szN hok hid hplanes hcomp hlen40
        hhres hvres hr1 hr2 hplt hpltnum hnum hpltok hw0 hh0 hw31 hh31 hrsN hprsN hoffN
        hszN hsz32
    refine ⟨_, _, hrun, ?_, rfl⟩
    simp only [List.length_append, toLE_length, List.length_cons, List.length_nil,
      pltBytes_length, hr1, hr2, hpltnum, hlen2]
    have hc : h * prsN = prsN * h := Nat.mul_comm _ _
    omega

/-- A 1x1 8-bit image with a one-colour palette and pixel index 0. -/
def c4img : MicroBMP :=
  { MicroBMP.empty with
    DIB_w := some 1, DIB_h := some 1, DIB_depth := some 8,
    ppb := some 1, pmask := some 255, palette := some [[9, 8, 7]],
    parray := some [0], initialised := true }

theorem claim_C4_witness :
    (∃ imgC, c4img.init = some (true, imgC) ∧
      imgC.BMP_offset = some (((14 + c4img.DIB_len + 1 * 4 : Nat)) : Int) ∧
      imgC.row_size = some ((1 : Nat) : Int) ∧
      imgC.padded_row_size = some ((4 : Nat) : Int) ∧
      imgC.DIB_raw_size = some (((4 * 1 : Nat)) : Int) ∧
      imgC.BMP_size = some (((14 + c4img.DIB_len + 1 * 4 + 4 * 1 : Nat)) : Int)) ∧
    (∃ bytes img2, c4img.write_io false = .ok (bytes, img2) ∧
      bytes.length = 62 ∧ img2.BMP_size = some ((62 : Nat) : Int)) :=
  claim_C4 8 1 1 1 [[9, 8, 7]] c4img [0] 1 4 58 62 (by decide) rfl rfl rfl rfl rfl rfl
    rfl rfl rfl rfl (by decide) (by decide) (by decide) (by decide) (by decide)
    (by decide) rfl rfl rfl rfl (by decide)

/-- A BMP stream whose header is well-formed except for the invalid bit
depth 3 (1x1 image, one palette entry). -/
def badDepthBMP : List Nat :=
  [66, 77] ++ toLE 62 4 ++ [0, 0] ++ [0, 0] ++ toLE 58 4 ++
  toLE 40 4 ++ toLE 1 4 ++ toLE 1 4 ++ toLE 1 2 ++ toLE 3 2 ++ toLE 0 4 ++
  toLE 4 4 ++ toLE 2835 4 ++ toLE 2835 4 ++ toLE 1 4 ++ toLE 1 4 ++ [0, 0, 0, 0]

/-- Decoding the invalid-depth stream fails in `_init`, after the header
fields and the palette have already been written into the object. -/
theorem read_io_badDepth (img : MicroBMP) :
    img.read_io badDepthBMP = .error
      { img with
        BMP_id := [66, 77], BMP_size := some 62, BMP_reserved1 := [0, 0],
        BMP_reserved2 := [0, 0], BMP_offset := some 58, DIB_len := 40,
        DIB_w := some 1, DIB_h := some 1, DIB_planes_num := 1, DIB_depth := some 3,
        DIB_comp := 0, DIB_raw_size := some 4, DIB_hres := 2835, DIB_vres := 2835,
        DIB_num_in_plt := some 1, palette := some [[0, 0, 0]], parray := none } := by
  rfl

/-- Encoding an image whose depth field is the invalid value 3 fails in
`_init` with an empty sink: no byte is written. -/
theorem write_io_invalid_depth (img : MicroBMP) (wI hI : Int)
    (hw : img.DIB_w = some wI) (hh : img.DIB_h = some hI)
    (hdep : img.DIB_depth = some 3) :
    img.write_io false = .error ([], { img with DIB_comp := 0 }) := by
  have hinit : ({ img with DIB_comp := 0 }).init = none := by
    rw [MicroBMP.init]
    dsimp only
    rw [hw, hh, hdep]
    dsimp only
    rw [if_neg ?hv]
    case hv =>
      intro hcon
      obtain ⟨h1, h2, h3, h4, h5, h6⟩ := hcon
      rcases h5 with h5 | h5 | h5 | h5 | h5 <;> norm_num at h5
  rw [MicroBMP.write_io]
  rw [if_neg Bool.false_ne_true]
  split
  · rfl
  · next C2 heq =>
    rw [hinit] at heq
    exact absurd heq (by simp)
  · next C2 heq =>
    rw [hinit] at heq
    exact absurd heq (by simp)

/-- C7 (amended): an invalid depth does fail validation on both paths —
`write_io` errors with an empty sink before emitting a single byte, and
decoding a stream with that depth errors in `_init` — but an illegal
depth/compression pairing is not rejected on encode: `write_io` silently
coerces the compression field to 0 before validating (see the
counterexample), and the decode error for a bad depth is only raised after
the header and palette bytes have been consumed from the source. -/
theorem claim_C7 :
    (∀ (img : MicroBMP) (wI hI : Int), img.DIB_w = some wI → img.DIB_h = some hI →
      img.DIB_depth = some 3 →
      img.write_io false = .error ([], { img with DIB_comp := 0 })) ∧
    (∀ img : MicroBMP, ∃ e, img.read_io badDepthBMP = .error e ∧
      e.DIB_depth = some 3 ∧ e.initialised = img.initialised ∧ e.parray = none) := by
  constructor
  · intro img wI hI hw hh hdep
    exact write_io_invalid_depth img wI hI hw hh hdep
  · intro img
    exact ⟨_, read_io_badDepth img, rfl, rfl, rfl⟩

/-- A 1x1 image with the invalid depth 3 set. -/
def c7dimg : MicroBMP :=
  { MicroBMP.empty with DIB_w := some 1, DIB_h := some 1, DIB_depth := some 3 }

theorem claim_C7_witness :
    c7dimg.write_io false = .error ([], { c7dimg with DIB_comp := 0 }) ∧
    ∃ e, c7dimg.read_io badDepthBMP = .error e ∧
      e.DIB_depth = some 3 ∧ e.initialised = c7dimg.initialised ∧ e.parray = none :=
  ⟨claim_C7.1 c7dimg 1 1 rfl rfl rfl, claim_C7.2 c7dimg⟩

/-- A valid, initialised 1x1 8-bit image with the illegal compression value
2 for its depth (RLE4 is only legal for depth 4). -/
def c7img : MicroBMP :=
  { MicroBMP.empty with
    DIB_w := some 1, DIB_h := some 1, DIB_depth := some 8, DIB_comp := 2,
    ppb := some 1, pmask := some 255, palette := some [[0, 0, 0]],
    parray := some [0], initialised := true }

/-- C7 counterexample: an image with the illegal depth-8/compression-2
pairing does not make `write_io` raise: the compression field is silently
coerced to 0 and the image is encoded successfully as uncompressed. -/
theorem claim_C7_cex :
    ∃ bs img2, c7img.write_io false = .ok (bs, img2) ∧
      c7img.DIB_depth = some 8 ∧ c7img.DIB_comp = 2 ∧ img2.DIB_comp = 0 := by
  refine ⟨_, _, rfl, rfl, rfl, rfl⟩

/-- C9 (amended): a decode failure does leave a partially-populated image
observable to the caller: the object on which `read_io` raised has the
header fields already overwritten from the stream (here the invalid depth
3), its pixel array cleared, and the `initialised` flag still carrying its
pre-call value, so a previously valid image still claims to be initialised
after the failed load. -/
theorem claim_C9 (img : MicroBMP) (hini : img.initialised = true) :
    ∃ e, img.read_io badDepthBMP = .error e ∧ e.initialised = true ∧
      e.parray = none ∧ e.DIB_depth = some 3 ∧ e.BMP_size = some 62 :=
  ⟨_, read_io_badDepth img, hini, rfl, rfl, rfl⟩

/-- A valid, initialised 3x2 1-bit image in its freshly constructed state. -/
def c9img : MicroBMP :=
  match MicroBMP.create (some 3) (some 2) (some 1) none with
  | some i => i
  | none => MicroBMP.empty

theorem claim_C9_witness :
    ∃ e, c9img.read_io badDepthBMP = .error e ∧ e.initialised = true ∧
      e.parray = none ∧ e.DIB_depth = some 3 ∧ e.BMP_size = some 62 :=
  claim_C9 c9img (by decide)

/-- C9 counterexample: on a valid initialised image, the failed decode of
the invalid-depth stream returns an error state that differs from the
previous state yet still has `initialised = true` — a half-updated object
replacing the previously valid one. -/
theorem claim_C9_cex :
    ∃ e, c9img.read_io badDepthBMP = .error e ∧ e ≠ c9img ∧
      e.initialised = true ∧ e.parray = none := by
  refine ⟨_, rfl, by decide, by decide, rfl⟩

theorem leNat_toLE (k : Nat) : ∀ n : Nat, leNat (toLE n k) = n % 256 ^ k := by
  induction k with
  | zero =>
    intro n
    simp [toLE, leNat, Nat.mod_one]
  | succ k ih =>
    intro n
    rw [toLE, leNat, ih (n / 256), pow_succ' 256 k, Nat.mod_mul]

theorem unpackU32_toLE (n : Nat) : unpackU32 (toLE n 4) = some (n % 4294967296) := by
  rw [unpackU32, if_pos (toLE_length n 4), leNat_toLE]
  norm_num

theorem unpackU32_toLE_small (n : Nat) (h : n < 4294967296) :
    unpackU32 (toLE n 4) = some n := by
  rw [unpackU32_toLE, Nat.mod_eq_of_lt h]

theorem toSigned32_small (n : Nat) (h : n < 2147483648) : toSigned32 n = (n : Int) := by
  rw [toSigned32, if_pos h]

theorem toSigned32_neg (h : Nat) (h0 : 0 < h) (h31 : h < 2147483648) :
    toSigned32 (4294967296 - h) = -((h : Nat) : Int) := by
  rw [toSigned32, if_neg (by omega)]
  rw [show ((4294967296 - h : Nat) : Int) = 4294967296 - (h : Int) from by push_cast; omega]
  ring

theorem pySlice_chunk (p q r : List Nat) (a b : Nat) (hp : p.length = a)
    (hq : q.length = b - a) : pySlice (p ++ (q ++ r)) a b = q := by
  rw [pySlice, List.drop_left' hp, List.take_left' hq]

theorem bioRead_exact (p r : List Nat) (n : Int) (h0 : 0 ≤ n) (hp : p.length = n.toNat) :
    bioRead (p ++ r) n = (p, r) := by
  rw [bioRead, if_neg (by omega), List.take_left' hp, List.drop_left' hp]

theorem list3_getD (c : List Nat) (hc : c.length = 3) :
    [c.getD 0 0, c.getD 1 0, c.getD 2 0] = c := by
  cases c with
  | nil => simp at hc
  | cons a t =>
    cases t with
    | nil => simp at hc
    | cons b t2 =>
      cases t2 with
      | nil => simp at hc
      | cons c3 t3 =>
        cases t3 with
        | nil => rfl
        | cons e t4 =>
          simp only [List.length_cons] at hc
          omega

theorem getD_lt_256 (c : List Nat) (hb : ∀ b ∈ c, b < 256) (k : Nat) : c.getD k 0 < 256 := by
  by_cases hk : k < c.length
  · exact hb _ (lmem c k hk)
  · rw [List.getD_eq_default _ _ (by omega)]
    norm_num

theorem ceil_div_alloc (n m : Nat) (hm : 0 < m) :
    n / m + (if n % m = 0 then 0 else 1) = (n + m - 1) / m := by
  have hdm := Nat.div_add_mod n m
  have hml : n % m < m := Nat.mod_lt n hm
  rcases Nat.eq_zero_or_pos (n % m) with h0 | h0
  · rw [if_pos h0]
    have he : n + m - 1 = m * (n / m) + (m - 1) := by omega
    have he2 : (m * (n / m) + (m - 1)) / m = n / m + (m - 1) / m := Nat.mul_add_div hm _ _
    have he3 : (m - 1) / m = 0 := Nat.div_eq_of_lt (by omega)
    have he4 : (n + m - 1) / m = n / m + (m - 1) / m := by
      rw [he]
      exact he2
    omega
  · rw [if_neg (by omega)]
    have hx : m * (n / m + 1) = m * (n / m) + m := by ring
    have he : n + m - 1 = m * (n / m + 1) + (n % m - 1) := by omega
    have he2 : (m * (n / m + 1) + (n % m - 1)) / m = (n / m + 1) + (n % m - 1) / m :=
      Nat.mul_add_div hm _ _
    have he3 : (n % m - 1) / m = 0 := Nat.div_eq_of_lt (by omega)
    have he4 : (n + m - 1) / m = (n / m + 1) + (n % m - 1) / m := by
      rw [he]
      exact he2
    omega

theorem flatten_uniform_length (prsN : Nat) :
    ∀ rows : List (List Nat), (∀ r ∈ rows, r.length = prsN) →
      rows.flatten.length = rows.length * prsN := by
  intro rows
  induction rows with
  | nil =>
    intro _
    simp
  | cons r t ih =>
    intro hr
    rw [List.flatten_cons, List.length_append, ih (fun a ha => hr a (by simp [ha])),
      hr r (by simp), List.length_cons]
    ring

theorem flatten_uniform_getD (prsN : Nat) :
    ∀ (rows : List (List Nat)) (i j : Nat), (∀ r ∈ rows, r.length = prsN) →
      i < rows.length → j < prsN →
      rows.flatten.getD (i * prsN + j) 0 = (rows.getD i []).getD j 0 := by
  intro rows
  induction rows with
  | nil =>
    intro i j _ hi _
    exact absurd hi (by simp)
  | cons r t ih =>
    intro i j hr hi hj
    rw [List.flatten_cons]
    cases i with
    | zero =>
      simp only [Nat.zero_mul, Nat.zero_add]
      rw [List.getD_append _ _ _ _ (by rw [hr r (by simp)]; exact hj), List.getD_cons_zero]
    | succ i2 =>
      have hstep : (i2 + 1) * prsN + j = r.length + (i2 * prsN + j) := by
        rw [hr r (by simp)]
        ring
      rw [hstep, getD_skip_front r t.flatten r.length _ rfl,
        ih i2 j (fun a ha => hr a (by simp [ha])) (by simp only [List.length_cons] at hi; omega) hj,
        List.getD_cons_succ]

theorem reverse_getD_row (rows : List (List Nat)) (h y : Nat) (hlen : rows.length = h)
    (hy : y < h) : rows.reverse.getD (h - 1 - y) [] = rows.getD y [] := by
  rw [List.getD_eq_getElem?_getD, List.getD_eq_getElem?_getD,
    List.getElem?_reverse (by rw [hlen]; omega), hlen,
    show h - 1 - (h - 1 - y) = y from by omega]

/-- `_init` on a freshly parsed image: the pixel array was cleared before the
call, so an all-zero array of the computed size is allocated; the palette
just read from the stream is kept. -/
theorem init_alloc_spec (d w h num : Nat) (plt : List (List Nat)) (img : MicroBMP)
    (rsN prsN aszN : Nat)
    (hd : d = 1 ∨ d = 2 ∨ d = 4 ∨ d = 8)
    (hw : img.DIB_w = some ((w : Nat) : Int)) (hh : img.DIB_h = some ((h : Nat) : Int))
    (hdep : img.DIB_depth = some d)
    (hid : img.BMP_id = [66, 77])
    (hr1 : img.BMP_reserved1.length = 2) (hr2 : img.BMP_reserved2.length = 2)
    (hplanes : img.DIB_planes_num = 1)
    (hcomp : img.DIB_comp = 0)
    (hplt : img.palette = some plt) (hpltnum : plt.length = num)
    (hpa : img.parray = none)
    (hrsN : rsN = (w * d + 7) / 8) (hprsN : prsN = (rsN + 3) / 4 * 4)
    (haszN : aszN = (w * h + 8 / d - 1) / (8 / d)) :
    img.init = some (true, { img with
      ppb := some (8 / d), pmask := some (2 ^ d - 1),
      DIB_num_in_plt := some num, palette := some plt,
      parray := some (List.replicate aszN 0),
      BMP_offset := some (((14 + img.DIB_len + num * 4 : Nat)) : Int),
      row_size := some ((rsN : Nat) : Int),
      padded_row_size := some ((prsN : Nat) : Int),
      DIB_raw_size := some (((prsN * h : Nat)) : Int),
      BMP_size := some (((14 + img.DIB_len + num * 4 + prsN * h : Nat)) : Int),
      initialised := true }) := by
  obtain ⟨hdm, hd0, hm0, hd8, hpm⟩ := depth_facts d hd
  have hlegal : d = 1 ∨ d = 2 ∨ d = 4 ∨ d = 8 ∨ d = 24 := by
    rcases hd with rfl | rfl | rfl | rfl <;> norm_num
  rw [MicroBMP.init, hw, hh, hdep]
  dsimp only
  rw [if_pos ⟨hid, hr1, hr2, hplanes, hlegal, Or.inl hcomp⟩]
  simp only [if_pos hd8]
  rw [hplt, hpa]
  dsimp only
  have hwh : ((w : Nat) : Int) * ((h : Nat) : Int) = ((w * h : Nat) : Int) := by
    push_cast
    ring
  rw [hwh, Int_ediv_coe, Int_emod_coe]
  have haeq : aszN = w * h / (8 / d) + (if w * h % (8 / d) = 0 then 0 else 1) := by
    rw [haszN, ceil_div_alloc (w * h) (8 / d) hm0]
  have hrs_cast : MicroBMP.size_from_width d ((w : Nat) : Int) = ((rsN : Nat) : Int) := by
    rw [MicroBMP.size_from_width, hrsN,
      show ((w : Nat) : Int) * ((d : Nat) : Int) + 7 = (((w * d + 7 : Nat)) : Int) from by
        push_cast
        ring]
    rfl
  have hprs_cast : MicroBMP.padded_size_from_size ((rsN : Nat) : Int)
      = ((prsN : Nat) : Int) := by
    rw [MicroBMP.padded_size_from_size, hprsN,
      show ((rsN : Nat) : Int) + 3 = (((rsN + 3 : Nat)) : Int) from by push_cast; ring,
      show ((((rsN + 3 : Nat)) : Int)).ediv 4 = ((((rsN + 3) / 4 : Nat)) : Int) from rfl]
    push_cast
    ring
  have hoff_cast : (14 : Int) + (img.DIB_len : Int) + ((num * 4 : Nat) : Int)
      = (((14 + img.DIB_len + num * 4 : Nat)) : Int) := by
    push_cast
    ring
  have hraw_cast : ((prsN : Nat) : Int) * ((h : Nat) : Int) = ((prsN * h : Nat) : Int) := by
    push_cast
    ring
  have hsz_cast : (((14 + img.DIB_len + num * 4 : Nat)) : Int) + ((prsN * h : Nat) : Int)
      = (((14 + img.DIB_len + num * 4 + prsN * h : Nat)) : Int) := by
    push_cast
    ring
  by_cases hmz : w * h % (8 / d) = 0
  · have hmzc : ((w * h % (8 / d) : Nat) : Int) = 0 := by exact_mod_cast hmz
    rw [if_pos hmzc,
      show ((w * h / (8 / d) : Nat) : Int) + 0 = ((w * h / (8 / d) : Nat) : Int) from by ring]
    have hnn : ¬ (((w * h / (8 / d) : Nat) : Int) < 0) := not_lt.mpr (Int.natCast_nonneg _)
    have haz : aszN = w * h / (8 / d) := by
      have haeq2 := haeq
      rw [if_pos hmz] at haeq2
      omega
    rw [if_neg hnn, Int.toNat_ofNat, show w * h / (8 / d) = aszN from haz.symm]
    dsimp only
    rw [hpm, hpltnum, hrs_cast, hprs_cast, hoff_cast, hraw_cast, hsz_cast]
    simp only [if_pos hcomp]
  · have hmzc : ¬ (((w * h % (8 / d) : Nat) : Int) = 0) := by
      intro hcon
      exact hmz (by exact_mod_cast hcon)
    rw [if_neg hmzc,
      show ((w * h / (8 / d) : Nat) : Int) + 1 = ((w * h / (8 / d) + 1 : Nat) : Int) from by
        push_cast
        ring]
    have hnn : ¬ (((w * h / (8 / d) + 1 : Nat) : Int) < 0) := not_lt.mpr (Int.natCast_nonneg _)
    have haz : aszN = w * h / (8 / d) + 1 := by
      have haeq2 := haeq
      rw [if_neg hmz] at haeq2
      omega
    rw [if_neg hnn, Int.toNat_ofNat, show w * h / (8 / d) + 1 = aszN from haz.symm]
    dsimp only
    rw [hpm, hpltnum, hrs_cast, hprs_cast, hoff_cast, hraw_cast, hsz_cast]
    simp only [if_pos hcomp]

/-- The palette-reading loop on a stream beginning with the BGR0 quadruples
of `plt` reads back exactly `plt` and leaves the rest of the stream. -/
theorem readPltLoop_read_spec (img : MicroBMP) :
    ∀ (plt acc : List (List Nat)) (rest : List Nat),
    (∀ c ∈ plt, c.length = 3 ∧ ∀ b ∈ c, b < 256) →
    img.readPltLoop acc (pltBytes plt ++ rest) plt.length
      = .ok ({ img with palette := some (acc ++ plt) }, rest) := by
  intro plt
  induction plt with
  | nil =>
    intro acc rest _
    simp only [pltBytes, List.nil_append, List.length_nil]
    rw [MicroBMP.readPltLoop]
    simp
  | cons c t ih =>
    intro acc rest hok
    obtain ⟨hc3, hcb⟩ := hok c (by simp)
    simp only [List.length_cons]
    rw [MicroBMP.readPltLoop]
    have hre : pltBytes (c :: t) ++ rest
        = [c.getD 2 0, c.getD 1 0, c.getD 0 0, 0] ++ (pltBytes t ++ rest) := by
      simp [pltBytes, List.append_assoc]
    rw [hre, bioRead_exact _ _ 4 (by norm_num) (by simp)]
    dsimp only
    rw [show pyGet [c.getD 2 0, c.getD 1 0, c.getD 0 0, 0] 2 = some (c.getD 0 0) from rfl,
      show pyGet [c.getD 2 0, c.getD 1 0, c.getD 0 0, 0] 1 = some (c.getD 1 0) from rfl,
      show pyGet [c.getD 2 0, c.getD 1 0, c.getD 0 0, 0] 0 = some (c.getD 2 0) from rfl]
    dsimp only
    rw [if_pos ⟨getD_lt_256 c hcb 0, getD_lt_256 c hcb 1, getD_lt_256 c hcb 2⟩]
    have hcol : acc ++ [[c.getD 0 0, c.getD 1 0, c.getD 2 0]] = acc ++ [c] := by
      rw [list3_getD c hc3]
    rw [hcol, ih (acc ++ [c]) rest (fun a ha => hok a (by simp [ha]))]
    rw [show (acc ++ [c]) ++ t = acc ++ (c :: t) from by simp]

/-- Characterization of the uncompressed row-reading loop for indexed depths
on a stream of `cnt` padded rows of `prsN` bytes: it succeeds, changes only
the pixel array, and each covered grid row holds the packed values of its
stream row (top-down: stream row `i` is grid row `k+i`; bottom-up: grid row
`h-1-(k+i)`). -/
theorem readRows_spec (d w h rsN prsN : Nat) (istd : Bool)
    (hd : d = 1 ∨ d = 2 ∨ d = 4 ∨ d = 8) (hw0 : 0 < w)
    (hrsN : rsN = (w * d + 7) / 8) (hple : rsN ≤ prsN) :
    ∀ (cnt k : Nat) (img : MicroBMP) (ps bs : List Nat),
    img.IndexedOK d w h ps → k + cnt = h → cnt * prsN ≤ bs.length →
    ∃ img2 ps2,
      img.readRows istd (h : Int) (w : Int) d (prsN : Int) bs (List.range' k cnt)
        = .ok img2 ∧
      img2 = { img with parray := some ps2 } ∧
      img2.IndexedOK d w h ps2 ∧
      (∀ x y : Nat, x < w → y < h →
        pixVal d w ps2 x y =
          if k ≤ (if istd then y else h - 1 - y) ∧ (if istd then y else h - 1 - y) < k + cnt
          then extByte d (x % (8 / d))
            (bs.getD (((if istd then y else h - 1 - y) - k) * prsN + x / (8 / d)) 0)
          else pixVal d w ps x y) := by
  intro cnt
  induction cnt with
  | zero =>
    intro k img ps bs hok hkc hbl
    obtain ⟨hini, hdep, hdd, hppb, hpmask, hwF, hhF, hpa, hlen, hbytes⟩ := hok
    refine ⟨img, ps, ?_, (update_parray_self img ps hpa).symm,
      ⟨hini, hdep, hdd, hppb, hpmask, hwF, hhF, hpa, hlen, hbytes⟩, ?_⟩
    · simp [MicroBMP.readRows, List.range']
    · intro x y hx hy
      rw [if_neg (by omega)]
  | succ cnt ih =>
    intro k img ps bs hok hkc hbl
    have hok0 := hok
    obtain ⟨hini, hdep, hdd, hppb, hpmask, hwF, hhF, hpa, hlen, hbytes⟩ := hok0
    obtain ⟨hdm, hd0, hm0, hd8, hpm⟩ := depth_facts d hd
    have hmul : (cnt + 1) * prsN = cnt * prsN + prsN := by ring
    have hprsbl : prsN ≤ bs.length := by omega
    have hkh : k < h := by omega
    set yN : Nat := if istd then k else h - 1 - k with hyNdef
    have hyNh : yN < h := by
      rw [hyNdef]
      split <;> omega
    have hyc : (if istd then ((k : Nat) : Int) else ((h : Nat) : Int) - ((k : Nat) : Int) - 1)
        = ((yN : Nat) : Int) := by
      rw [hyNdef]
      cases istd <;> simp <;> omega
    have htlen : (bs.take prsN).length = prsN := by
      rw [List.length_take]
      omega
    have hceilrs : (w + 8 / d - 1) / (8 / d) = rsN := by
      rw [ceil_bytes_eq w d (8 / d) hd0 hdm hw0, hrsN]
    have hxbnd : ∀ xi : Nat, xi < w → xi / (8 / d) < (bs.take prsN).length := by
      intro xi hxi
      rw [htlen]
      have h1 : xi / (8 / d) < rsN := pix_byte_lt xi w (8 / d) rsN hm0 hxi (le_of_eq hceilrs)
      omega
    have hvals : (List.range (((w : Nat) : Int)).toNat).map
        (fun xi => (img.extract_from_bytes (bs.take prsN) ((xi : Nat) : Int)).map
          PixValue.idx)
        = ((List.range w).map (fun xi => extByte d (xi % (8 / d))
            ((bs.take prsN).getD (xi / (8 / d)) 0))).map
          (fun v => some (PixValue.idx v)) := by
      rw [Int.toNat_ofNat, List.map_map]
      refine List.map_congr_left ?_
      intro xi hxi
      rw [List.mem_range] at hxi
      rw [extract_spec img d w h ps (bs.take prsN) hok xi (hxbnd xi hxi)]
      rfl
    obtain ⟨img1, ps1, hrun, heq1, hok1, hpix1⟩ :=
      emitPixels_idx_spec d w h
        ((List.range w).map (fun xi => extByte d (xi % (8 / d))
          ((bs.take prsN).getD (xi / (8 / d)) 0)))
        img ps hok 0 yN hyNh
        (by rw [List.length_map, List.length_range]; omega)
    rw [Nat.cast_zero] at hrun
    obtain ⟨img2, ps2, hrun2, heq2, hok2, hpix2⟩ :=
      ih (k + 1) img1 ps1 (bs.drop prsN) hok1 (by omega)
        (by rw [List.length_drop]; omega)
    refine ⟨img2, ps2, ?_, ?_, hok2, ?_⟩
    · rw [List.range'_succ k cnt 1, MicroBMP.readRows]
      rw [if_pos hd8, bioRead_ofNat bs prsN]
      dsimp only
      rw [hyc, hvals, hrun]
      dsimp only
      exact hrun2
    · rw [heq2, heq1]
    · intro x y hx hy
      rw [hpix2 x y hx hy]
      set j : Nat := if istd then y else h - 1 - y with hjdef
      have hjy : y = yN ↔ j = k := by
        rw [hjdef, hyNdef]
        cases istd <;> simp <;> omega
      have hjh : j < h := by
        rw [hjdef]
        split <;> omega
      by_cases hin : k + 1 ≤ j ∧ j < k + 1 + cnt
      · rw [if_pos hin, if_pos (by omega)]
        have harith : prsN + ((j - (k + 1)) * prsN + x / (8 / d))
            = (j - k) * prsN + x / (8 / d) := by
          have ht : (j - (k + 1) + 1) * prsN = (j - (k + 1)) * prsN + prsN := by ring
          have hjk : j - (k + 1) + 1 = j - k := by omega
          rw [← hjk]
          omega
        rw [List.getD_eq_getElem?_getD, List.getD_eq_getElem?_getD, List.getElem?_drop,
          harith]
      · rw [if_neg hin, hpix1 x y hx hy]
        by_cases hat : j = k
        · have hxrs : x / (8 / d) < rsN :=
            pix_byte_lt x w (8 / d) rsN hm0 hx (le_of_eq hceilrs)
          rw [if_pos ⟨hjy.mpr hat, Nat.zero_le x,
              by rw [List.length_map, List.length_range]; omega⟩,
            Nat.sub_zero, range_map_getD w x hx _,
            Nat.mod_eq_of_lt (extByte_lt d _ _), if_pos (by omega)]
          have htake : (bs.take prsN).getD (x / (8 / d)) 0 = bs.getD (x / (8 / d)) 0 := by
            rw [List.getD_eq_getElem?_getD, List.getD_eq_getElem?_getD, List.getElem?_take,
              if_pos (by omega)]
          rw [htake, show (j - k) * prsN + x / (8 / d) = x / (8 / d) from by
            rw [show j - k = 0 from by omega]
            simp]
        · rw [if_neg (fun hcon => hat (hjy.mp hcon.1)), if_neg (by omega)]

theorem pySlice_head (q r : List Nat) (b : Nat) (hq : q.length = b) :
    pySlice (q ++ r) 0 b = q := by
  rw [pySlice, List.drop_zero]
  exact List.take_left' (by omega)

theorem pySlice_tail (p q : List Nat) (a b : Nat) (hp : p.length = a)
    (hq : q.length ≤ b - a) : pySlice (p ++ q) a b = q := by
  rw [pySlice, List.drop_left' hp]
  exact List.take_of_length_le hq

/-- A constructed indexed BMP byte stream: 54-byte header (40-byte DIB),
palette quadruples and the padded pixel rows; `negH` stores the
two's-complement of the height, announcing top-down row order. -/
def mkBMP (w h d num rawN szN offN : Nat) (negH : Bool) (res1 res2 : List Nat)
    (plt : List (List Nat)) (pix : List Nat) : List Nat :=
  [66, 77] ++ toLE szN 4 ++ res1 ++ res2 ++ toLE offN 4 ++
    (toLE 40 4 ++ toLE w 4 ++ (if negH then toLE (4294967296 - h) 4 else toLE h 4) ++
      toLE 1 2 ++ toLE d 2 ++ toLE 0 4 ++ toLE rawN 4 ++ toLE 2835 4 ++ toLE 2835 4 ++
      toLE num 4 ++ toLE num 4) ++ pltBytes plt ++ pix

theorem pySlice_step (p rest : List Nat) (k a b a2 b2 : Nat) (hp : p.length = k)
    (ha : k ≤ a) (ha2 : a2 = a - k) (hb2 : b2 = b - k) :
    pySlice (p ++ rest) a b = pySlice rest a2 b2 := by
  subst ha2 hb2
  rw [pySlice, pySlice]
  have h1 : (p ++ rest).drop a = rest.drop (a - k) := by
    have h2 : (p ++ rest).drop (p.length + (a - k)) = rest.drop (a - k) :=
      List.drop_append (a - k)
    rw [show p.length + (a - k) = a from by omega] at h2
    exact h2
  rw [h1, show b - a = (b - k) - (a - k) from by omega]

/-- Decoding a constructed indexed BMP stream succeeds: the resulting image
is a well-formed indexed image of the stated dimensions whose palette is the
one encoded in the stream, and pixel (x, y) holds the packed value at byte
`x / ppb` of stream row `y` (top-down, `negH`) or `h-1-y` (bottom-up). -/
theorem read_mkBMP_spec (img0 : MicroBMP) (d w h num rawN szN offN : Nat) (negH : Bool)
    (res1 res2 : List Nat) (plt : List (List Nat)) (pix : List Nat)
    (rsN prsN aszN : Nat)
    (hd : d = 1 ∨ d = 2 ∨ d = 4 ∨ d = 8)
    (hw0 : 0 < w) (hw31 : w < 2147483648)
    (hh0 : 0 < h) (hh31 : h < 2147483648)
    (hnum0 : 0 < num) (hnum32 : num < 4294967296)
    (hpltnum : plt.length = num)
    (hplt : ∀ c ∈ plt, c.length = 3 ∧ ∀ b ∈ c, b < 256)
    (hres1 : res1.length = 2) (hres2 : res2.length = 2)
    (hrsN : rsN = (w * d + 7) / 8) (hprsN : prsN = (rsN + 3) / 4 * 4)
    (haszN : aszN = (w * h + 8 / d - 1) / (8 / d))
    (hpixlen : h * prsN ≤ pix.length) :
    ∃ img2 ps2,
      img0.read_io (mkBMP w h d num rawN szN offN negH res1 res2 plt pix) = .ok img2 ∧
      img2.IndexedOK d w h ps2 ∧
      img2.palette = some plt ∧
      (∀ x y : Nat, x < w → y < h →
        pixVal d w ps2 x y = extByte d (x % (8 / d))
          (pix.getD ((if negH then y else h - 1 - y) * prsN + x / (8 / d)) 0)) := by
  obtain ⟨hdm, hd0, hm0, hd8, hpm⟩ := depth_facts d hd
  have hple : rsN ≤ prsN := by
    have hq := Nat.div_add_mod (rsN + 3) 4
    have hcm : (rsN + 3) / 4 * 4 = 4 * ((rsN + 3) / 4) := by ring
    omega
  have hsigW : toSigned32 (leNat (toLE w 4)) = ((w : Nat) : Int) := by
    rw [leNat_toLE, show (256 : Nat) ^ 4 = 4294967296 from by norm_num,
      Nat.mod_eq_of_lt (by omega), toSigned32_small w (by omega)]
  have hBlen : (if negH then toLE (4294967296 - h) 4 else toLE h 4).length = 4 := by
    cases negH <;> simp [toLE_length]
  have hsigH : toSigned32 (leNat (if negH then toLE (4294967296 - h) 4 else toLE h 4))
      = (if negH then -((h : Nat) : Int) else ((h : Nat) : Int)) := by
    cases negH
    · rw [if_neg Bool.false_ne_true, if_neg Bool.false_ne_true, leNat_toLE,
        show (256 : Nat) ^ 4 = 4294967296 from by norm_num,
        Nat.mod_eq_of_lt (by omega), toSigned32_small h (by omega)]
    · rw [if_pos rfl, if_pos rfl, leNat_toLE,
        show (256 : Nat) ^ 4 = 4294967296 from by norm_num,
        Nat.mod_eq_of_lt (by omega), toSigned32_neg h hh0 hh31]
  have hall : ∀ l : List Nat, ∀ b : Nat, l.length ≤ b → pySlice l 0 b = l := by
    intro l b hl
    rw [pySlice, List.drop_zero]
    exact List.take_of_length_le (by omega)
  rw [show mkBMP w h d num rawN szN offN negH res1 res2 plt pix
      = ([66, 77] ++ toLE szN 4 ++ res1 ++ res2 ++ toLE offN 4)
        ++ ((toLE 40 4)
          ++ ((toLE w 4 ++ (if negH then toLE (4294967296 - h) 4 else toLE h 4) ++ toLE 1 2
              ++ toLE d 2 ++ toLE 0 4 ++ toLE rawN 4 ++ toLE 2835 4 ++ toLE 2835 4
              ++ toLE num 4 ++ toLE num 4)
            ++ (pltBytes plt ++ pix))) from by rw [mkBMP]; simp [List.append_assoc]]
  set hdr : List Nat := [66, 77] ++ toLE szN 4 ++ res1 ++ res2 ++ toLE offN 4 with hhdr
  set payload : List Nat := toLE w 4 ++ (if negH then toLE (4294967296 - h) 4 else toLE h 4)
    ++ toLE 1 2 ++ toLE d 2 ++ toLE 0 4 ++ toLE rawN 4 ++ toLE 2835 4 ++ toLE 2835 4
    ++ toLE num 4 ++ toLE num 4 with hpayl
  have hhdrlen : hdr.length = 14 := by
    rw [hhdr]
    simp [toLE_length, hres1, hres2]
  have hpaylen : payload.length = 36 := by
    rw [hpayl]
    simp [toLE_length, hBlen]
  have h14 : bioRead (hdr ++ (toLE 40 4 ++ (payload ++ (pltBytes plt ++ pix)))) 14
      = (hdr, toLE 40 4 ++ (payload ++ (pltBytes plt ++ pix))) :=
    bioRead_exact _ _ 14 (by norm_num) (by rw [hhdrlen]; rfl)
  rw [MicroBMP.read_io, h14]
  dsimp only
  have hsl02 : pySlice hdr 0 2 = [66, 77] := by
    rw [hhdr]
    simp only [List.append_assoc]
    exact pySlice_head [66, 77] _ 2 rfl
  have hsl26 : pySlice hdr 2 6 = toLE szN 4 := by
    rw [hhdr]
    simp only [List.append_assoc]
    rw [pySlice_step [66, 77] _ 2 2 6 0 4 rfl (by omega) (by norm_num) (by norm_num)]
    exact pySlice_head _ _ 4 (toLE_length szN 4)
  have hsl68 : pySlice hdr 6 8 = res1 := by
    rw [hhdr]
    simp only [List.append_assoc]
    rw [pySlice_step [66, 77] _ 2 6 8 4 6 rfl (by omega) (by norm_num) (by norm_num),
      pySlice_step (toLE szN 4) _ 4 4 6 0 2 (toLE_length szN 4) (by omega) (by norm_num)
        (by norm_num)]
    exact pySlice_head _ _ 2 hres1
  have hsl810 : pySlice hdr 8 10 = res2 := by
    rw [hhdr]
    simp only [List.append_assoc]
    rw [pySlice_step [66, 77] _ 2 8 10 6 8 rfl (by omega) (by norm_num) (by norm_num),
      pySlice_step (toLE szN 4) _ 4 6 8 2 4 (toLE_length szN 4) (by omega) (by norm_num)
        (by norm_num),
      pySlice_step res1 _ 2 2 4 0 2 hres1 (by omega) (by norm_num) (by norm_num)]
    exact pySlice_head _ _ 2 hres2
  have hsl1014 : pySlice hdr 10 14 = toLE offN 4 := by
    rw [hhdr]
    simp only [List.append_assoc]
    rw [pySlice_step [66, 77] _ 2 10 14 8 12 rfl (by omega) (by norm_num) (by norm_num),
      pySlice_step (toLE szN 4) _ 4 8 12 4 8 (toLE_length szN 4) (by omega) (by norm_num)
        (by norm_num),
      pySlice_step res1 _ 2 4 8 2 6 hres1 (by omega) (by norm_num) (by norm_num),
      pySlice_step res2 _ 2 2 6 0 4 hres2 (by omega) (by norm_num) (by norm_num)]
    exact hall _ _ (by rw [toLE_length])
  rw [hsl02, hsl26, unpackU32_toLE szN]
  dsimp only
  rw [hsl68, hsl810, hsl1014, unpackU32_toLE offN]
  dsimp only
  have h4r : bioRead (toLE 40 4 ++ (payload ++ (pltBytes plt ++ pix))) 4
      = (toLE 40 4, payload ++ (pltBytes plt ++ pix)) :=
    bioRead_exact _ _ 4 (by norm_num) (by rw [toLE_length]; rfl)
  rw [h4r]
  dsimp only
  rw [show unpackU32 (pySlice (toLE 40 4) 0 4) = some 40 from rfl]
  dsimp only
  rw [show ((40 : Nat) : Int) - 4 = ((36 : Nat) : Int) from rfl]
  have h36r : bioRead (payload ++ (pltBytes plt ++ pix)) ((36 : Nat) : Int)
      = (payload, pltBytes plt ++ pix) :=
    bioRead_exact _ _ _ (by norm_num) (by rw [hpaylen]; rfl)
  rw [h36r]
  dsimp only
  have s0_4 : pySlice payload 0 4 = toLE w 4 := by
    rw [hpayl]
    simp only [List.append_assoc]
    exact pySlice_head _ _ 4 (toLE_length w 4)
  have s4_8 : pySlice payload 4 8 = (if negH then toLE (4294967296 - h) 4 else toLE h 4) := by
    rw [hpayl]
    simp only [List.append_assoc]
    rw [pySlice_step (toLE w 4) _ 4 4 8 0 4 (toLE_length w 4) (by omega) (by norm_num) (by norm_num)]
    exact pySlice_head _ _ 4 hBlen
  have s8_10 : pySlice payload 8 10 = toLE 1 2 := by
    rw [hpayl]
    simp only [List.append_assoc]
    rw [pySlice_step (toLE w 4) _ 4 8 10 4 6 (toLE_length w 4) (by omega) (by norm_num) (by norm_num),
      pySlice_step (if negH then toLE (4294967296 - h) 4 else toLE h 4) _ 4 4 6 0 2 hBlen (by omega) (by norm_num) (by norm_num)]
    exact pySlice_head _ _ 2 (toLE_length 1 2)
  have s10_12 : pySlice payload 10 12 = toLE d 2 := by
    rw [hpayl]
    simp only [List.append_assoc]
    rw [pySlice_step (toLE w 4) _ 4 10 12 6 8 (toLE_length w 4) (by omega) (by norm_num) (by norm_num),
      pySlice_step (if negH then toLE (4294967296 - h) 4 else toLE h 4) _ 4 6 8 2 4 hBlen (by omega) (by norm_num) (by norm_num),
      pySlice_step (toLE 1 2) _ 2 2 4 0 2 (toLE_length 1 2) (by omega) (by norm_num) (by norm_num)]
    exact pySlice_head _ _ 2 (toLE_length d 2)
  have s12_16 : pySlice payload 12 16 = toLE 0 4 := by
    rw [hpayl]
    simp only [List.append_assoc]
    rw [pySlice_step (toLE w 4) _ 4 12 16 8 12 (toLE_length w 4) (by omega) (by norm_num) (by norm_num),
      pySlice_step (if negH then toLE (4294967296 - h) 4 else toLE h 4) _ 4 8 12 4 8 hBlen (by omega) (by norm_num) (by norm_num),
      pySlice_step (toLE 1 2) _ 2 4 8 2 6 (toLE_length 1 2) (by omega) (by norm_num) (by norm_num),
      pySlice_step (toLE d 2) _ 2 2 6 0 4 (toLE_length d 2) (by omega) (by norm_num) (by norm_num)]
    exact pySlice_head _ _ 4 (toLE_length 0 4)
  have s16_20 : pySlice payload 16 20 = toLE rawN 4 := by
    rw [hpayl]
    simp only [List.append_assoc]
    rw [pySlice_step (toLE w 4) _ 4 16 20 12 16 (toLE_length w 4) (by omega) (by norm_num) (by norm_num),
      pySlice_step (if negH then toLE (4294967296 - h) 4 else toLE h 4) _ 4 12 16 8 12 hBlen (by omega) (by norm_num) (by norm_num),
      pySlice_step (toLE 1 2) _ 2 8 12 6 10 (toLE_length 1 2) (by omega) (by norm_num) (by norm_num),
      pySlice_step (toLE d 2) _ 2 6 10 4 8 (toLE_length d 2) (by omega) (by norm_num) (by norm_num),
      pySlice_step (toLE 0 4) _ 4 4 8 0 4 (toLE_length 0 4) (by omega) (by norm_num) (by norm_num)]
    exact pySlice_head _ _ 4 (toLE_length rawN 4)
  have s20_24 : pySlice payload 20 24 = toLE 2835 4 := by
    rw [hpayl]
    simp only [List.append_assoc]
    rw [pySlice_step (toLE w 4) _ 4 20 24 16 20 (toLE_length w 4) (by omega) (by norm_num) (by norm_num),
      pySlice_step (if negH then toLE (4294967296 - h) 4 else toLE h 4) _ 4 16 20 12 16 hBlen (by omega) (by norm_num) (by norm_num),
      pySlice_step (toLE 1 2) _ 2 12 16 10 14 (toLE_length 1 2) (by omega) (by norm_num) (by norm_num),
      pySlice_step (toLE d 2) _ 2 10 14 8 12 (toLE_length d 2) (by omega) (by norm_num) (by norm_num),
      pySlice_step (toLE 0 4) _ 4 8 12 4 8 (toLE_length 0 4) (by omega) (by norm_num) (by norm_num),
      pySlice_step (toLE rawN 4) _ 4 4 8 0 4 (toLE_length rawN 4) (by omega) (by norm_num) (by norm_num)]
    exact pySlice_head _ _ 4 (toLE_length 2835 4)
  have s24_28 : pySlice payload 24 28 = toLE 2835 4 := by
    rw [hpayl]
    simp only [List.append_assoc]
    rw [pySlice_step (toLE w 4) _ 4 24 28 20 24 (toLE_length w 4) (by omega) (by norm_num) (by norm_num),
      pySlice_step (if negH then toLE (4294967296 - h) 4 else toLE h 4) _ 4 20 24 16 20 hBlen (by omega) (by norm_num) (by norm_num),
      pySlice_step (toLE 1 2) _ 2 16 20 14 18 (toLE_length 1 2) (by omega) (by norm_num) (by norm_num),
      pySlice_step (toLE d 2) _ 2 14 18 12 16 (toLE_length d 2) (by omega) (by norm_num) (by norm_num),
      pySlice_step (toLE 0 4) _ 4 12 16 8 12 (toLE_length 0 4) (by omega) (by norm_num) (by norm_num),
      pySlice_step (toLE rawN 4) _ 4 8 12 4 8 (toLE_length rawN 4) (by omega) (by norm_num) (by norm_num),
      pySlice_step (toLE 2835 4) _ 4 4 8 0 4 (toLE_length 2835 4) (by omega) (by norm_num) (by norm_num)]
    exact pySlice_head _ _ 4 (toLE_length 2835 4)
  have s28_32 : pySlice payload 28 32 = toLE num 4 := by
    rw [hpayl]
    simp only [List.append_assoc]
    rw [pySlice_step (toLE w 4) _ 4 28 32 24 28 (toLE_length w 4) (by omega) (by norm_num) (by norm_num),
      pySlice_step (if negH then toLE (4294967296 - h) 4 else toLE h 4) _ 4 24 28 20 24 hBlen (by omega) (by norm_num) (by norm_num),
      pySlice_step (toLE 1 2) _ 2 20 24 18 22 (toLE_length 1 2) (by omega) (by norm_num) (by norm_num),
      pySlice_step (toLE d 2) _ 2 18 22 16 20 (toLE_length d 2) (by omega) (by norm_num) (by norm_num),
      pySlice_step (toLE 0 4) _ 4 16 20 12 16 (toLE_length 0 4) (by omega) (by norm_num) (by norm_num),
      pySlice_step (toLE rawN 4) _ 4 12 16 8 12 (toLE_length rawN 4) (by omega) (by norm_num) (by norm_num),
      pySlice_step (toLE 2835 4) _ 4 8 12 4 8 (toLE_length 2835 4) (by omega) (by norm_num) (by norm_num),
      pySlice_step (toLE 2835 4) _ 4 4 8 0 4 (toLE_length 2835 4) (by omega) (by norm_num) (by norm_num)]
    exact pySlice_head _ _ 4 (toLE_length num 4)
  have s32_36 : pySlice payload 32 36 = toLE num 4 := by
    rw [hpayl]
    simp only [List.append_assoc]
    rw [pySlice_step (toLE w 4) _ 4 32 36 28 32 (toLE_length w 4) (by omega) (by norm_num) (by norm_num),
      pySlice_step (if negH then toLE (4294967296 - h) 4 else toLE h 4) _ 4 28 32 24 28 hBlen (by omega) (by norm_num) (by norm_num),
      pySlice_step (toLE 1 2) _ 2 24 28 22 26 (toLE_length 1 2) (by omega) (by norm_num) (by norm_num),
      pySlice_step (toLE d 2) _ 2 22 26 20 24 (toLE_length d 2) (by omega) (by norm_num) (by norm_num),
      pySlice_step (toLE 0 4) _ 4 20 24 16 20 (toLE_length 0 4) (by omega) (by norm_num) (by norm_num),
      pySlice_step (toLE rawN 4) _ 4 16 20 12 16 (toLE_length rawN 4) (by omega) (by norm_num) (by norm_num),
      pySlice_step (toLE 2835 4) _ 4 12 16 8 12 (toLE_length 2835 4) (by omega) (by norm_num) (by norm_num),
      pySlice_step (toLE 2835 4) _ 4 8 12 4 8 (toLE_length 2835 4) (by omega) (by norm_num) (by norm_num),
      pySlice_step (toLE num 4) _ 4 4 8 0 4 (toLE_length num 4) (by omega) (by norm_num) (by norm_num)]
    exact hall _ _ (by rw [toLE_length])
  have hDIB : unpackDIB payload
      = some (((w : Nat) : Int), (if negH then -((h : Nat) : Int) else ((h : Nat) : Int)),
          1, d, 0, rawN % 4294967296, 2835, 2835) := by
    rw [unpackDIB, if_pos (by rw [hpaylen]; omega)]
    rw [s0_4, s4_8, s8_10, s10_12, s12_16, s16_20, s20_24, s24_28, hsigW, hsigH]
    rw [show leNat (toLE 1 2) = 1 from rfl, show leNat (toLE 0 4) = 0 from rfl,
      show toSigned32 (leNat (toLE 2835 4)) = 2835 from rfl,
      show leNat (toLE d 2) = d from by
        rw [leNat_toLE, show (256 : Nat) ^ 2 = 65536 from by norm_num]
        exact Nat.mod_eq_of_lt (by omega),
      show leNat (toLE rawN 4) = rawN % 4294967296 from by rw [leNat_toLE]; norm_num]
  rw [hDIB]
  dsimp only
  rw [s28_32, unpackU32_toLE_small num hnum32]
  dsimp only
  rw [s32_36, unpackU32_toLE_small num hnum32]
  dsimp only
  simp only [if_neg (lt_irrefl 40)]
  rw [if_pos hd8, if_neg (show ¬ (num = 0) from by omega)]
  have hpltrun := readPltLoop_read_spec
    { img0 with
      BMP_id := [66, 77], BMP_size := some (((szN % 4294967296 : Nat)) : Int),
      BMP_reserved1 := res1, BMP_reserved2 := res2,
      BMP_offset := some (((offN % 4294967296 : Nat)) : Int), DIB_len := 40,
      DIB_w := some ((w : Nat) : Int),
      DIB_h := some (if negH = true then -((h : Nat) : Int) else ((h : Nat) : Int)),
      DIB_planes_num := 1, DIB_depth := some d, DIB_comp := 0,
      DIB_raw_size := some (((rawN % 4294967296 : Nat)) : Int),
      DIB_hres := 2835, DIB_vres := 2835, DIB_num_in_plt := some num }
    plt [] pix hplt
  simp only [List.nil_append] at hpltrun
  rw [hpltnum] at hpltrun
  rw [hpltrun]
  dsimp only
  cases negH
  · simp only [Bool.false_eq_true, if_false]
    rw [if_neg (show ¬ ((h : Nat) : Int) < 0 from not_lt.mpr (Int.natCast_nonneg h))]
    dsimp only
    have hinit := init_alloc_spec d w h num plt
      { img0 with
        BMP_id := [66, 77], BMP_size := some (((szN % 4294967296 : Nat)) : Int),
        BMP_reserved1 := res1, BMP_reserved2 := res2,
        BMP_offset := some (((offN % 4294967296 : Nat)) : Int), DIB_len := 40,
        DIB_w := some ((w : Nat) : Int), DIB_h := some ((h : Nat) : Int),
        DIB_planes_num := 1, DIB_depth := some d, DIB_comp := 0,
        DIB_raw_size := some (((rawN % 4294967296 : Nat)) : Int),
        DIB_hres := 2835, DIB_vres := 2835, DIB_num_in_plt := some num,
        palette := some plt, parray := none }
      rsN prsN aszN hd rfl rfl rfl rfl hres1 hres2 rfl rfl rfl hpltnum rfl hrsN hprsN haszN
    rw [hinit]
    dsimp only
    rw [if_pos rfl]
    rw [Int.toNat_ofNat, List.range_eq_range']
    have hokI : MicroBMP.IndexedOK
        { img0 with
          BMP_id := [66, 77], BMP_size := some (((14 + 40 + num * 4 + prsN * h : Nat)) : Int),
          BMP_reserved1 := res1, BMP_reserved2 := res2,
          BMP_offset := some (((14 + 40 + num * 4 : Nat)) : Int), DIB_len := 40,
          DIB_w := some ((w : Nat) : Int), DIB_h := some ((h : Nat) : Int),
          DIB_planes_num := 1, DIB_depth := some d, DIB_comp := 0,
          DIB_raw_size := some (((prsN * h : Nat)) : Int),
          DIB_hres := 2835, DIB_vres := 2835, DIB_num_in_plt := some num,
          palette := some plt, parray := some (List.replicate aszN 0),
          ppb := some (8 / d), pmask := some (2 ^ d - 1),
          row_size := some ((rsN : Nat) : Int), padded_row_size := some ((prsN : Nat) : Int),
          initialised := true }
        d w h (List.replicate aszN 0) :=
      ⟨rfl, rfl, hd, rfl, rfl, rfl, rfl, rfl,
        by rw [List.length_replicate]; omega,
        by
          intro b hb
          rw [List.eq_of_mem_replicate hb]
          norm_num⟩
    obtain ⟨img2, ps2, hrr, heq, hok2, hpix⟩ :=
      readRows_spec d w h rsN prsN false hd hw0 hrsN hple h 0 _
        (List.replicate aszN 0) pix hokI (by omega) (by omega)
    refine ⟨img2, ps2, ?_, hok2, ?_, ?_⟩
    · exact hrr
    · rw [heq]
    · intro x y hx hy
      rw [hpix x y hx hy, if_pos (by simp; omega)]
      simp only [Bool.false_eq_true, if_false, if_true, Nat.sub_zero]
  · simp only [if_pos (rfl : (true : Bool) = true), if_true]
    rw [if_pos (show -((h : Nat) : Int) < 0 from by omega)]
    simp only [neg_neg]
    have hinit := init_alloc_spec d w h num plt
      { img0 with
        BMP_id := [66, 77], BMP_size := some (((szN % 4294967296 : Nat)) : Int),
        BMP_reserved1 := res1, BMP_reserved2 := res2,
        BMP_offset := some (((offN % 4294967296 : Nat)) : Int), DIB_len := 40,
        DIB_w := some ((w : Nat) : Int), DIB_h := some ((h : Nat) : Int),
        DIB_planes_num := 1, DIB_depth := some d, DIB_comp := 0,
        DIB_raw_size := some (((rawN % 4294967296 : Nat)) : Int),
        DIB_hres := 2835, DIB_vres := 2835, DIB_num_in_plt := some num,
        palette := some plt, parray := none }
      rsN prsN aszN hd rfl rfl rfl rfl hres1 hres2 rfl rfl rfl hpltnum rfl hrsN hprsN haszN
    rw [hinit]
    dsimp only
    rw [if_pos rfl]
    rw [Int.toNat_ofNat, List.range_eq_range']
    have hokI : MicroBMP.IndexedOK
        { img0 with
          BMP_id := [66, 77], BMP_size := some (((14 + 40 + num * 4 + prsN * h : Nat)) : Int),
          BMP_reserved1 := res1, BMP_reserved2 := res2,
          BMP_offset := some (((14 + 40 + num * 4 : Nat)) : Int), DIB_len := 40,
          DIB_w := some ((w : Nat) : Int), DIB_h := some ((h : Nat) : Int),
          DIB_planes_num := 1, DIB_depth := some d, DIB_comp := 0,
          DIB_raw_size := some (((prsN * h : Nat)) : Int),
          DIB_hres := 2835, DIB_vres := 2835, DIB_num_in_plt := some num,
          palette := some plt, parray := some (List.replicate aszN 0),
          ppb := some (8 / d), pmask := some (2 ^ d - 1),
          row_size := some ((rsN : Nat) : Int), padded_row_size := some ((prsN : Nat) : Int),
          initialised := true }
        d w h (List.replicate aszN 0) :=
      ⟨rfl, rfl, hd, rfl, rfl, rfl, rfl, rfl,
        by rw [List.length_replicate]; omega,
        by
          intro b hb
          rw [List.eq_of_mem_replicate hb]
          norm_num⟩
    obtain ⟨img2, ps2, hrr, heq, hok2, hpix⟩ :=
      readRows_spec d w h rsN prsN true hd hw0 hrsN hple h 0 _
        (List.replicate aszN 0) pix hokI (by omega) (by omega)
    refine ⟨img2, ps2, ?_, hok2, ?_, ?_⟩
    · exact hrr
    · rw [heq]
    · intro x y hx hy
      rw [hpix x y hx hy, if_pos (by simp; omega)]
      simp only [Bool.false_eq_true, if_false, if_true, Nat.sub_zero]

/-- C6: two BMP streams that differ only in the sign of the height field and
in the on-disk order of their pixel rows — the rows stored bottom-up with
positive height versus top-down with negative (two's-complement) height —
decode to the same positive height and the same value at every pixel (x, y)
of the final grid, whatever the decoders' prior states. -/
theorem claim_C6 (img0 img0b : MicroBMP) (d w h num rawN szN offN : Nat)
    (res1 res2 : List Nat) (plt rows : List (List Nat)) (rsN prsN aszN : Nat)
    (hd : d = 1 ∨ d = 2 ∨ d = 4 ∨ d = 8)
    (hw0 : 0 < w) (hw31 : w < 2147483648)
    (hh0 : 0 < h) (hh31 : h < 2147483648)
    (hnum0 : 0 < num) (hnum32 : num < 4294967296)
    (hpltnum : plt.length = num)
    (hplt : ∀ c ∈ plt, c.length = 3 ∧ ∀ b ∈ c, b < 256)
    (hres1 : res1.length = 2) (hres2 : res2.length = 2)
    (hrsN : rsN = (w * d + 7) / 8) (hprsN : prsN = (rsN + 3) / 4 * 4)
    (haszN : aszN = (w * h + 8 / d - 1) / (8 / d))
    (hrows : rows.length = h) (hrowlen : ∀ r ∈ rows, r.length = prsN) :
    ∃ imgA psA imgB psB,
      img0.read_io (mkBMP w h d num rawN szN offN false res1 res2 plt
          rows.reverse.flatten) = .ok imgA ∧
      img0b.read_io (mkBMP w h d num rawN szN offN true res1 res2 plt
          rows.flatten) = .ok imgB ∧
      imgA.DIB_h = some ((h : Nat) : Int) ∧ imgB.DIB_h = some ((h : Nat) : Int) ∧
      imgA.parray = some psA ∧ imgB.parray = some psB ∧
      (∀ x y : Nat, x < w → y < h → pixVal d w psA x y = pixVal d w psB x y) := by
  obtain ⟨hdm, hd0, hm0, hd8, hpm⟩ := depth_facts d hd
  have hple : rsN ≤ prsN := by
    have hq := Nat.div_add_mod (rsN + 3) 4
    have hcm : (rsN + 3) / 4 * 4 = 4 * ((rsN + 3) / 4) := by ring
    omega
  have hrevlen : rows.reverse.length = h := by rw [List.length_reverse, hrows]
  have hrevmem : ∀ r ∈ rows.reverse, r.length = prsN :=
    fun r hr => hrowlen r (List.mem_reverse.mp hr)
  have hflatA : rows.reverse.flatten.length = h * prsN := by
    rw [flatten_uniform_length prsN rows.reverse hrevmem, hrevlen]
  have hflatB : rows.flatten.length = h * prsN := by
    rw [flatten_uniform_length prsN rows hrowlen, hrows]
  obtain ⟨imgA, psA, hA, hokA, hpltA, hpixA⟩ :=
    read_mkBMP_spec img0 d w h num rawN szN offN false res1 res2 plt
      rows.reverse.flatten rsN prsN aszN hd hw0 hw31 hh0 hh31 hnum0 hnum32 hpltnum hplt
      hres1 hres2 hrsN hprsN haszN (le_of_eq hflatA.symm)
  obtain ⟨imgB, psB, hB, hokB, hpltB, hpixB⟩ :=
    read_mkBMP_spec img0b d w h num rawN szN offN true res1 res2 plt
      rows.flatten rsN prsN aszN hd hw0 hw31 hh0 hh31 hnum0 hnum32 hpltnum hplt
      hres1 hres2 hrsN hprsN haszN (le_of_eq hflatB.symm)
  refine ⟨imgA, psA, imgB, psB, hA, hB, hokA.2.2.2.2.2.2.1, hokB.2.2.2.2.2.2.1,
    hokA.2.2.2.2.2.2.2.1, hokB.2.2.2.2.2.2.2.1, ?_⟩
  intro x y hx hy
  rw [hpixA x y hx hy, hpixB x y hx hy]
  simp only [Bool.false_eq_true, if_false, if_true]
  have hxm : x / (8 / d) < prsN := by
    have h1 : x / (8 / d) < rsN :=
      pix_byte_lt x w (8 / d) rsN hm0 hx
        (le_of_eq (by rw [ceil_bytes_eq w d (8 / d) hd0 hdm hw0, hrsN]))
    omega
  rw [flatten_uniform_getD prsN rows.reverse (h - 1 - y) (x / (8 / d)) hrevmem
      (by rw [hrevlen]; omega) hxm,
    flatten_uniform_getD prsN rows y (x / (8 / d)) hrowlen (by rw [hrows]; omega) hxm,
    reverse_getD_row rows h y hrows hy]

theorem claim_C6_witness :
    ∃ imgA psA imgB psB,
      MicroBMP.empty.read_io (mkBMP 1 2 8 1 8 70 62 false [0, 0] [0, 0] [[0, 0, 0]]
          (([[1, 0, 0, 0], [2, 0, 0, 0]] : List (List Nat)).reverse.flatten)) = .ok imgA ∧
      MicroBMP.empty.read_io (mkBMP 1 2 8 1 8 70 62 true [0, 0] [0, 0] [[0, 0, 0]]
          (([[1, 0, 0, 0], [2, 0, 0, 0]] : List (List Nat)).flatten)) = .ok imgB ∧
      imgA.DIB_h = some ((2 : Nat) : Int) ∧ imgB.DIB_h = some ((2 : Nat) : Int) ∧
      imgA.parray = some psA ∧ imgB.parray = some psB ∧
      (∀ x y : Nat, x < 1 → y < 2 → pixVal 8 1 psA x y = pixVal 8 1 psB x y) :=
  claim_C6 MicroBMP.empty MicroBMP.empty 8 1 2 1 8 70 62 [0, 0] [0, 0] [[0, 0, 0]]
    [[1, 0, 0, 0], [2, 0, 0, 0]] 1 4 2 (by norm_num) (by norm_num) (by norm_num)
    (by norm_num) (by norm_num) (by norm_num) (by norm_num) rfl (by decide) rfl rfl
    (by norm_num) (by norm_num) (by norm_num) rfl (by decide)

/-- A well-formed in-memory 24-bit image: validated fields and a pixel array
of at least `w*h*3` bytes, all in range. -/
def MicroBMP.RGBOk (img : MicroBMP) (w h : Nat) (ps : List Nat) : Prop :=
  img.initialised = true ∧
  img.DIB_depth = some 24 ∧
  img.DIB_w = some ((w : Nat) : Int) ∧
  img.DIB_h = some ((h : Nat) : Int) ∧
  img.parray = some ps ∧
  w * h * 3 ≤ ps.length ∧
  (∀ b ∈ ps, b < 256)

instance (img : MicroBMP) (w h : Nat) (ps : List Nat) :
    Decidable (img.RGBOk w h ps) := by
  unfold MicroBMP.RGBOk
  infer_instance

theorem rgb_index_lt (w h x y : Nat) (hx : x < w) (hy : y < h) :
    (y * w + x) * 3 + 2 < w * h * 3 := by
  have h1 : y * w + x + 1 ≤ w * h := by
    calc y * w + x + 1 ≤ y * w + w := by omega
    _ = (y + 1) * w := by ring
    _ ≤ h * w := Nat.mul_le_mul_right w (by omega)
    _ = w * h := Nat.mul_comm h w
  have h2 : (y * w + x + 1) * 3 ≤ w * h * 3 := Nat.mul_le_mul_right 3 h1
  have h3 : (y * w + x + 1) * 3 = (y * w + x) * 3 + 3 := by ring
  omega

/-- Reading a pixel of a 24-bit image returns the (r, g, b) triple stored at
consecutive byte positions `3*(y*w+x)`. -/
theorem getitem24_spec (img : MicroBMP) (w h : Nat) (ps : List Nat)
    (hok : img.RGBOk w h ps) (x y : Nat) (hx : x < w) (hy : y < h) :
    img.getitem (x : Int) (y : Int) none
      = some (PixValue.rgb (ps.getD ((y * w + x) * 3) 0) (ps.getD ((y * w + x) * 3 + 1) 0)
          (ps.getD ((y * w + x) * 3 + 2) 0)) := by
  obtain ⟨hini, hdep, hwF, hhF, hpa, hlen, hbytes⟩ := hok
  have hbnd : (x : Int) < (w : Int) ∧ (y : Int) < (h : Int) :=
    ⟨Int.ofNat_lt.mpr hx, Int.ofNat_lt.mpr hy⟩
  have hpi : ((y : Int) * (w : Int) + (x : Int)) * 3 = (((y * w + x) * 3 : Nat) : Int) := by
    push_cast
    ring
  have hin3 : (y * w + x) * 3 + 2 < ps.length :=
    lt_of_lt_of_le (rgb_index_lt w h x y hx hy) hlen
  have hc1 : (((y * w + x) * 3 : Nat) : Int) + 1 = (((y * w + x) * 3 + 1 : Nat) : Int) := by
    push_cast
    ring
  have hc2 : (((y * w + x) * 3 : Nat) : Int) + 2 = (((y * w + x) * 3 + 2 : Nat) : Int) := by
    push_cast
    ring
  simp only [MicroBMP.getitem, hini, hdep, hwF, hhF, hpa, Bool.not_true, Bool.false_eq_true,
    if_false, hbnd, if_true, hpi, if_neg (show ¬ ((24 : Nat) ≤ 8) from by norm_num),
    hc1, hc2, pyGet_ofNat, lget ps _ (by omega : (y * w + x) * 3 < ps.length),
    lget ps _ (by omega : (y * w + x) * 3 + 1 < ps.length), lget ps _ hin3]
  simp

/-- Writing an (r, g, b) triple to a pixel of a 24-bit image stores the three
channels at consecutive byte positions. -/
theorem setitem24_spec (img : MicroBMP) (w h : Nat) (ps : List Nat)
    (hok : img.RGBOk w h ps) (x y : Nat) (hx : x < w) (hy : y < h) (r g b : Nat)
    (hr : r < 256) (hg : g < 256) (hb : b < 256) :
    img.setitem (x : Int) (y : Int) none (PixValue.rgb r g b)
      = some { img with
          parray := some (((ps.set ((y * w + x) * 3) r).set ((y * w + x) * 3 + 1) g).set
            ((y * w + x) * 3 + 2) b) } := by
  obtain ⟨hini, hdep, hwF, hhF, hpa, hlen, hbytes⟩ := hok
  have hbnd : (x : Int) < (w : Int) ∧ (y : Int) < (h : Int) :=
    ⟨Int.ofNat_lt.mpr hx, Int.ofNat_lt.mpr hy⟩
  have hpi : ((y : Int) * (w : Int) + (x : Int)) * 3 = (((y * w + x) * 3 : Nat) : Int) := by
    push_cast
    ring
  have hin3 : (y * w + x) * 3 + 2 < ps.length :=
    lt_of_lt_of_le (rgb_index_lt w h x y hx hy) hlen
  have hc1 : (((y * w + x) * 3 : Nat) : Int) + 1 = (((y * w + x) * 3 + 1 : Nat) : Int) := by
    push_cast
    ring
  have hc2 : (((y * w + x) * 3 : Nat) : Int) + 2 = (((y * w + x) * 3 + 2 : Nat) : Int) := by
    push_cast
    ring
  have hs1 : pySet ps (((y * w + x) * 3 : Nat) : Int) r
      = some (ps.set ((y * w + x) * 3) r) :=
    pySet_ofNat ps _ r (by omega) hr
  have hs2 : pySet (ps.set ((y * w + x) * 3) r) (((y * w + x) * 3 + 1 : Nat) : Int) g
      = some ((ps.set ((y * w + x) * 3) r).set ((y * w + x) * 3 + 1) g) :=
    pySet_ofNat _ _ g (by rw [List.length_set]; omega) hg
  have hs3 : pySet ((ps.set ((y * w + x) * 3) r).set ((y * w + x) * 3 + 1) g)
      (((y * w + x) * 3 + 2 : Nat) : Int) b
      = some (((ps.set ((y * w + x) * 3) r).set ((y * w + x) * 3 + 1) g).set
          ((y * w + x) * 3 + 2) b) :=
    pySet_ofNat _ _ b (by rw [List.length_set, List.length_set]; omega) hb
  simp only [MicroBMP.setitem, hini, hdep, hwF, hhF, hpa, Bool.not_true, Bool.false_eq_true,
    if_false, hbnd, if_true, hpi, if_neg (show ¬ ((24 : Nat) ≤ 8) from by norm_num),
    hc1, hc2, hs1, hs2, hs3]
  simp

/-- One row of the 24-bit pixel loop: emits `bytes([b, g, r])` per pixel and
leaves the image untouched. -/
theorem writeRowRGB_spec (w h y : Nat) (hy : y < h) :
    ∀ (cnt k : Nat) (img : MicroBMP) (ps sink : List Nat),
    img.RGBOk w h ps → k + cnt = w →
    ∃ B, img.writeRowRGB ((y : Nat) : Int) sink (List.range' k cnt) = .ok (sink ++ B, img) ∧
      B.length = 3 * cnt ∧ (∀ v ∈ B, v < 256) ∧
      (∀ i c : Nat, i < cnt → c < 3 →
        B.getD (3 * i + c) 0 = ps.getD ((y * w + (k + i)) * 3 + (2 - c)) 0) := by
  intro cnt
  induction cnt with
  | zero =>
    intro k img ps sink hok hkc
    refine ⟨[], ?_, rfl, by simp, ?_⟩
    · simp [MicroBMP.writeRowRGB, List.range']
    · intro i c hi hc
      exact absurd hi (Nat.not_lt_zero i)
  | succ cnt ih =>
    intro k img ps sink hok hkc
    have hok0 := hok
    obtain ⟨hini, hdep, hwF, hhF, hpa, hlen, hbytes⟩ := hok0
    have hkw : k < w := by omega
    have hgb : ∀ j : Nat, ps.getD j 0 < 256 := getD_lt_256 ps hbytes
    obtain ⟨B, hrun, hBlen, hBb, hBbyte⟩ := ih (k + 1) img ps
      (sink ++ [ps.getD ((y * w + k) * 3 + 2) 0, ps.getD ((y * w + k) * 3 + 1) 0,
        ps.getD ((y * w + k) * 3) 0]) hok (by omega)
    refine ⟨[ps.getD ((y * w + k) * 3 + 2) 0, ps.getD ((y * w + k) * 3 + 1) 0,
      ps.getD ((y * w + k) * 3) 0] ++ B, ?_, ?_, ?_, ?_⟩
    · rw [List.range'_succ k cnt 1, MicroBMP.writeRowRGB,
        getitem24_spec img w h ps hok k y hkw hy]
      dsimp only
      rw [if_pos ⟨hgb _, hgb _, hgb _⟩, hrun, List.append_assoc]
    · simp only [List.length_append, List.length_cons, List.length_nil, hBlen]
      omega
    · intro v hv
      rcases List.mem_append.mp hv with h1 | h1
      · simp only [List.mem_cons, List.not_mem_nil, or_false] at h1
        rcases h1 with rfl | rfl | rfl <;> exact hgb _
      · exact hBb v h1
    · intro i c hi hc
      cases i with
      | zero =>
        simp only [Nat.mul_zero, Nat.zero_add, Nat.add_zero]
        rw [List.getD_append _ _ _ _ (by simp only [List.length_cons, List.length_nil]; omega)]
        interval_cases c <;> rfl
      | succ i2 =>
        rw [show 3 * (i2 + 1) + c = 3 + (3 * i2 + c) from by ring,
          getD_skip_front _ _ 3 _ (by simp),
          hBbyte i2 c (by omega) hc,
          show k + 1 + i2 = k + (i2 + 1) from by omega]

/-- The bottom-up row loop for 24-bit depth: emits the per-pixel BGR bytes
plus row padding, never touching the image. -/
theorem writeRows24_spec (w h rsN prsN num ppb : Nat) (hw0 : 0 < w)
    (hrsN : rsN = (w * 24 + 7) / 8) (hple : rsN ≤ prsN) :
    ∀ (cnt k : Nat) (img : MicroBMP) (ps sink : List Nat),
    img.RGBOk w h ps → k + cnt = h →
    ∃ bytes,
      MicroBMP.writeRows img ((h : Nat) : Int) ((w : Nat) : Int) 24 ((rsN : Nat) : Int)
          ((prsN : Nat) : Int) num ppb sink (List.range' k cnt)
        = .ok (sink ++ bytes, img) ∧
      bytes.length = cnt * prsN ∧ (∀ v ∈ bytes, v < 256) ∧
      (∀ i x c : Nat, i < cnt → x < w → c < 3 →
        bytes.getD (i * prsN + (3 * x + c)) 0
          = ps.getD (((h - 1 - (k + i)) * w + x) * 3 + (2 - c)) 0) := by
  have hrs3 : rsN = 3 * w := by
    rw [hrsN, show w * 24 + 7 = 8 * (3 * w) + 7 from by ring,
      Nat.mul_add_div (by norm_num)]
    norm_num
  intro cnt
  induction cnt with
  | zero =>
    intro k img ps sink hok hkc
    refine ⟨[], ?_, by simp, by simp, ?_⟩
    · simp [MicroBMP.writeRows, List.range']
    · intro i x c hi hx hc
      exact absurd hi (Nat.not_lt_zero i)
  | succ cnt ih =>
    intro k img ps sink hok hkc
    have hkh : k < h := by omega
    have hmul : (cnt + 1) * prsN = cnt * prsN + prsN := by ring
    set y0 := h - 1 - k with hy0
    have hy0h : y0 < h := by omega
    have hyc : ((h : Nat) : Int) - ((k : Nat) : Int) - 1 = ((y0 : Nat) : Int) := by
      rw [hy0]
      omega
    obtain ⟨B, hrow, hBlen, hBb, hBbyte⟩ :=
      writeRowRGB_spec w h y0 hy0h w 0 img ps sink hok (by omega)
    obtain ⟨bytesR, hrun2, hlen2, hb2, hbyte2⟩ :=
      ih (k + 1) img ps ((sink ++ B) ++ List.replicate (prsN - rsN) 0) hok (by omega)
    have hRP : (B ++ List.replicate (prsN - rsN) 0).length = prsN := by
      simp only [List.length_append, List.length_replicate, hBlen]
      omega
    refine ⟨(B ++ List.replicate (prsN - rsN) 0) ++ bytesR, ?_, ?_, ?_, ?_⟩
    · rw [List.range'_succ k cnt 1, MicroBMP.writeRows]
      dsimp only
      rw [if_neg (show ¬ ((24 : Nat) ≤ 8) from by norm_num), hyc, Int.toNat_ofNat,
        List.range_eq_range', hrow]
      dsimp only
      rw [Int.toNat_sub, hrun2]
      simp [List.append_assoc]
    · simp only [List.length_append, List.length_replicate, hBlen, hlen2]
      omega
    · intro v hv
      rcases List.mem_append.mp hv with h1 | h1
      · rcases List.mem_append.mp h1 with h2 | h2
        · exact hBb v h2
        · rw [List.eq_of_mem_replicate h2]
          norm_num
      · exact hb2 v h1
    · intro i x c hi hx hc
      have hxc : 3 * x + c < 3 * w := by omega
      cases i with
      | zero =>
        simp only [Nat.zero_mul, Nat.zero_add, Nat.add_zero]
        rw [List.getD_append _ _ _ _ (by rw [hRP]; omega),
          List.getD_append _ _ _ _ (by rw [hBlen]; omega),
          hBbyte x c hx hc, ← hy0]
        rw [show 0 + x = x from by omega]
      | succ i2 =>
        have hsm2 : (i2 + 1) * prsN = i2 * prsN + prsN := by ring
        have hshift : (i2 + 1) * prsN + (3 * x + c)
            = prsN + (i2 * prsN + (3 * x + c)) := by omega
        rw [hshift, getD_skip_front _ _ prsN _ hRP,
          hbyte2 i2 x c (by omega) hx hc,
          show k + 1 + i2 = k + (i2 + 1) from by omega]

/-- `_init` on a 24-bit image with an existing pixel array: no palette, no
packing fields, derived sizes from the 3-byte rows. -/
theorem init24_spec (w h : Nat) (img : MicroBMP) (ps : List Nat) (rsN prsN : Nat)
    (hw : img.DIB_w = some ((w : Nat) : Int)) (hh : img.DIB_h = some ((h : Nat) : Int))
    (hdep : img.DIB_depth = some 24)
    (hid : img.BMP_id = [66, 77])
    (hr1 : img.BMP_reserved1.length = 2) (hr2 : img.BMP_reserved2.length = 2)
    (hplanes : img.DIB_planes_num = 1) (hcomp : img.DIB_comp = 0)
    (hpa : img.parray = some ps)
    (hrsN : rsN = (w * 24 + 7) / 8) (hprsN : prsN = (rsN + 3) / 4 * 4) :
    img.init = some (true, { img with
      ppb := none, pmask := none, DIB_num_in_plt := some 0, palette := none,
      parray := some ps,
      BMP_offset := some (((14 + img.DIB_len + 0 * 4 : Nat)) : Int),
      row_size := some ((rsN : Nat) : Int),
      padded_row_size := some ((prsN : Nat) : Int),
      DIB_raw_size := some (((prsN * h : Nat)) : Int),
      BMP_size := some (((14 + img.DIB_len + 0 * 4 + prsN * h : Nat)) : Int),
      initialised := true }) := by
  rw [MicroBMP.init, hw, hh, hdep]
  dsimp only
  rw [if_pos ⟨hid, hr1, hr2, hplanes, by norm_num, Or.inl hcomp⟩]
  simp only [if_neg (show ¬ ((24 : Nat) ≤ 8) from by norm_num)]
  rw [hpa]
  dsimp only
  simp only [if_pos hcomp]
  have hrs_cast : MicroBMP.size_from_width 24 ((w : Nat) : Int) = ((rsN : Nat) : Int) := by
    rw [MicroBMP.size_from_width, hrsN,
      show ((w : Nat) : Int) * ((24 : Nat) : Int) + 7 = (((w * 24 + 7 : Nat)) : Int) from by
        push_cast
        ring]
    rfl
  rw [hrs_cast]
  have hprs_cast : MicroBMP.padded_size_from_size ((rsN : Nat) : Int)
      = ((prsN : Nat) : Int) := by
    rw [MicroBMP.padded_size_from_size, hprsN,
      show ((rsN : Nat) : Int) + 3 = (((rsN + 3 : Nat)) : Int) from by push_cast; ring,
      show ((((rsN + 3 : Nat)) : Int)).ediv 4 = ((((rsN + 3) / 4 : Nat)) : Int) from rfl]
    push_cast
    ring
  rw [hprs_cast]
  rw [show (14 : Int) + (img.DIB_len : Int) + ((0 * 4 : Nat) : Int)
      = (((14 + img.DIB_len + 0 * 4 : Nat)) : Int) from by push_cast; ring]
  rw [show ((prsN : Nat) : Int) * ((h : Nat) : Int) = ((prsN * h : Nat) : Int) from by
    push_cast
    ring]
  rw [show (((14 + img.DIB_len + 0 * 4 : Nat)) : Int) + ((prsN * h : Nat) : Int)
      = (((14 + img.DIB_len + 0 * 4 + prsN * h : Nat)) : Int) from by push_cast; ring]

/-- The extra/palette stage on a 40-byte-DIB 24-bit image: no palette is
written. -/
theorem writePaletteStage_spec24 (C : MicroBMP) (wI hI : Int) (num : Nat)
    (sink3 : List Nat) (hlen : C.DIB_len = 40) :
    C.writePaletteStage wI hI 24 num sink3 = C.writePixelStage wI hI 24 num sink3 := by
  rw [MicroBMP.writePaletteStage, hlen]
  rw [if_neg (lt_irrefl 40)]
  split
  · next heq =>
    exact absurd heq (by simp)
  · next sink4 heq =>
    injection heq with heq2
    subst heq2
    rw [if_neg (show ¬ ((24 : Nat) ≤ 8) from by norm_num)]

/-- The pixel stage of a 24-bit image (whose `ppb` is `None`, read as 0). -/
theorem writePixelStage_spec24 (C : MicroBMP) (w h num rsN prsN : Nat)
    (sink5 : List Nat)
    (hrs : C.row_size = some ((rsN : Nat) : Int))
    (hprs : C.padded_row_size = some ((prsN : Nat) : Int))
    (hppb : C.ppb = none) :
    C.writePixelStage ((w : Nat) : Int) ((h : Nat) : Int) 24 num sink5
      = MicroBMP.writeRows C ((h : Nat) : Int) ((w : Nat) : Int) 24 ((rsN : Nat) : Int)
          ((prsN : Nat) : Int) num 0 sink5 (List.range' 0 h) := by
  rw [MicroBMP.writePixelStage]
  split
  · next rsv prsv ppbf heqa heqb =>
    rw [hrs] at heqa
    rw [hprs] at heqb
    have ha := Option.some.inj heqa
    have hb := Option.some.inj heqb
    subst ha
    subst hb
    rw [hppb]
    dsimp only
    rw [Int.toNat_ofNat, List.range_eq_range']
  · next hfall =>
    exact absurd (hfall ((rsN : Nat) : Int) ((prsN : Nat) : Int) hrs hprs) (by simp)

/-- Full characterization of a successful `write_io` on a validated 24-bit
image: the byte stream is the 14-byte header, the 40-byte DIB header (zero
palette entries) and the bottom-up padded BGR rows; the pixel array is
unchanged. -/
theorem write_io_spec24 (w h : Nat) (img : MicroBMP) (ps : List Nat)
    (rsN prsN offN szN : Nat)
    (hok : img.RGBOk w h ps)
    (hid : img.BMP_id = [66, 77])
    (hplanes : img.DIB_planes_num = 1) (hcomp : img.DIB_comp = 0)
    (hlen40 : img.DIB_len = 40)
    (hhres : img.DIB_hres = 2835) (hvres : img.DIB_vres = 2835)
    (hr1 : img.BMP_reserved1.length = 2) (hr2 : img.BMP_reserved2.length = 2)
    (hw0 : 0 < w) (hh0 : 0 < h)
    (hw31 : w < 2147483648) (hh31 : h < 2147483648)
    (hrsN : rsN = (w * 24 + 7) / 8) (hprsN : prsN = (rsN + 3) / 4 * 4)
    (hoffN : offN = 54) (hszN : szN = offN + prsN * h)
    (hsz32 : szN < 4294967296) :
    ∃ rowB,
      img.write_io false = .ok (
        [66, 77] ++ toLE szN 4 ++ img.BMP_reserved1 ++ img.BMP_reserved2 ++ toLE offN 4 ++
          (toLE 40 4 ++ toLE w 4 ++ toLE h 4 ++ toLE 1 2 ++ toLE 24 2 ++ toLE 0 4 ++
            toLE (prsN * h) 4 ++ toLE 2835 4 ++ toLE 2835 4 ++ toLE 0 4 ++ toLE 0 4) ++
          rowB,
        { img with
          ppb := none, pmask := none, DIB_num_in_plt := some 0, palette := none,
          parray := some ps,
          BMP_offset := some ((offN : Nat) : Int),
          row_size := some ((rsN : Nat) : Int),
          padded_row_size := some ((prsN : Nat) : Int),
          DIB_raw_size := some (((prsN * h : Nat)) : Int),
          BMP_size := some ((szN : Nat) : Int),
          initialised := true }) ∧
      rowB.length = h * prsN ∧ (∀ v ∈ rowB, v < 256) ∧
      (∀ i x c : Nat, i < h → x < w → c < 3 →
        rowB.getD (i * prsN + (3 * x + c)) 0
          = ps.getD (((h - 1 - i) * w + x) * 3 + (2 - c)) 0) := by
  have hok0 := hok
  obtain ⟨hini, hdep, hwF, hhF, hpaF, hlen, hbytes⟩ := hok0
  have hple : rsN ≤ prsN := by
    have hq := Nat.div_add_mod (rsN + 3) 4
    have hc : (rsN + 3) / 4 * 4 = 4 * ((rsN + 3) / 4) := Nat.mul_comm _ _
    have hr : (rsN + 3) % 4 < 4 := Nat.mod_lt _ (by norm_num)
    omega
  have hinit := init24_spec w h img ps rsN prsN hwF hhF hdep hid hr1 hr2
    hplanes hcomp hpaF hrsN hprsN
  rw [hid, hwF, hhF, hdep, hplanes, hcomp, hlen40, hhres, hvres] at hinit
  rw [show (14 + 40 + 0 * 4 : Nat) = offN from by rw [hoffN], ← hszN] at hinit
  set imgC : MicroBMP :=
    { img with
      BMP_id := [66, 77], DIB_w := some ((w : Nat) : Int),
      DIB_h := some ((h : Nat) : Int), DIB_planes_num := 1, DIB_depth := some 24,
      DIB_comp := 0, DIB_hres := 2835, DIB_vres := 2835, DIB_len := 40,
      ppb := none, pmask := none, DIB_num_in_plt := some 0,
      palette := none, parray := some ps,
      BMP_offset := some ((offN : Nat) : Int),
      row_size := some ((rsN : Nat) : Int),
      padded_row_size := some ((prsN : Nat) : Int),
      DIB_raw_size := some (((prsN * h : Nat)) : Int),
      BMP_size := some ((szN : Nat) : Int),
      initialised := true } with hC
  have hCok : imgC.RGBOk w h ps := by
    rw [hC]
    exact ⟨rfl, rfl, rfl, rfl, rfl, hlen, hbytes⟩
  obtain ⟨rowB, hrun, hlen2, hb2, hbyte2⟩ :=
    writeRows24_spec w h rsN prsN 0 0 hw0 hrsN hple h 0 imgC ps
      ([66, 77] ++ toLE szN 4 ++ img.BMP_reserved1 ++ img.BMP_reserved2 ++ toLE offN 4 ++
        (toLE 40 4 ++ toLE w 4 ++ toLE h 4 ++ toLE 1 2 ++ toLE 24 2 ++ toLE 0 4 ++
          toLE (prsN * h) 4 ++ toLE 2835 4 ++ toLE 2835 4 ++ toLE 0 4 ++ toLE 0 4))
      hCok (by omega)
  have hCid : imgC.BMP_id = [66, 77] := by rw [hC]
  have hCsize : imgC.BMP_size = some ((szN : Nat) : Int) := by rw [hC]
  have hCoff : imgC.BMP_offset = some ((offN : Nat) : Int) := by rw [hC]
  have hCw : imgC.DIB_w = some ((w : Nat) : Int) := by rw [hC]
  have hCh : imgC.DIB_h = some ((h : Nat) : Int) := by rw [hC]
  have hCdep : imgC.DIB_depth = some 24 := by rw [hC]
  have hCraw : imgC.DIB_raw_size = some (((prsN * h : Nat)) : Int) := by rw [hC]
  have hCnum : imgC.DIB_num_in_plt = some 0 := by rw [hC]
  have hClen : imgC.DIB_len = 40 := by rw [hC]
  have hCplanes : imgC.DIB_planes_num = 1 := by rw [hC]
  have hCcomp : imgC.DIB_comp = 0 := by rw [hC]
  have hChres : imgC.DIB_hres = 2835 := by rw [hC]
  have hCvres : imgC.DIB_vres = 2835 := by rw [hC]
  have hCr1 : imgC.BMP_reserved1 = img.BMP_reserved1 := by rw [hC]
  have hCr2 : imgC.BMP_reserved2 = img.BMP_reserved2 := by rw [hC]
  have hCrs : imgC.row_size = some ((rsN : Nat) : Int) := by rw [hC]
  have hCprs : imgC.padded_row_size = some ((prsN : Nat) : Int) := by rw [hC]
  have hCppb : imgC.ppb = none := by rw [hC]
  refine ⟨rowB, ?_, ?_, hb2, ?_⟩
  · rw [write_io_start img imgC hcomp hinit,
      writeHeaderStage_spec imgC szN offN ((w : Nat) : Int) ((h : Nat) : Int) 24
        (((prsN * h : Nat)) : Int) 0 hCid hCsize hsz32 hCoff (by omega) hCw hCh hCdep
        hCraw hCnum,
      hCr1, hCr2,
      writeDIBStage_spec imgC w h 24 0 (prsN * h) _ hClen hCplanes hCcomp hChres hCvres
        hw31 hh31 (by omega) (by omega) (by omega),
      writePaletteStage_spec24 imgC ((w : Nat) : Int) ((h : Nat) : Int) 0 _ hClen,
      writePixelStage_spec24 imgC w h 0 rsN prsN _ hCrs hCprs hCppb,
      hrun, hC, hid, hwF, hhF, hdep, hplanes, hcomp, hlen40, hhres, hvres]
  · exact hlen2
  · intro i x c hi hx hc
    have hres := hbyte2 i x c hi hx hc
    rw [Nat.zero_add] at hres
    exact hres

/-- `_init` on a freshly parsed 24-bit image: allocates a `w*h*3` zero pixel
array and clears the palette and packing fields. -/
theorem init_alloc24_spec (w h : Nat) (img : MicroBMP) (rsN prsN : Nat)
    (hw : img.DIB_w = some ((w : Nat) : Int)) (hh : img.DIB_h = some ((h : Nat) : Int))
    (hdep : img.DIB_depth = some 24)
    (hid : img.BMP_id = [66, 77])
    (hr1 : img.BMP_reserved1.length = 2) (hr2 : img.BMP_reserved2.length = 2)
    (hplanes : img.DIB_planes_num = 1) (hcomp : img.DIB_comp = 0)
    (hpa : img.parray = none)
    (hrsN : rsN = (w * 24 + 7) / 8) (hprsN : prsN = (rsN + 3) / 4 * 4) :
    img.init = some (true, { img with
      ppb := none, pmask := none, DIB_num_in_plt := some 0, palette := none,
      parray := some (List.replicate (w * h * 3) 0),
      BMP_offset := some (((14 + img.DIB_len + 0 * 4 : Nat)) : Int),
      row_size := some ((rsN : Nat) : Int),
      padded_row_size := some ((prsN : Nat) : Int),
      DIB_raw_size := some (((prsN * h : Nat)) : Int),
      BMP_size := some (((14 + img.DIB_len + 0 * 4 + prsN * h : Nat)) : Int),
      initialised := true }) := by
  rw [MicroBMP.init, hw, hh, hdep]
  dsimp only
  rw [if_pos ⟨hid, hr1, hr2, hplanes, by norm_num, Or.inl hcomp⟩]
  simp only [if_neg (show ¬ ((24 : Nat) ≤ 8) from by norm_num)]
  rw [hpa]
  dsimp only
  rw [show ((w : Nat) : Int) * ((h : Nat) : Int) * 3 = ((w * h * 3 : Nat) : Int) from by
    push_cast
    ring]
  have hnn : ¬ (((w * h * 3 : Nat) : Int) < 0) := not_lt.mpr (Int.natCast_nonneg _)
  rw [if_neg hnn, Int.toNat_ofNat]
  simp only [if_pos hcomp]
  have hrs_cast : MicroBMP.size_from_width 24 ((w : Nat) : Int) = ((rsN : Nat) : Int) := by
    rw [MicroBMP.size_from_width, hrsN,
      show ((w : Nat) : Int) * ((24 : Nat) : Int) + 7 = (((w * 24 + 7 : Nat)) : Int) from by
        push_cast
        ring]
    rfl
  rw [hrs_cast]
  have hprs_cast : MicroBMP.padded_size_from_size ((rsN : Nat) : Int)
      = ((prsN : Nat) : Int) := by
    rw [MicroBMP.padded_size_from_size, hprsN,
      show ((rsN : Nat) : Int) + 3 = (((rsN + 3 : Nat)) : Int) from by push_cast; ring,
      show ((((rsN + 3 : Nat)) : Int)).ediv 4 = ((((rsN + 3) / 4 : Nat)) : Int) from rfl]
    push_cast
    ring
  rw [hprs_cast]
  rw [show (14 : Int) + (img.DIB_len : Int) + ((0 * 4 : Nat) : Int)
      = (((14 + img.DIB_len + 0 * 4 : Nat)) : Int) from by push_cast; ring]
  rw [show ((prsN : Nat) : Int) * ((h : Nat) : Int) = ((prsN * h : Nat) : Int) from by
    push_cast
    ring]
  rw [show (((14 + img.DIB_len + 0 * 4 : Nat)) : Int) + ((prsN * h : Nat) : Int)
      = (((14 + img.DIB_len + 0 * 4 + prsN * h : Nat)) : Int) from by push_cast; ring]

theorem set_keeps_bytes (l : List Nat) (i v : Nat) (hv : v < 256)
    (hl : ∀ b ∈ l, b < 256) : ∀ b ∈ l.set i v, b < 256 := by
  intro b hb
  rcases List.mem_or_eq_of_mem_set hb with h1 | h1
  · exact hl b h1
  · omega

theorem range_map_getD_p (n i : Nat) (h : i < n) (f : Nat → Nat × Nat × Nat)
    (d : Nat × Nat × Nat) : ((List.range n).map f).getD i d = f i := by
  rw [List.getD_eq_getElem?_getD, List.getElem?_map, List.getElem?_range h]
  rfl

/-- Characterization of the pixel-emitting loop on a 24-bit image, for a run
of in-range RGB writes with byte-sized channels. -/
theorem emitPixels24_spec (w h : Nat) (vs : List (Nat × Nat × Nat)) :
    ∀ (img : MicroBMP) (ps : List Nat), img.RGBOk w h ps →
    (∀ v ∈ vs, v.1 < 256 ∧ v.2.1 < 256 ∧ v.2.2 < 256) →
    ∀ (x0 y0 : Nat), y0 < h → x0 + vs.length ≤ w →
    ∃ img2 ps2,
      img.emitPixels ((x0 : Nat) : Int) ((y0 : Nat) : Int)
          (vs.map (fun v => some (PixValue.rgb v.1 v.2.1 v.2.2)))
        = .ok (img2, ((x0 + vs.length : Nat) : Int)) ∧
      img2 = { img with parray := some ps2 } ∧
      img2.RGBOk w h ps2 ∧
      (∀ x2 y2 c : Nat, x2 < w → y2 < h → c < 3 →
        ps2.getD ((y2 * w + x2) * 3 + c) 0
          = if y2 = y0 ∧ x0 ≤ x2 ∧ x2 < x0 + vs.length
            then [(vs.getD (x2 - x0) (0, 0, 0)).1, (vs.getD (x2 - x0) (0, 0, 0)).2.1,
                (vs.getD (x2 - x0) (0, 0, 0)).2.2].getD c 0
            else ps.getD ((y2 * w + x2) * 3 + c) 0) := by
  induction vs with
  | nil =>
    intro img ps hok hvb x0 y0 hy hxr
    refine ⟨img, ps, ?_, (update_parray_self img ps hok.2.2.2.2.1).symm, hok, ?_⟩
    · simp [MicroBMP.emitPixels]
    · intro x2 y2 c hx2 hy2 hc
      rw [if_neg (by
        simp only [List.length_nil, Nat.add_zero]
        intro hcon
        omega)]
  | cons v vs ih =>
    intro img ps hok hvb x0 y0 hy hxr
    have hok0 := hok
    obtain ⟨hini, hdep, hwF, hhF, hpa, hlen, hbytes⟩ := hok0
    obtain ⟨hv1, hv2, hv3⟩ := hvb v (by simp)
    simp only [List.length_cons] at hxr
    have hx0 : x0 < w := by omega
    set p0 := (y0 * w + x0) * 3 with hp0
    have hp0lt : p0 + 2 < ps.length :=
      lt_of_lt_of_le (rgb_index_lt w h x0 y0 hx0 hy) hlen
    set ps1 := ((ps.set p0 v.1).set (p0 + 1) v.2.1).set (p0 + 2) v.2.2 with hps1
    have hlen1 : ps1.length = ps.length := by
      rw [hps1, List.length_set, List.length_set, List.length_set]
    have hok1 : MicroBMP.RGBOk { img with parray := some ps1 } w h ps1 :=
      ⟨hini, hdep, hwF, hhF, rfl, by rw [hlen1]; exact hlen,
        set_keeps_bytes _ _ _ hv3 (set_keeps_bytes _ _ _ hv2
          (set_keeps_bytes _ _ _ hv1 hbytes))⟩
    obtain ⟨img2, ps2, hrun, heq, hok2, hpix⟩ :=
      ih { img with parray := some ps1 } ps1 hok1
        (fun a ha => hvb a (by simp [ha])) (x0 + 1) y0 hy (by omega)
    refine ⟨img2, ps2, ?_, ?_, hok2, ?_⟩
    · rw [List.map_cons, MicroBMP.emitPixels,
        setitem24_spec img w h ps hok x0 y0 hx0 hy v.1 v.2.1 v.2.2 hv1 hv2 hv3]
      dsimp only
      have hcast : ((x0 : Nat) : Int) + 1 = ((x0 + 1 : Nat) : Int) := by push_cast; ring
      rw [← hp0, ← hps1, hcast, hrun]
      rw [show (x0 + 1) + vs.length = x0 + (vs.length + 1) from by omega]
      rfl
    · rw [heq]
    · intro x2 y2 c hx2 hy2 hc
      rw [hpix x2 y2 c hx2 hy2 hc]
      simp only [List.length_cons]
      by_cases hin : y2 = y0 ∧ (x0 + 1) ≤ x2 ∧ x2 < (x0 + 1) + vs.length
      · rw [if_pos hin, if_pos (show y2 = y0 ∧ x0 ≤ x2 ∧ x2 < x0 + (vs.length + 1) by omega)]
        have hst : x2 - x0 = (x2 - (x0 + 1)) + 1 := by omega
        rw [hst, List.getD_cons_succ]
      · rw [if_neg hin]
        by_cases hat : x2 = x0 ∧ y2 = y0
        · obtain ⟨hax, hay⟩ := hat
          subst hax
          subst hay
          rw [if_pos (show y2 = y2 ∧ x2 ≤ x2 ∧ x2 < x2 + (vs.length + 1) by omega),
            Nat.sub_self, List.getD_cons_zero, ← hp0, hps1]
          have hq0 : p0 < ps.length := by omega
          have hq1 : p0 + 1 < (ps.set p0 v.1).length := by rw [List.length_set]; omega
          have hq2 : p0 + 2 < ((ps.set p0 v.1).set (p0 + 1) v.2.1).length := by
            rw [List.length_set, List.length_set]
            omega
          interval_cases c
          · rw [show p0 + 0 = p0 from by omega, lsetne _ _ _ _ (by omega),
              lsetne _ _ _ _ (by omega), lseteq _ _ _ hq0]
            rfl
          · rw [lsetne _ _ _ _ (by omega), lseteq _ _ _ hq1]
            rfl
          · rw [lseteq _ _ _ hq2]
            rfl
        · rw [if_neg (by
            intro hcon
            rcases Nat.lt_or_ge x2 (x0 + 1) with hlt | hge
            · exact hat ⟨by omega, hcon.1⟩
            · exact hin ⟨hcon.1, hge, by omega⟩)]
          rw [hps1]
          have hne : y2 * w + x2 ≠ y0 * w + x0 := by
            intro hcon
            obtain ⟨he1, he2⟩ := index_inj w x0 y0 x2 y2 hx0 hx2 hcon
            exact hat ⟨he1, he2⟩
          have hne0 : p0 ≠ (y2 * w + x2) * 3 + c := by
            rw [hp0]
            intro hcon
            apply hne
            omega
          have hne1 : p0 + 1 ≠ (y2 * w + x2) * 3 + c := by
            rw [hp0]
            intro hcon
            apply hne
            omega
          have hne2 : p0 + 2 ≠ (y2 * w + x2) * 3 + c := by
            rw [hp0]
            intro hcon
            apply hne
            omega
          rw [lsetne _ _ _ _ hne2, lsetne _ _ _ _ hne1, lsetne _ _ _ _ hne0]

/-- The uncompressed row-reading loop for 24-bit depth on a stream of `cnt`
padded rows of byte-sized values. -/
theorem readRows24_spec (w h rsN prsN : Nat) (istd : Bool) (hw0 : 0 < w)
    (hrsN : rsN = (w * 24 + 7) / 8) (hple : rsN ≤ prsN) :
    ∀ (cnt k : Nat) (img : MicroBMP) (ps bs : List Nat),
    img.RGBOk w h ps → k + cnt = h → cnt * prsN ≤ bs.length →
    (∀ b ∈ bs, b < 256) →
    ∃ img2 ps2,
      img.readRows istd ((h : Nat) : Int) ((w : Nat) : Int) 24 ((prsN : Nat) : Int) bs
          (List.range' k cnt) = .ok img2 ∧
      img2 = { img with parray := some ps2 } ∧
      img2.RGBOk w h ps2 ∧
      (∀ x y c : Nat, x < w → y < h → c < 3 →
        ps2.getD ((y * w + x) * 3 + c) 0 =
          if k ≤ (if istd then y else h - 1 - y) ∧ (if istd then y else h - 1 - y) < k + cnt
          then bs.getD (((if istd then y else h - 1 - y) - k) * prsN + (x * 3 + (2 - c))) 0
          else ps.getD ((y * w + x) * 3 + c) 0) := by
  have hrs3 : rsN = 3 * w := by
    rw [hrsN, show w * 24 + 7 = 8 * (3 * w) + 7 from by ring,
      Nat.mul_add_div (by norm_num)]
    norm_num
  intro cnt
  induction cnt with
  | zero =>
    intro k img ps bs hok hkc hbl hbs
    obtain ⟨hini, hdep, hwF, hhF, hpa, hlen, hbytes⟩ := hok
    refine ⟨img, ps, ?_, (update_parray_self img ps hpa).symm,
      ⟨hini, hdep, hwF, hhF, hpa, hlen, hbytes⟩, ?_⟩
    · simp [MicroBMP.readRows, List.range']
    · intro x y c hx hy hc
      rw [if_neg (by omega)]
  | succ cnt ih =>
    intro k img ps bs hok hkc hbl hbs
    have hmul : (cnt + 1) * prsN = cnt * prsN + prsN := by ring
    have hprsbl : prsN ≤ bs.length := by omega
    have hkh : k < h := by omega
    set yN : Nat := if istd then k else h - 1 - k with hyNdef
    have hyNh : yN < h := by
      rw [hyNdef]
      split <;> omega
    have hyc : (if istd then ((k : Nat) : Int) else ((h : Nat) : Int) - ((k : Nat) : Int) - 1)
        = ((yN : Nat) : Int) := by
      rw [hyNdef]
      cases istd <;> simp <;> omega
    have htlen : (bs.take prsN).length = prsN := by
      rw [List.length_take]
      omega
    have hxbnd : ∀ xi : Nat, xi < w → xi * 3 + 2 < (bs.take prsN).length := by
      intro xi hxi
      rw [htlen]
      omega
    have htkmem : ∀ j : Nat, (bs.take prsN).getD j 0 < 256 := by
      intro j
      by_cases hj : j < (bs.take prsN).length
      · exact hbs _ (List.take_subset prsN bs (lmem _ j hj))
      · rw [List.getD_eq_default _ _ (by omega)]
        norm_num
    have hvals : (List.range (((w : Nat) : Int)).toNat).map
        (fun xi =>
          match pyGet (bs.take prsN) ((xi * 3 + 2 : Nat) : Int),
              pyGet (bs.take prsN) ((xi * 3 + 1 : Nat) : Int),
              pyGet (bs.take prsN) ((xi * 3 : Nat) : Int) with
          | some r, some g, some b => some (PixValue.rgb r g b)
          | _, _, _ => none)
        = ((List.range w).map (fun xi => ((bs.take prsN).getD (xi * 3 + 2) 0,
            (bs.take prsN).getD (xi * 3 + 1) 0, (bs.take prsN).getD (xi * 3) 0))).map
          (fun v => some (PixValue.rgb v.1 v.2.1 v.2.2)) := by
      rw [Int.toNat_ofNat, List.map_map]
      refine List.map_congr_left ?_
      intro xi hxi
      rw [List.mem_range] at hxi
      rw [pyGet_ofNat, pyGet_ofNat, pyGet_ofNat,
        lget _ _ (hxbnd xi hxi), lget _ _ (by have := hxbnd xi hxi; omega),
        lget _ _ (by have := hxbnd xi hxi; omega)]
      rfl
    obtain ⟨img1, ps1, hrun, heq1, hok1, hpix1⟩ :=
      emitPixels24_spec w h
        ((List.range w).map (fun xi => ((bs.take prsN).getD (xi * 3 + 2) 0,
          (bs.take prsN).getD (xi * 3 + 1) 0, (bs.take prsN).getD (xi * 3) 0)))
        img ps hok
        (by
          intro a ha
          rw [List.mem_map] at ha
          obtain ⟨xi, hxi, hfa⟩ := ha
          rw [← hfa]
          exact ⟨htkmem _, htkmem _, htkmem _⟩)
        0 yN hyNh (by rw [List.length_map, List.length_range]; omega)
    rw [Nat.cast_zero] at hrun
    obtain ⟨img2, ps2, hrun2, heq2, hok2, hpix2⟩ :=
      ih (k + 1) img1 ps1 (bs.drop prsN) hok1 (by omega)
        (by rw [List.length_drop]; omega)
        (fun b hb => hbs b (List.drop_subset prsN bs hb))
    refine ⟨img2, ps2, ?_, ?_, hok2, ?_⟩
    · rw [List.range'_succ k cnt 1, MicroBMP.readRows]
      rw [if_neg (show ¬ ((24 : Nat) ≤ 8) from by norm_num), bioRead_ofNat bs prsN]
      dsimp only
      rw [hyc, hvals, hrun]
      dsimp only
      exact hrun2
    · rw [heq2, heq1]
    · intro x y c hx hy hc
      rw [hpix2 x y c hx hy hc]
      set j : Nat := if istd then y else h - 1 - y with hjdef
      have hjy : y = yN ↔ j = k := by
        rw [hjdef, hyNdef]
        cases istd <;> simp <;> omega
      have hjh : j < h := by
        rw [hjdef]
        split <;> omega
      by_cases hin : k + 1 ≤ j ∧ j < k + 1 + cnt
      · rw [if_pos hin, if_pos (by omega)]
        have harith : prsN + ((j - (k + 1)) * prsN + (x * 3 + (2 - c)))
            = (j - k) * prsN + (x * 3 + (2 - c)) := by
          have ht : (j - (k + 1) + 1) * prsN = (j - (k + 1)) * prsN + prsN := by ring
          have hjk : j - (k + 1) + 1 = j - k := by omega
          rw [← hjk]
          omega
        rw [List.getD_eq_getElem?_getD, List.getD_eq_getElem?_getD, List.getElem?_drop,
          harith]
      · rw [if_neg hin, hpix1 x y c hx hy hc]
        by_cases hat : j = k
        · rw [if_pos ⟨hjy.mpr hat, Nat.zero_le x,
              by rw [List.length_map, List.length_range]; omega⟩,
            Nat.sub_zero, range_map_getD_p w x hx _ _, if_pos (by omega)]
          have hxm : x * 3 + 2 < prsN := by omega
          have htake : ∀ jj : Nat, jj < prsN →
              (bs.take prsN).getD jj 0 = bs.getD jj 0 := by
            intro jj hjj
            rw [List.getD_eq_getElem?_getD, List.getD_eq_getElem?_getD, List.getElem?_take,
              if_pos hjj]
          rw [show (j - k) * prsN + (x * 3 + (2 - c)) = x * 3 + (2 - c) from by
            rw [show j - k = 0 from by omega]
            simp]
          rw [htake (x * 3 + 2) (by omega), htake (x * 3 + 1) (by omega),
            htake (x * 3) (by omega)]
          interval_cases c <;> rfl
        · rw [if_neg (fun hcon => hat (hjy.mp hcon.1)), if_neg (by omega)]

/-- Decoding a constructed 24-bit BMP stream (no palette section) succeeds:
the result is a well-formed 24-bit image of the stated dimensions whose
pixel channels come from the BGR bytes of the bottom-up stream rows. -/
theorem read_mk24BMP_spec (img0 : MicroBMP) (w h num rawN szN offN : Nat)
    (res1 res2 : List Nat) (pix : List Nat) (rsN prsN : Nat)
    (hw0 : 0 < w) (hw31 : w < 2147483648)
    (hh0 : 0 < h) (hh31 : h < 2147483648)
    (hres1 : res1.length = 2) (hres2 : res2.length = 2)
    (hrsN : rsN = (w * 24 + 7) / 8) (hprsN : prsN = (rsN + 3) / 4 * 4)
    (hpixlen : h * prsN ≤ pix.length) (hpix256 : ∀ b ∈ pix, b < 256) :
    ∃ img2 ps2,
      img0.read_io (mkBMP w h 24 num rawN szN offN false res1 res2 [] pix) = .ok img2 ∧
      img2.RGBOk w h ps2 ∧
      img2.palette = none ∧
      (∀ x y c : Nat, x < w → y < h → c < 3 →
        ps2.getD ((y * w + x) * 3 + c) 0
          = pix.getD ((h - 1 - y) * prsN + (x * 3 + (2 - c))) 0) := by
  have hple : rsN ≤ prsN := by
    have hq := Nat.div_add_mod (rsN + 3) 4
    have hcm : (rsN + 3) / 4 * 4 = 4 * ((rsN + 3) / 4) := by ring
    omega
  have hsigW : toSigned32 (leNat (toLE w 4)) = ((w : Nat) : Int) := by
    rw [leNat_toLE, show (256 : Nat) ^ 4 = 4294967296 from by norm_num,
      Nat.mod_eq_of_lt (by omega), toSigned32_small w (by omega)]
  have hsigH : toSigned32 (leNat (toLE h 4)) = ((h : Nat) : Int) := by
    rw [leNat_toLE, show (256 : Nat) ^ 4 = 4294967296 from by norm_num,
      Nat.mod_eq_of_lt (by omega), toSigned32_small h (by omega)]
  have hall : ∀ l : List Nat, ∀ b : Nat, l.length ≤ b → pySlice l 0 b = l := by
    intro l b hl
    rw [pySlice, List.drop_zero]
    exact List.take_of_length_le (by omega)
  rw [show mkBMP w h 24 num rawN szN offN false res1 res2 [] pix
      = ([66, 77] ++ toLE szN 4 ++ res1 ++ res2 ++ toLE offN 4)
        ++ ((toLE 40 4)
          ++ ((toLE w 4 ++ toLE h 4 ++ toLE 1 2 ++ toLE 24 2 ++ toLE 0 4 ++ toLE rawN 4
              ++ toLE 2835 4 ++ toLE 2835 4 ++ toLE num 4 ++ toLE num 4)
            ++ pix)) from by rw [mkBMP]; simp [pltBytes, List.append_assoc]]
  set hdr : List Nat := [66, 77] ++ toLE szN 4 ++ res1 ++ res2 ++ toLE offN 4 with hhdr
  set payload : List Nat := toLE w 4 ++ toLE h 4 ++ toLE 1 2 ++ toLE 24 2 ++ toLE 0 4
    ++ toLE rawN 4 ++ toLE 2835 4 ++ toLE 2835 4 ++ toLE num 4 ++ toLE num 4 with hpayl
  have hhdrlen : hdr.length = 14 := by
    rw [hhdr]
    simp [toLE_length, hres1, hres2]
  have hpaylen : payload.length = 36 := by
    rw [hpayl]
    simp [toLE_length]
  have h14 : bioRead (hdr ++ (toLE 40 4 ++ (payload ++ pix))) 14
      = (hdr, toLE 40 4 ++ (payload ++ pix)) :=
    bioRead_exact _ _ 14 (by norm_num) (by rw [hhdrlen]; rfl)
  rw [MicroBMP.read_io, h14]
  dsimp only
  have hsl02 : pySlice hdr 0 2 = [66, 77] := by
    rw [hhdr]
    simp only [List.append_assoc]
    exact pySlice_head [66, 77] _ 2 rfl
  have hsl26 : pySlice hdr 2 6 = toLE szN 4 := by
    rw [hhdr]
    simp only [List.append_assoc]
    rw [pySlice_step [66, 77] _ 2 2 6 0 4 rfl (by omega) (by norm_num) (by norm_num)]
    exact pySlice_head _ _ 4 (toLE_length szN 4)
  have hsl68 : pySlice hdr 6 8 = res1 := by
    rw [hhdr]
    simp only [List.append_assoc]
    rw [pySlice_step [66, 77] _ 2 6 8 4 6 rfl (by omega) (by norm_num) (by norm_num),
      pySlice_step (toLE szN 4) _ 4 4 6 0 2 (toLE_length szN 4) (by omega) (by norm_num)
        (by norm_num)]
    exact pySlice_head _ _ 2 hres1
  have hsl810 : pySlice hdr 8 10 = res2 := by
    rw [hhdr]
    simp only [List.append_assoc]
    rw [pySlice_step [66, 77] _ 2 8 10 6 8 rfl (by omega) (by norm_num) (by norm_num),
      pySlice_step (toLE szN 4) _ 4 6 8 2 4 (toLE_length szN 4) (by omega) (by norm_num)
        (by norm_num),
      pySlice_step res1 _ 2 2 4 0 2 hres1 (by omega) (by norm_num) (by norm_num)]
    exact pySlice_head _ _ 2 hres2
  have hsl1014 : pySlice hdr 10 14 = toLE offN 4 := by
    rw [hhdr]
    simp only [List.append_assoc]
    rw [pySlice_step [66, 77] _ 2 10 14 8 12 rfl (by omega) (by norm_num) (by norm_num),
      pySlice_step (toLE szN 4) _ 4 8 12 4 8 (toLE_length szN 4) (by omega) (by norm_num)
        (by norm_num),
      pySlice_step res1 _ 2 4 8 2 6 hres1 (by omega) (by norm_num) (by norm_num),
      pySlice_step res2 _ 2 2 6 0 4 hres2 (by omega) (by norm_num) (by norm_num)]
    exact hall _ _ (by rw [toLE_length])
  rw [hsl02, hsl26, unpackU32_toLE szN]
  dsimp only
  rw [hsl68, hsl810, hsl1014, unpackU32_toLE offN]
  dsimp only
  have h4r : bioRead (toLE 40 4 ++ (payload ++ pix)) 4 = (toLE 40 4, payload ++ pix) :=
    bioRead_exact _ _ 4 (by norm_num) (by rw [toLE_length]; rfl)
  rw [h4r]
  dsimp only
  rw [show unpackU32 (pySlice (toLE 40 4) 0 4) = some 40 from rfl]
  dsimp only
  rw [show ((40 : Nat) : Int) - 4 = ((36 : Nat) : Int) from rfl]
  have h36r : bioRead (payload ++ pix) ((36 : Nat) : Int) = (payload, pix) :=
    bioRead_exact _ _ _ (by norm_num) (by rw [hpaylen]; rfl)
  rw [h36r]
  dsimp only
  have t0_4 : pySlice payload 0 4 = toLE w 4 := by
    rw [hpayl]
    simp only [List.append_assoc]
    exact pySlice_head _ _ 4 (toLE_length w 4)
  have t4_8 : pySlice payload 4 8 = toLE h 4 := by
    rw [hpayl]
    simp only [List.append_assoc]
    rw [pySlice_step (toLE w 4) _ 4 4 8 0 4 (toLE_length w 4) (by omega) (by norm_num) (by norm_num)]
    exact pySlice_head _ _ 4 (toLE_length h 4)
  have t8_10 : pySlice payload 8 10 = toLE 1 2 := by
    rw [hpayl]
    simp only [List.append_assoc]
    rw [pySlice_step (toLE w 4) _ 4 8 10 4 6 (toLE_length w 4) (by omega) (by norm_num) (by norm_num),
      pySlice_step (toLE h 4) _ 4 4 6 0 2 (toLE_length h 4) (by omega) (by norm_num) (by norm_num)]
    exact pySlice_head _ _ 2 (toLE_length 1 2)
  have t10_12 : pySlice payload 10 12 = toLE 24 2 := by
    rw [hpayl]
    simp only [List.append_assoc]
    rw [pySlice_step (toLE w 4) _ 4 10 12 6 8 (toLE_length w 4) (by omega) (by norm_num) (by norm_num),
      pySlice_step (toLE h 4) _ 4 6 8 2 4 (toLE_length h 4) (by omega) (by norm_num) (by norm_num),
      pySlice_step (toLE 1 2) _ 2 2 4 0 2 (toLE_length 1 2) (by omega) (by norm_num) (by norm_num)]
    exact pySlice_head _ _ 2 (toLE_length 24 2)
  have t12_16 : pySlice payload 12 16 = toLE 0 4 := by
    rw [hpayl]
    simp only [List.append_assoc]
    rw [pySlice_step (toLE w 4) _ 4 12 16 8 12 (toLE_length w 4) (by omega) (by norm_num) (by norm_num),
      pySlice_step (toLE h 4) _ 4 8 12 4 8 (toLE_length h 4) (by omega) (by norm_num) (by norm_num),
      pySlice_step (toLE 1 2) _ 2 4 8 2 6 (toLE_length 1 2) (by omega) (by norm_num) (by norm_num),
      pySlice_step (toLE 24 2) _ 2 2 6 0 4 (toLE_length 24 2) (by omega) (by norm_num) (by norm_num)]
    exact pySlice_head _ _ 4 (toLE_length 0 4)
  have t16_20 : pySlice payload 16 20 = toLE rawN 4 := by
    rw [hpayl]
    simp only [List.append_assoc]
    rw [pySlice_step (toLE w 4) _ 4 16 20 12 16 (toLE_length w 4) (by omega) (by norm_num) (by norm_num),
      pySlice_step (toLE h 4) _ 4 12 16 8 12 (toLE_length h 4) (by omega) (by norm_num) (by norm_num),
      pySlice_step (toLE 1 2) _ 2 8 12 6 10 (toLE_length 1 2) (by omega) (by norm_num) (by norm_num),
      pySlice_step (toLE 24 2) _ 2 6 10 4 8 (toLE_length 24 2) (by omega) (by norm_num) (by norm_num),
      pySlice_step (toLE 0 4) _ 4 4 8 0 4 (toLE_length 0 4) (by omega) (by norm_num) (by norm_num)]
    exact pySlice_head _ _ 4 (toLE_length rawN 4)
  have t20_24 : pySlice payload 20 24 = toLE 2835 4 := by
    rw [hpayl]
    simp only [List.append_assoc]
    rw [pySlice_step (toLE w 4) _ 4 20 24 16 20 (toLE_length w 4) (by omega) (by norm_num) (by norm_num),
      pySlice_step (toLE h 4) _ 4 16 20 12 16 (toLE_length h 4) (by omega) (by norm_num) (by norm_num),
      pySlice_step (toLE 1 2) _ 2 12 16 10 14 (toLE_length 1 2) (by omega) (by norm_num) (by norm_num),
      pySlice_step (toLE 24 2) _ 2 10 14 8 12 (toLE_length 24 2) (by omega) (by norm_num) (by norm_num),
      pySlice_step (toLE 0 4) _ 4 8 12 4 8 (toLE_length 0 4) (by omega) (by norm_num) (by norm_num),
      pySlice_step (toLE rawN 4) _ 4 4 8 0 4 (toLE_length rawN 4) (by omega) (by norm_num) (by norm_num)]
    exact pySlice_head _ _ 4 (toLE_length 2835 4)
  have t24_28 : pySlice payload 24 28 = toLE 2835 4 := by
    rw [hpayl]
    simp only [List.append_assoc]
    rw [pySlice_step (toLE w 4) _ 4 24 28 20 24 (toLE_length w 4) (by omega) (by norm_num) (by norm_num),
      pySlice_step (toLE h 4) _ 4 20 24 16 20 (toLE_length h 4) (by omega) (by norm_num) (by norm_num),
      pySlice_step (toLE 1 2) _ 2 16 20 14 18 (toLE_length 1 2) (by omega) (by norm_num) (by norm_num),
      pySlice_step (toLE 24 2) _ 2 14 18 12 16 (toLE_length 24 2) (by omega) (by norm_num) (by norm_num),
      pySlice_step (toLE 0 4) _ 4 12 16 8 12 (toLE_length 0 4) (by omega) (by norm_num) (by norm_num),
      pySlice_step (toLE rawN 4) _ 4 8 12 4 8 (toLE_length rawN 4) (by omega) (by norm_num) (by norm_num),
      pySlice_step (toLE 2835 4) _ 4 4 8 0 4 (toLE_length 2835 4) (by omega) (by norm_num) (by norm_num)]
    exact pySlice_head _ _ 4 (toLE_length 2835 4)
  have t28_32 : pySlice payload 28 32 = toLE num 4 := by
    rw [hpayl]
    simp only [List.append_assoc]
    rw [pySlice_step (toLE w 4) _ 4 28 32 24 28 (toLE_length w 4) (by omega) (by norm_num) (by norm_num),
      pySlice_step (toLE h 4) _ 4 24 28 20 24 (toLE_length h 4) (by omega) (by norm_num) (by norm_num),
      pySlice_step (toLE 1 2) _ 2 20 24 18 22 (toLE_length 1 2) (by omega) (by norm_num) (by norm_num),
      pySlice_step (toLE 24 2) _ 2 18 22 16 20 (toLE_length 24 2) (by omega) (by norm_num) (by norm_num),
      pySlice_step (toLE 0 4) _ 4 16 20 12 16 (toLE_length 0 4) (by omega) (by norm_num) (by norm_num),
      pySlice_step (toLE rawN 4) _ 4 12 16 8 12 (toLE_length rawN 4) (by omega) (by norm_num) (by norm_num),
      pySlice_step (toLE 2835 4) _ 4 8 12 4 8 (toLE_length 2835 4) (by omega) (by norm_num) (by norm_num),
      pySlice_step (toLE 2835 4) _ 4 4 8 0 4 (toLE_length 2835 4) (by omega) (by norm_num) (by norm_num)]
    exact pySlice_head _ _ 4 (toLE_length num 4)
  have t32_36 : pySlice payload 32 36 = toLE num 4 := by
    rw [hpayl]
    simp only [List.append_assoc]
    rw [pySlice_step (toLE w 4) _ 4 32 36 28 32 (toLE_length w 4) (by omega) (by norm_num) (by norm_num),
      pySlice_step (toLE h 4) _ 4 28 32 24 28 (toLE_length h 4) (by omega) (by norm_num) (by norm_num),
      pySlice_step (toLE 1 2) _ 2 24 28 22 26 (toLE_length 1 2) (by omega) (by norm_num) (by norm_num),
      pySlice_step (toLE 24 2) _ 2 22 26 20 24 (toLE_length 24 2) (by omega) (by norm_num) (by norm_num),
      pySlice_step (toLE 0 4) _ 4 20 24 16 20 (toLE_length 0 4) (by omega) (by norm_num) (by norm_num),
      pySlice_step (toLE rawN 4) _ 4 16 20 12 16 (toLE_length rawN 4) (by omega) (by norm_num) (by norm_num),
      pySlice_step (toLE 2835 4) _ 4 12 16 8 12 (toLE_length 2835 4) (by omega) (by norm_num) (by norm_num),
      pySlice_step (toLE 2835 4) _ 4 8 12 4 8 (toLE_length 2835 4) (by omega) (by norm_num) (by norm_num),
      pySlice_step (toLE num 4) _ 4 4 8 0 4 (toLE_length num 4) (by omega) (by norm_num) (by norm_num)]
    exact hall _ _ (by rw [toLE_length])
  have hDIB : unpackDIB payload
      = some (((w : Nat) : Int), ((h : Nat) : Int), 1, 24, 0, rawN % 4294967296,
          2835, 2835) := by
    rw [unpackDIB, if_pos (by rw [hpaylen]; omega)]
    rw [t0_4, t4_8, t8_10, t10_12, t12_16, t16_20, t20_24, t24_28, hsigW, hsigH]
    rw [show leNat (toLE 1 2) = 1 from rfl, show leNat (toLE 0 4) = 0 from rfl,
      show toSigned32 (leNat (toLE 2835 4)) = 2835 from rfl,
      show leNat (toLE 24 2) = 24 from rfl,
      show leNat (toLE rawN 4) = rawN % 4294967296 from by rw [leNat_toLE]; norm_num]
  rw [hDIB]
  dsimp only
  rw [t28_32, unpackU32_toLE num]
  dsimp only
  rw [t32_36, unpackU32_toLE num]
  dsimp only
  simp only [if_neg (lt_irrefl 40)]
  rw [if_neg (show ¬ ((24 : Nat) ≤ 8) from by norm_num)]
  dsimp only
  rw [if_neg (show ¬ ((h : Nat) : Int) < 0 from not_lt.mpr (Int.natCast_nonneg h))]
  dsimp only
  have hinit := init_alloc24_spec w h
    { img0 with
      BMP_id := [66, 77], BMP_size := some (((szN % 4294967296 : Nat)) : Int),
      BMP_reserved1 := res1, BMP_reserved2 := res2,
      BMP_offset := some (((offN % 4294967296 : Nat)) : Int), DIB_len := 40,
      DIB_w := some ((w : Nat) : Int), DIB_h := some ((h : Nat) : Int),
      DIB_planes_num := 1, DIB_depth := some 24, DIB_comp := 0,
      DIB_raw_size := some (((rawN % 4294967296 : Nat)) : Int),
      DIB_hres := 2835, DIB_vres := 2835, parray := none }
    rsN prsN rfl rfl rfl rfl hres1 hres2 rfl rfl rfl hrsN hprsN
  rw [hinit]
  dsimp only
  rw [if_pos rfl]
  rw [Int.toNat_ofNat, List.range_eq_range']
  have hokI : MicroBMP.RGBOk
      { img0 with
        BMP_id := [66, 77], BMP_size := some (((14 + 40 + 0 * 4 + prsN * h : Nat)) : Int),
        BMP_reserved1 := res1, BMP_reserved2 := res2,
        BMP_offset := some (((14 + 40 + 0 * 4 : Nat)) : Int), DIB_len := 40,
        DIB_w := some ((w : Nat) : Int), DIB_h := some ((h : Nat) : Int),
        DIB_planes_num := 1, DIB_depth := some 24, DIB_comp := 0,
        DIB_raw_size := some (((prsN * h : Nat)) : Int),
        DIB_hres := 2835, DIB_vres := 2835, DIB_num_in_plt := some 0,
        palette := none, parray := some (List.replicate (w * h * 3) 0),
        ppb := none, pmask := none,
        row_size := some ((rsN : Nat) : Int), padded_row_size := some ((prsN : Nat) : Int),
        initialised := true }
      w h (List.replicate (w * h * 3) 0) :=
    ⟨rfl, rfl, rfl, rfl, rfl, by simp,
      by
        intro b hb
        rw [List.eq_of_mem_replicate hb]
        norm_num⟩
  obtain ⟨img2, ps2, hrr, heq, hok2, hpix⟩ :=
    readRows24_spec w h rsN prsN false hw0 hrsN hple h 0 _
      (List.replicate (w * h * 3) 0) pix hokI (by omega) hpixlen hpix256
  refine ⟨img2, ps2, hrr, hok2, ?_, ?_⟩
  · rw [heq]
  · intro x y c hx hy hc
    rw [hpix x y c hx hy hc, if_pos (by simp; omega)]
    simp only [Bool.false_eq_true, if_false, Nat.sub_zero]

/-- C1 (amended): encode-then-decode reproduces width, height and depth for
every image; for an indexed image it also reproduces the palette, but each
decoded pixel is the stored index reduced modulo the palette size, not
necessarily the original value, so an image holding an index at least the
palette length does not round-trip pixel-for-pixel (see the counterexample);
for a 24-bit image the round trip is exact: every pixel channel is
reproduced unchanged (and the palette is `None` on both sides). -/
theorem claim_C1 :
    (∀ (d w h num : Nat) (plt : List (List Nat)) (img img0 : MicroBMP)
      (ps : List Nat) (rsN prsN offN szN aszN : Nat),
      img.IndexedOK d w h ps →
      img.BMP_id = [66, 77] →
      img.DIB_planes_num = 1 → img.DIB_comp = 0 →
      img.DIB_len = 40 →
      img.DIB_hres = 2835 → img.DIB_vres = 2835 →
      img.BMP_reserved1.length = 2 → img.BMP_reserved2.length = 2 →
      img.palette = some plt → plt.length = num → 0 < num →
      (∀ c ∈ plt, c.length = 3 ∧ ∀ v ∈ c, v < 256) →
      0 < w → 0 < h → w < 2147483648 → h < 2147483648 →
      num < 4294967296 →
      rsN = (w * d + 7) / 8 → prsN = (rsN + 3) / 4 * 4 →
      offN = 54 + num * 4 → szN = offN + prsN * h → szN < 4294967296 →
      aszN = (w * h + 8 / d - 1) / (8 / d) →
      ∃ out img1 img2 ps2,
        img.write_io false = .ok (out, img1) ∧
        img0.read_io out = .ok img2 ∧
        img2.DIB_w = some ((w : Nat) : Int) ∧ img2.DIB_h = some ((h : Nat) : Int) ∧
        img2.DIB_depth = some d ∧ img2.palette = some plt ∧
        img2.parray = some ps2 ∧
        (∀ x y : Nat, x < w → y < h →
          pixVal d w ps2 x y = pixVal d w ps x y % num)) ∧
    (∀ (w h : Nat) (img img0 : MicroBMP) (ps : List Nat) (rsN prsN offN szN : Nat),
      img.RGBOk w h ps →
      img.BMP_id = [66, 77] →
      img.DIB_planes_num = 1 → img.DIB_comp = 0 →
      img.DIB_len = 40 →
      img.DIB_hres = 2835 → img.DIB_vres = 2835 →
      img.BMP_reserved1.length = 2 → img.BMP_reserved2.length = 2 →
      0 < w → 0 < h → w < 2147483648 → h < 2147483648 →
      rsN = (w * 24 + 7) / 8 → prsN = (rsN + 3) / 4 * 4 →
      offN = 54 → szN = offN + prsN * h → szN < 4294967296 →
      ∃ out img1 img2 ps2,
        img.write_io false = .ok (out, img1) ∧
        img0.read_io out = .ok img2 ∧
        img2.DIB_w = some ((w : Nat) : Int) ∧ img2.DIB_h = some ((h : Nat) : Int) ∧
        img2.DIB_depth = some 24 ∧ img2.palette = none ∧ img1.palette = none ∧
        img2.parray = some ps2 ∧
        (∀ x y c : Nat, x < w → y < h → c < 3 →
          ps2.getD ((y * w + x) * 3 + c) 0 = ps.getD ((y * w + x) * 3 + c) 0)) := by
  constructor
  · intro d w h num plt img img0 ps rsN prsN offN szN aszN hok hid hplanes hcomp hlen40
      hhres hvres hr1 hr2 hplt hpltnum hnum hpltok hw0 hh0 hw31 hh31 hnum32 hrsN hprsN
      hoffN hszN hsz32 haszN
    have hd := hok.2.2.1
    obtain ⟨hdm, hd0, hm0, hd8, hpm⟩ := depth_facts d hd
    obtain ⟨rowB, psW, hwrite, hokW, hrowlen, hext, hpixW⟩ :=
      write_io_spec d w h num plt img ps rsN prsN offN szN hok hid hplanes hcomp hlen40
        hhres hvres hr1 hr2 hplt hpltnum hnum
        (fun c hc => ⟨by have := (hpltok c hc).1; omega, (hpltok c hc).2⟩)
        hw0 hh0 hw31 hh31 hrsN hprsN hoffN hszN hsz32
    have hstream : [66, 77] ++ toLE szN 4 ++ img.BMP_reserved1 ++ img.BMP_reserved2 ++
        toLE offN 4 ++
        (toLE 40 4 ++ toLE w 4 ++ toLE h 4 ++ toLE 1 2 ++ toLE d 2 ++ toLE 0 4 ++
          toLE (prsN * h) 4 ++ toLE 2835 4 ++ toLE 2835 4 ++ toLE num 4 ++ toLE num 4) ++
        pltBytes plt ++ rowB
        = mkBMP w h d num (prsN * h) szN offN false img.BMP_reserved1 img.BMP_reserved2
            plt rowB := by
      rw [mkBMP, if_neg Bool.false_ne_true]
    obtain ⟨img2, ps2, hread, hokR, hpltR, hpixR⟩ :=
      read_mkBMP_spec img0 d w h num (prsN * h) szN offN false img.BMP_reserved1
        img.BMP_reserved2 plt rowB rsN prsN aszN hd hw0 hw31 hh0 hh31 hnum hnum32
        hpltnum hpltok hr1 hr2 hrsN hprsN haszN (le_of_eq hrowlen.symm)
    refine ⟨_, _, img2, ps2, hwrite, ?_, hokR.2.2.2.2.2.1, hokR.2.2.2.2.2.2.1,
      hokR.2.1, hpltR, hokR.2.2.2.2.2.2.2.1, ?_⟩
    · rw [hstream]
      exact hread
    · intro x y hx hy
      rw [hpixR x y hx hy]
      simp only [Bool.false_eq_true, if_false]
      rw [hext (h - 1 - y) x (by omega) hx, show h - 1 - (h - 1 - y) = y from by omega]
  · intro w h img img0 ps rsN prsN offN szN hok hid hplanes hcomp hlen40 hhres hvres
      hr1 hr2 hw0 hh0 hw31 hh31 hrsN hprsN hoffN hszN hsz32
    obtain ⟨rowB, hwrite, hrowlen, hrowb, hext⟩ :=
      write_io_spec24 w h img ps rsN prsN offN szN hok hid hplanes hcomp hlen40
        hhres hvres hr1 hr2 hw0 hh0 hw31 hh31 hrsN hprsN hoffN hszN hsz32
    have hstream : [66, 77] ++ toLE szN 4 ++ img.BMP_reserved1 ++ img.BMP_reserved2 ++
        toLE offN 4 ++
        (toLE 40 4 ++ toLE w 4 ++ toLE h 4 ++ toLE 1 2 ++ toLE 24 2 ++ toLE 0 4 ++
          toLE (prsN * h) 4 ++ toLE 2835 4 ++ toLE 2835 4 ++ toLE 0 4 ++ toLE 0 4) ++
        rowB
        = mkBMP w h 24 0 (prsN * h) szN offN false img.BMP_reserved1 img.BMP_reserved2
            [] rowB := by
      rw [mkBMP, if_neg Bool.false_ne_true]
      simp [pltBytes, List.append_assoc]
    obtain ⟨img2, ps2, hread, hokR, hpltR, hpixR⟩ :=
      read_mk24BMP_spec img0 w h 0 (prsN * h) szN offN img.BMP_reserved1
        img.BMP_reserved2 rowB rsN prsN hw0 hw31 hh0 hh31 hr1 hr2 hrsN hprsN
        (le_of_eq hrowlen.symm) hrowb
    refine ⟨_, _, img2, ps2, hwrite, ?_, hokR.2.2.1, hokR.2.2.2.1, hokR.2.1, hpltR,
      rfl, hokR.2.2.2.2.1, ?_⟩
    · rw [hstream]
      exact hread
    · intro x y c hx hy hc
      rw [hpixR x y c hx hy hc,
        show x * 3 + (2 - c) = 3 * x + (2 - c) from by ring,
        hext (h - 1 - y) x (2 - c) (by omega) hx (by omega),
        show h - 1 - (h - 1 - y) = y from by omega,
        show 2 - (2 - c) = c from by omega]

/-- A valid, initialised 2x1 24-bit image with arbitrary channel bytes. -/
def c1rgb : MicroBMP :=
  { MicroBMP.empty with
    DIB_w := some 2, DIB_h := some 1, DIB_depth := some 24,
    parray := some [10, 20, 30, 40, 50, 60], initialised := true }

/-- A valid, initialised 1x1 8-bit image with a 2-entry palette whose stored
pixel index 5 is out of range for the palette. -/
def c1img : MicroBMP :=
  { MicroBMP.empty with
    DIB_w := some 1, DIB_h := some 1, DIB_depth := some 8, ppb := some 1,
    pmask := some 255, palette := some [[0, 0, 0], [1, 1, 1]], parray := some [5],
    initialised := true }

/-- C1 counterexample: the round trip is not the identity on pixels: the
image stores index 5 with a 2-entry palette; after encoding and decoding the
pixel reads back as 5 mod 2 = 1, not 5. -/
theorem claim_C1_cex :
    ∃ out img1 img2, c1img.write_io false = .ok (out, img1) ∧
      MicroBMP.empty.read_io out = .ok img2 ∧
      c1img.getitem 0 0 none = some (PixValue.idx 5) ∧
      img2.getitem 0 0 none = some (PixValue.idx 1) := by
  refine ⟨_, _, _, rfl, rfl, rfl, rfl⟩

theorem claim_C1_witness :
    (∃ out img1 img2 ps2,
      c1img.write_io false = .ok (out, img1) ∧
      MicroBMP.empty.read_io out = .ok img2 ∧
      img2.DIB_w = some ((1 : Nat) : Int) ∧ img2.DIB_h = some ((1 : Nat) : Int) ∧
      img2.DIB_depth = some 8 ∧ img2.palette = some [[0, 0, 0], [1, 1, 1]] ∧
      img2.parray = some ps2 ∧
      (∀ x y : Nat, x < 1 → y < 1 →
        pixVal 8 1 ps2 x y = pixVal 8 1 [5] x y % 2)) ∧
    (∃ out img1 img2 ps2,
      c1rgb.write_io false = .ok (out, img1) ∧
      MicroBMP.empty.read_io out = .ok img2 ∧
      img2.DIB_w = some ((2 : Nat) : Int) ∧ img2.DIB_h = some ((1 : Nat) : Int) ∧
      img2.DIB_depth = some 24 ∧ img2.palette = none ∧ img1.palette = none ∧
      img2.parray = some ps2 ∧
      (∀ x y c : Nat, x < 2 → y < 1 → c < 3 →
        ps2.getD ((y * 2 + x) * 3 + c) 0
          = [10, 20, 30, 40, 50, 60].getD ((y * 2 + x) * 3 + c) 0)) :=
  ⟨claim_C1.1 8 1 1 2 [[0, 0, 0], [1, 1, 1]] c1img MicroBMP.empty [5] 1 4 62 66 1
      (by decide) rfl rfl rfl rfl rfl rfl rfl rfl rfl rfl (by norm_num) (by decide)
      (by norm_num) (by norm_num) (by norm_num) (by norm_num) (by norm_num) (by norm_num)
      (by norm_num) (by norm_num) (by norm_num) (by norm_num) (by norm_num),
    claim_C1.2 2 1 c1rgb MicroBMP.empty [10, 20, 30, 40, 50, 60] 6 8 54 62
      (by decide) rfl rfl rfl rfl rfl rfl rfl rfl (by norm_num) (by norm_num)
      (by norm_num) (by norm_num) (by norm_num) (by norm_num) (by norm_num) (by norm_num)
      (by norm_num)⟩
